import Mathlib

/-!
# Stack and component resolution of `internal/exec/utils.go`

A shallow embedding of the stack locator (`checkStackConfig`), the pattern
search and context-prefix derivation of `processConfigAndStacks`, and of
`getContextFromVars`, followed by the properties established for them.

Go strings are Lean strings; a Go `interface{}` value is a `Value`; Go maps are
association lists whose list order is the order in which `range` visits the
keys, and whose lookup returns the entry of the first occurrence of a key. A
function that returns several values returns a structure or a pair, and a
returned `error` is an `Option String` holding the message.
-/

namespace Atmos

/-! ## Configuration values -/

/-- Keys of a `map[interface{}]interface{}`: the hashable dynamic types that a
decoded YAML document uses as keys. -/
inductive Key where
  | str (s : String)
  | int (n : Int)
  | bool (b : Bool)
  deriving DecidableEq, Repr

/-- The dynamic value held by a Go `interface{}` of the configuration tree. A
nil map held in an interface reads like the empty map, so it is the empty
list here. -/
inductive Value where
  | nil
  | str (s : String)
  | int (n : Int)
  | bool (b : Bool)
  | list (xs : List Value)
  | mapSI (m : List (String × Value))
  | mapII (m : List (Key × Value))

/-- The Go type `map[string]interface{}`. -/
abbrev MapSI := List (String × Value)

/-- The Go type `map[interface{}]interface{}`. -/
abbrev MapII := List (Key × Value)

/-- Index expression `m[k]` on a `map[string]interface{}`: the zero value
(the nil interface) when the key is absent. -/
def lookupSI : MapSI → String → Value
  | [], _ => Value.nil
  | (k, v) :: rest, key => if k = key then v else lookupSI rest key

/-- Index expression `m[k]` on a `map[interface{}]interface{}`. -/
def lookupII : MapII → Key → Value
  | [], _ => Value.nil
  | (k, v) :: rest, key => if k = key then v else lookupII rest key

/-- Index expression on a possibly nil `map[interface{}]interface{}`: reading a
nil map yields the zero value. -/
def lookupVars : Option MapII → String → Value
  | none, _ => Value.nil
  | some m, key => lookupII m (Key.str key)

/-- Type assertion `v.(map[interface{}]interface{})`, `none` when not ok. -/
def Value.asMapII : Value → Option MapII
  | Value.mapII m => some m
  | _ => none

/-- Type assertion `v.(map[string]interface{})`, `none` when not ok. -/
def Value.asMapSI : Value → Option MapSI
  | Value.mapSI m => some m
  | _ => none

/-- Type assertion `v.(string)`, `none` when not ok. -/
def Value.asString : Value → Option String
  | Value.str s => some s
  | _ => none

/-! ## The stack locator -/

/-- The six values returned by `checkStackConfig`; `none` is Go's `nil`. -/
structure StackConfigResult where
  componentSection : Option MapSI
  componentVarsSection : Option MapII
  componentBackendSection : Option MapII
  baseComponentPath : String
  command : String
  err : Option String

/-- The statement `return nil, nil, nil, "", "", errors.New(msg)`. -/
def StackConfigResult.fail (msg : String) : StackConfigResult :=
  { componentSection := none, componentVarsSection := none, componentBackendSection := none,
    baseComponentPath := "", command := "", err := some msg }

/-- Message of the first check of `checkStackConfig`. -/
def errStackMissing (stack : String) : String :=
  "Stack '" ++ stack ++ "' does not exist"

/-- Message of the second check of `checkStackConfig`. -/
def errComponentsMissing (stack : String) : String :=
  "'components' section is missing in the stack '" ++ stack ++ "'"

/-- Message of the third check of `checkStackConfig`. -/
def errComponentTypeMissing (componentType stack : String) : String :=
  "'components/" ++ componentType ++ "' section is missing in the stack '" ++ stack ++ "'"

/-- Message of the fourth check of `checkStackConfig`. -/
def errComponentMissing (component stack : String) : String :=
  "Invalid or missing configuration for the component '" ++ component ++
    "' in the stack '" ++ stack ++ "'"

/-- Message of the fifth check of `checkStackConfig`. -/
def errVarsMissing (component stack : String) : String :=
  "Missing 'vars' section for the component '" ++ component ++
    "' in the stack '" ++ stack ++ "'"

/-- The function `checkStackConfig`: checks the stack schema and returns the
component info. -/
def checkStackConfig (stack : String) (stacksMap : MapSI) (componentType component : String) :
    StackConfigResult :=
  match (lookupSI stacksMap stack).asMapII with
  | none => StackConfigResult.fail (errStackMissing stack)
  | some stackSection =>
    match (lookupII stackSection (Key.str "components")).asMapSI with
    | none => StackConfigResult.fail (errComponentsMissing stack)
    | some componentsSection =>
      match (lookupSI componentsSection componentType).asMapSI with
      | none => StackConfigResult.fail (errComponentTypeMissing componentType stack)
      | some componentTypeSection =>
        match (lookupSI componentTypeSection component).asMapSI with
        | none => StackConfigResult.fail (errComponentMissing component stack)
        | some componentSection =>
          match (lookupSI componentSection "vars").asMapII with
          | none => StackConfigResult.fail (errVarsMissing component stack)
          | some componentVarsSection =>
            { componentSection := some componentSection
              componentVarsSection := some componentVarsSection
              componentBackendSection := (lookupSI componentSection "backend").asMapII
              baseComponentPath := ((lookupSI componentSection "component").asString).getD ""
              command := ((lookupSI componentSection "command").asString).getD ""
              err := none }

/-! ## String helpers of the Go standard library -/

namespace strings

/-- Splitting of a character list at every occurrence of `sep`; the empty list
gives one empty piece. -/
def splitChars (sep : Char) : List Char → List (List Char)
  | [] => [[]]
  | c :: cs =>
    if c = sep then [] :: splitChars sep cs
    else
      match splitChars sep cs with
      | [] => [[c]]
      | p :: ps => (c :: p) :: ps

/-- Go `strings.Split(s, sep)` for a separator of one character. -/
def Split (s : String) (sep : Char) : List String :=
  (splitChars sep s.data).map String.mk

/-- Go `strings.Join(elems, sep)`. -/
def Join : List String → String → String
  | [], _ => ""
  | [a], _ => a
  | a :: b :: rest, sep => a ++ sep ++ Join (b :: rest) sep

end strings

/-! ## Context -/

/-- The struct `c.Context`. -/
structure Context where
  Namespace : String
  Tenant : String
  Environment : String
  Stage : String
  Region : String
  deriving DecidableEq, Repr

/-- The function `getContextFromVars`. -/
def getContextFromVars (vars : Option MapII) : Context :=
  let context : Context :=
    { Namespace := "", Tenant := "", Environment := "", Stage := "", Region := "" }
  let context :=
    match (lookupVars vars "namespace").asString with
    | some v => { context with Namespace := v }
    | none => context
  let context :=
    match (lookupVars vars "tenant").asString with
    | some tenant => { context with Tenant := tenant }
    | none => context
  let context :=
    match (lookupVars vars "environment").asString with
    | some environment => { context with Environment := environment }
    | none => context
  let context :=
    match (lookupVars vars "stage").asString with
    | some stage => { context with Stage := stage }
    | none => context
  let context :=
    match (lookupVars vars "region").asString with
    | some region => { context with Region := region }
    | none => context
  context

/-! ## Resolution of the stack of a component -/

/-- The struct `c.ConfigAndStacksInfo`, with the fields that `utils.go` uses. -/
structure ConfigAndStacksInfo where
  Stack : String
  ComponentFromArg : String
  SubCommand : String
  AdditionalArgsAndFlags : List String
  GlobalOptions : List String
  TerraformDir : String
  HelmfileDir : String
  StacksDir : String
  ConfigDir : String
  DeployRunInit : String
  ComponentVarsSection : Option MapII
  BaseComponentPath : String
  Command : String
  ComponentFolderPrefix : String
  ComponentNamePrefix : String
  Component : String
  BaseComponent : String
  Context : Context
  ContextPrefix : String

/-- The zero value of `c.ConfigAndStacksInfo`. -/
def ConfigAndStacksInfo.zero : ConfigAndStacksInfo :=
  { Stack := "", ComponentFromArg := "", SubCommand := "", AdditionalArgsAndFlags := [],
    GlobalOptions := [], TerraformDir := "", HelmfileDir := "", StacksDir := "",
    ConfigDir := "", DeployRunInit := "", ComponentVarsSection := none,
    BaseComponentPath := "", Command := "", ComponentFolderPrefix := "",
    ComponentNamePrefix := "", Component := "", BaseComponent := "",
    Context := { Namespace := "", Tenant := "", Environment := "", Stage := "", Region := "" },
    ContextPrefix := "" }

/-- Error of an empty `stacks.name_pattern`. -/
def errNamePatternMissing : String :=
  "stack name pattern must be provided in 'stacks.name_pattern' config or " ++
    "'ATMOS_STACKS_NAME_PATTERN' ENV variable"

/-- Error of a candidate whose number of parts differs from the pattern's. -/
def errPatternMismatch (stack namePattern : String) : String :=
  "Stack '" ++ stack ++ "' does not match the stack name pattern '" ++ namePattern ++ "'"

/-- Error of a search in which no stack qualified. -/
def errConfigNotFound (component stack namePattern : String) : String :=
  "\nCould not find config for the component '" ++ component ++ "' in the stack '" ++ stack ++
    "'.\n" ++ "Check that all attributes in the stack name pattern '" ++ namePattern ++
    "' are defined in the stack config files.\n" ++
    "Are the component and stack names correct? Did you forget an import?"

/-- Error of a pattern with `{tenant}` on a stack without tenant. -/
def errTenantUndefined (namePattern stack : String) : String :=
  "The stack name pattern '" ++ namePattern ++ "' specifies 'tenant`, but the stack " ++ stack ++
    " does not have a tenant defined"

/-- Error of a pattern with `{environment}` on a stack without environment. -/
def errEnvironmentUndefined (namePattern stack : String) : String :=
  "The stack name pattern '" ++ namePattern ++ "' specifies 'environment`, but the stack " ++
    stack ++ " does not have an environment defined"

/-- Error of a pattern with `{stage}` on a stack without stage. -/
def errStageUndefined (namePattern stack : String) : String :=
  "The stack name pattern '" ++ namePattern ++ "' specifies 'stage`, but the stack " ++ stack ++
    " does not have a stage defined"

/-- The local variables `tenant`, `environment`, `stage` of the pattern search. -/
structure Tokens where
  tenant : String
  environment : String
  stage : String
  deriving DecidableEq, Repr

/-- The loop `for i, part := range stackNamePatternParts` that binds the
placeholders to `stackParts[i]`; both lists have the same length when it runs. -/
def bindTokens : List String → List String → Tokens → Tokens
  | part :: parts, stackPart :: stackParts, t =>
    if part = "\x7btenant\x7d" then
      bindTokens parts stackParts { t with tenant := stackPart }
    else if part = "\x7benvironment\x7d" then
      bindTokens parts stackParts { t with environment := stackPart }
    else if part = "\x7bstage\x7d" then
      bindTokens parts stackParts { t with stage := stackPart }
    else bindTokens parts stackParts t
  | _, _, t => t

/-- One of the three blocks "search for tenant / environment / stage in stack":
the value that the `...Found` flag has after the block. -/
def tokenFound (token : String) (vars : Option MapII) (key : String) : Bool :=
  if token.length > 0 then
    match (lookupVars vars key).asString with
    | some inStack => if inStack ≠ token then false else true
    | none => false
  else true

/-- The variables that the loop over the stacks reads and writes. -/
structure SearchState where
  info : ConfigAndStacksInfo
  tenantFound : Bool
  environmentFound : Bool
  stageFound : Bool

/-- The loop `for stackName := range stacksMap` over the keys still to visit. -/
def searchLoop (stacksMap : MapSI) (componentType : String) (tok : Tokens) :
    List String → SearchState → SearchState
  | [], st => st
  | stackName :: rest, st =>
    let r := checkStackConfig stackName stacksMap componentType st.info.ComponentFromArg
    let info := { st.info with
      ComponentVarsSection := r.componentVarsSection
      BaseComponentPath := r.baseComponentPath
      Command := r.command }
    match r.err with
    | some _ => searchLoop stacksMap componentType tok rest { st with info := info }
    | none =>
      let tenantFound := tokenFound tok.tenant info.ComponentVarsSection "tenant"
      let environmentFound := tokenFound tok.environment info.ComponentVarsSection "environment"
      let stageFound := tokenFound tok.stage info.ComponentVarsSection "stage"
      if tenantFound = true ∧ environmentFound = true ∧ stageFound = true then
        { info := { info with Stack := stackName }
          tenantFound := tenantFound, environmentFound := environmentFound,
          stageFound := stageFound }
      else
        searchLoop stacksMap componentType tok rest
          { info := info, tenantFound := tenantFound, environmentFound := environmentFound,
            stageFound := stageFound }

/-- The keys of the stacks map in the order in which `range` visits them. -/
def stackNames (stacksMap : MapSI) : List String :=
  stacksMap.map Prod.fst

/-- The pattern-search branch of `processConfigAndStacks`. -/
def patternSearch (namePattern : String) (stacksMap : MapSI) (componentType : String)
    (info : ConfigAndStacksInfo) : ConfigAndStacksInfo × Option String :=
  let stackNamePatternParts := strings.Split namePattern '-'
  let stackParts := strings.Split info.Stack '-'
  if stackParts.length ≠ stackNamePatternParts.length then
    (info, some (errPatternMismatch info.Stack namePattern))
  else
    let tok := bindTokens stackNamePatternParts stackParts
      { tenant := "", environment := "", stage := "" }
    let st := searchLoop stacksMap componentType tok (stackNames stacksMap)
      { info := info, tenantFound := false, environmentFound := false, stageFound := false }
    if st.tenantFound = false ∨ st.environmentFound = false ∨ st.stageFound = false then
      (st.info, some (errConfigNotFound st.info.ComponentFromArg st.info.Stack namePattern))
    else (st.info, none)

/-- The step "check and process stacks" of `processConfigAndStacks`: a direct
lookup when the stack type is `Directory`, the pattern search otherwise. -/
def resolveStack (namePattern stackType : String) (stacksMap : MapSI) (componentType : String)
    (info : ConfigAndStacksInfo) : ConfigAndStacksInfo × Option String :=
  if stackType = "Directory" then
    let r := checkStackConfig info.Stack stacksMap componentType info.ComponentFromArg
    let info := { info with
      ComponentVarsSection := r.componentVarsSection
      BaseComponentPath := r.baseComponentPath
      Command := r.command }
    (info, r.err)
  else patternSearch namePattern stacksMap componentType info

/-- The decomposition of the component argument and of the base component path. -/
def decomposeComponent (info : ConfigAndStacksInfo) : ConfigAndStacksInfo :=
  let info : ConfigAndStacksInfo :=
    { info with ComponentFolderPrefix := "", ComponentNamePrefix := "" }
  let finalComponentPathParts := strings.Split info.ComponentFromArg '/'
  let finalComponentPathPartsLength := finalComponentPathParts.length
  let info : ConfigAndStacksInfo :=
    if finalComponentPathPartsLength > 1 then
      let componentFromArgPartsWithoutLast :=
        finalComponentPathParts.take (finalComponentPathPartsLength - 1)
      { info with
        ComponentFolderPrefix := strings.Join componentFromArgPartsWithoutLast "/"
        ComponentNamePrefix := strings.Join componentFromArgPartsWithoutLast "-"
        Component := finalComponentPathParts.getD (finalComponentPathPartsLength - 1) "" }
    else { info with Component := info.ComponentFromArg }
  if info.BaseComponentPath.length > 0 then
    let baseComponentPathParts := strings.Split info.BaseComponentPath '/'
    let baseComponentPathPartsLength := baseComponentPathParts.length
    if baseComponentPathPartsLength > 1 then
      { info with
        BaseComponent := baseComponentPathParts.getD (baseComponentPathPartsLength - 1) "" }
    else { info with BaseComponent := info.BaseComponentPath }
  else info

/-- The statement that extends `contextPrefix` by one context value. -/
def appendPrefix (contextPrefix value : String) : String :=
  if contextPrefix.length = 0 then value else contextPrefix ++ "-" ++ value

/-- The loop over the pattern segments that computes `contextPrefix`; an early
`return` with an error is `Except.error`. -/
def contextPrefixLoop (namePattern : String) (info : ConfigAndStacksInfo) :
    List String → String → Except String String
  | [], contextPrefix => Except.ok contextPrefix
  | part :: rest, contextPrefix =>
    if part = "\x7btenant\x7d" then
      if info.Context.Tenant.length = 0 then
        Except.error (errTenantUndefined namePattern info.Stack)
      else contextPrefixLoop namePattern info rest (appendPrefix contextPrefix info.Context.Tenant)
    else if part = "\x7benvironment\x7d" then
      if info.Context.Environment.length = 0 then
        Except.error (errEnvironmentUndefined namePattern info.Stack)
      else
        contextPrefixLoop namePattern info rest
          (appendPrefix contextPrefix info.Context.Environment)
    else if part = "\x7bstage\x7d" then
      if info.Context.Stage.length = 0 then
        Except.error (errStageUndefined namePattern info.Stack)
      else contextPrefixLoop namePattern info rest (appendPrefix contextPrefix info.Context.Stage)
    else contextPrefixLoop namePattern info rest contextPrefix

/-- The step "process context" of `processConfigAndStacks`. -/
def processContext (namePattern : String) (info : ConfigAndStacksInfo) :
    ConfigAndStacksInfo × Option String :=
  let info := { info with Context := getContextFromVars info.ComponentVarsSection }
  match contextPrefixLoop namePattern info (strings.Split namePattern '-') "" with
  | Except.error e => (info, some e)
  | Except.ok contextPrefix => ({ info with ContextPrefix := contextPrefix }, none)

/-- The statement `if len(Command) == 0 { Command = componentType }`. -/
def defaultCommand (componentType : String) (info : ConfigAndStacksInfo) : ConfigAndStacksInfo :=
  if info.Command.length = 0 then { info with Command := componentType } else info

/-- The function `processConfigAndStacks` from the check of the name pattern on.
Its inputs are what the first half of the function has computed: `info` holds
the stack and component given on the command line, `stacksMap` is the result of
`s.ProcessYAMLConfigFiles`, `namePattern` is `c.Config.Stacks.NamePattern`,
`stackType` is `c.ProcessedConfig.StackType`, and `printAsYAML` is the error
result of `u.PrintAsYAML` on the component vars. -/
def processConfigAndStacks (namePattern stackType : String) (stacksMap : MapSI)
    (printAsYAML : Option MapII → Option String) (componentType : String)
    (info : ConfigAndStacksInfo) : ConfigAndStacksInfo × Option String :=
  if namePattern.length < 1 then (info, some errNamePatternMissing)
  else
    match resolveStack namePattern stackType stacksMap componentType info with
    | (info, some e) => (info, some e)
    | (info, none) =>
      let info := defaultCommand componentType info
      match printAsYAML info.ComponentVarsSection with
      | some e => (info, some e)
      | none => processContext namePattern (decomposeComponent info)

/-! ## Specification-side predicates -/

/-- The chain of type-checked lookups that the stack locator requires: the
entry of the stack is a mapping, it has a `components` mapping, that has a
mapping under the component type, that has a mapping `componentSection` under
the component name, and that has a `vars` mapping `vars`. -/
def LookupChain (stacksMap : MapSI) (stack componentType component : String)
    (componentSection : MapSI) (vars : MapII) : Prop :=
  ∃ (stackSection : MapII) (componentsSection componentTypeSection : MapSI),
    lookupSI stacksMap stack = Value.mapII stackSection ∧
    lookupII stackSection (Key.str "components") = Value.mapSI componentsSection ∧
    lookupSI componentsSection componentType = Value.mapSI componentTypeSection ∧
    lookupSI componentTypeSection component = Value.mapSI componentSection ∧
    lookupSI componentSection "vars" = Value.mapII vars

/-- The condition under which the loop over the stacks stops at `stackName`:
`checkStackConfig` succeeds and the three `...Found` flags are all true. -/
def stackQualifies (stacksMap : MapSI) (componentType component : String) (tok : Tokens)
    (stackName : String) : Bool :=
  let r := checkStackConfig stackName stacksMap componentType component
  r.err.isNone && tokenFound tok.tenant r.componentVarsSection "tenant" &&
    tokenFound tok.environment r.componentVarsSection "environment" &&
    tokenFound tok.stage r.componentVarsSection "stage"

/-- The tokens that a candidate stack name requests under a naming pattern. -/
def requestedTokens (namePattern candidate : String) : Tokens :=
  bindTokens (strings.Split namePattern '-') (strings.Split candidate '-')
    { tenant := "", environment := "", stage := "" }

/-- A stack qualifies for a component and requested tokens, as the
specification words it: the stack locator finds the component in the stack, and
every non-empty requested token is equal, as a string, to the same-named key of
that component's vars. -/
def Qualifies (stacksMap : MapSI) (componentType component : String) (tok : Tokens)
    (stackName : String) : Prop :=
  ∃ (cs : MapSI) (vars : MapII),
    LookupChain stacksMap stackName componentType component cs vars ∧
    (tok.tenant ≠ "" → lookupII vars (Key.str "tenant") = Value.str tok.tenant) ∧
    (tok.environment ≠ "" →
      lookupII vars (Key.str "environment") = Value.str tok.environment) ∧
    (tok.stage ≠ "" → lookupII vars (Key.str "stage") = Value.str tok.stage)

/-- The info returned by a search that stops at stack `k`. -/
def selectedInfo (stacksMap : MapSI) (componentType : String) (info : ConfigAndStacksInfo)
    (k : String) : ConfigAndStacksInfo :=
  { info with
    ComponentVarsSection :=
      (checkStackConfig k stacksMap componentType info.ComponentFromArg).componentVarsSection
    BaseComponentPath :=
      (checkStackConfig k stacksMap componentType info.ComponentFromArg).baseComponentPath
    Command := (checkStackConfig k stacksMap componentType info.ComponentFromArg).command
    Stack := k }

/-- A pattern segment is one of the placeholders `{tenant}`, `{environment}`,
`{stage}`. -/
def isPlaceholder (part : String) : Bool :=
  part = "\x7btenant\x7d" || part = "\x7benvironment\x7d" || part = "\x7bstage\x7d"

/-- The number of placeholder segments of a naming pattern. -/
def placeholderCount (namePattern : String) : Nat :=
  ((strings.Split namePattern '-').filter isPlaceholder).length

/-- The Context field behind a pattern segment: `none` for a literal segment. -/
def placeholderValue (ctx : Context) (part : String) : Option String :=
  if part = "\x7btenant\x7d" then some ctx.Tenant
  else if part = "\x7benvironment\x7d" then some ctx.Environment
  else if part = "\x7bstage\x7d" then some ctx.Stage
  else none

/-- The error reported for a placeholder segment whose Context field is empty. -/
def placeholderError (namePattern stack part : String) : String :=
  if part = "\x7btenant\x7d" then errTenantUndefined namePattern stack
  else if part = "\x7benvironment\x7d" then errEnvironmentUndefined namePattern stack
  else errStageUndefined namePattern stack

/-! ## The second stack locator -/

/-- The four values returned by `findComponentConfig`; `none` is Go's `nil`. -/
structure ComponentConfigResult where
  componentSection : Option MapSI
  componentVarsSection : Option MapII
  componentBackendSection : Option MapII
  err : Option String

/-- The statement `return nil, nil, nil, errors.New(msg)`. -/
def ComponentConfigResult.fail (msg : String) : ComponentConfigResult :=
  { componentSection := none, componentVarsSection := none, componentBackendSection := none,
    err := some msg }

/-- The function `findComponentConfig`: finds the component config sections. -/
def findComponentConfig (stack : String) (stacksMap : MapSI) (componentType component : String) :
    ComponentConfigResult :=
  match (lookupSI stacksMap stack).asMapII with
  | none => ComponentConfigResult.fail (errStackMissing stack)
  | some stackSection =>
    match (lookupII stackSection (Key.str "components")).asMapSI with
    | none => ComponentConfigResult.fail (errComponentsMissing stack)
    | some componentsSection =>
      match (lookupSI componentsSection componentType).asMapSI with
      | none => ComponentConfigResult.fail (errComponentTypeMissing componentType stack)
      | some componentTypeSection =>
        match (lookupSI componentTypeSection component).asMapSI with
        | none => ComponentConfigResult.fail (errComponentMissing component stack)
        | some componentSection =>
          match (lookupSI componentSection "vars").asMapII with
          | none => ComponentConfigResult.fail (errVarsMissing component stack)
          | some componentVarsSection =>
            { componentSection := some componentSection
              componentVarsSection := some componentVarsSection
              componentBackendSection := (lookupSI componentSection "backend").asMapII
              err := none }

/-! ## The argument partitioner -/

namespace strings

/-- Go `strings.HasPrefix(s, pre)`. -/
def HasPrefix (s pre : String) : Bool :=
  pre.data.isPrefixOf s.data

/-- Splitting of a character list at the first `n - 1` occurrences of `sep`. -/
def splitNChars (sep : Char) : Nat → List Char → List (List Char)
  | 0, _ => []
  | 1, cs => [cs]
  | _ + 2, [] => [[]]
  | n + 2, c :: cs =>
    if c = sep then [] :: splitNChars sep (n + 1) cs
    else
      match splitNChars sep (n + 2) cs with
      | [] => [[c]]
      | p :: ps => (c :: p) :: ps

/-- Go `strings.SplitN(s, sep, n)` for a separator of one character and `n ≥ 0`. -/
def SplitN (s : String) (sep : Char) (n : Nat) : List String :=
  (splitNChars sep n s.data).map String.mk

end strings

/-- The flag names that `utils.go` reads from the package `globals` as `g.…Flag`;
the package is not among the source files, so they are a parameter. -/
structure Globals where
  TerraformDirFlag : String
  HelmfileDirFlag : String
  ConfigDirFlag : String
  StackDirFlag : String
  GlobalOptionsFlag : String
  DeployRunInitFlag : String

/-- The variable `commonFlags`. -/
def commonFlags (g : Globals) : List String :=
  ["--stack", "-s", "--dry-run", "--kubeconfig-path", g.TerraformDirFlag, g.HelmfileDirFlag,
   g.ConfigDirFlag, g.StackDirFlag, g.GlobalOptionsFlag, g.DeployRunInitFlag]

/-- The struct `c.ArgsAndFlagsInfo`, with the fields that `utils.go` uses. -/
structure ArgsAndFlagsInfo where
  AdditionalArgsAndFlags : List String
  SubCommand : String
  ComponentFromArg : String
  GlobalOptions : List String
  TerraformDir : String
  HelmfileDir : String
  StacksDir : String
  ConfigDir : String
  DeployRunInit : String
  deriving DecidableEq, Repr

/-- The zero value of `c.ArgsAndFlagsInfo`. -/
def ArgsAndFlagsInfo.zero : ArgsAndFlagsInfo :=
  { AdditionalArgsAndFlags := [], SubCommand := "", ComponentFromArg := "", GlobalOptions := [],
    TerraformDir := "", HelmfileDir := "", StacksDir := "", ConfigDir := "", DeployRunInit := "" }

/-- The two ways in which `processArgsAndFlags` stops early: the statement
`return info, errors.New(msg)`, and the run-time fault of an index that is out
of range. -/
inductive Abort where
  | invalidFlag (info : ArgsAndFlagsInfo) (msg : String)
  | indexOutOfRange
  deriving DecidableEq, Repr

/-- The message `fmt.Sprintf("invalid flag: %s", arg)`. -/
def errInvalidFlag (arg : String) : String :=
  "invalid flag: " ++ arg

/-- Modelled from the spec: `u.SliceContainsInt` of the package `utils`, which is
not among the source files: whether the slice holds the integer. -/
def SliceContainsInt (s : List Nat) (i : Nat) : Bool :=
  s.contains i

/-- One of the five blocks
`if arg == flag { ... } else if strings.HasPrefix(arg+"=", flag) { ... }`:
the value of the block's field after the block, or the early stop. `info` is
the value that an error return carries. -/
def flagValue (inputArgsAndFlags : List String) (i : Nat) (arg flag current : String)
    (info : ArgsAndFlagsInfo) : Except Abort String :=
  if arg = flag then
    if inputArgsAndFlags.length ≤ i + 1 then
      Except.error (Abort.invalidFlag info (errInvalidFlag arg))
    else
      match inputArgsAndFlags[i + 1]? with
      | some value => Except.ok value
      | none => Except.error Abort.indexOutOfRange
  else if strings.HasPrefix (arg ++ "=") flag then
    let parts := strings.Split arg '='
    if parts.length ≠ 2 then Except.error (Abort.invalidFlag info (errInvalidFlag arg))
    else
      match parts[1]? with
      | some value => Except.ok value
      | none => Except.error Abort.indexOutOfRange
  else Except.ok current

/-- The five blocks of the first loop that read flag values into `info`, for the
token `arg` at index `i`. -/
def extractFlags (g : Globals) (inputArgsAndFlags : List String) (i : Nat) (arg : String)
    (info : ArgsAndFlagsInfo) : Except Abort ArgsAndFlagsInfo :=
  (flagValue inputArgsAndFlags i arg g.TerraformDirFlag info.TerraformDir info).bind fun v =>
  let info := { info with TerraformDir := v }
  (flagValue inputArgsAndFlags i arg g.HelmfileDirFlag info.HelmfileDir info).bind fun v =>
  let info := { info with HelmfileDir := v }
  (flagValue inputArgsAndFlags i arg g.ConfigDirFlag info.StacksDir info).bind fun v =>
  let info := { info with StacksDir := v }
  (flagValue inputArgsAndFlags i arg g.StackDirFlag info.ConfigDir info).bind fun v =>
  let info := { info with ConfigDir := v }
  (flagValue inputArgsAndFlags i arg g.DeployRunInitFlag info.DeployRunInit info).bind fun v =>
  Except.ok { info with DeployRunInit := v }

/-- The first statement of the first loop: the new `globalOptionsFlagIndex`. -/
def globalOptionsIndex (g : Globals) (i : Nat) (arg : String) (current : Nat) : Nat :=
  if arg = g.GlobalOptionsFlag then i + 1
  else if strings.HasPrefix (arg ++ "=") g.GlobalOptionsFlag then i
  else current

/-- The inner loop `for _, f := range commonFlags` of the first loop. -/
def markIndexes (g : Globals) (i : Nat) (arg : String) (indexesToRemove : List Nat) : List Nat :=
  (commonFlags g).foldl
    (fun acc f =>
      if arg = f then acc ++ [i, i + 1]
      else if strings.HasPrefix arg (f ++ "=") then acc ++ [i]
      else acc)
    indexesToRemove

/-- The variables that the first loop reads and writes. -/
structure ArgsState where
  info : ArgsAndFlagsInfo
  indexesToRemove : List Nat
  globalOptionsFlagIndex : Nat

/-- The first loop `for i, arg := range inputArgsAndFlags`, from index `i` on. -/
def firstLoop (g : Globals) (inputArgsAndFlags : List String) :
    Nat → List String → ArgsState → Except Abort ArgsState
  | _, [], st => Except.ok st
  | i, arg :: rest, st =>
    (extractFlags g inputArgsAndFlags i arg st.info).bind fun info =>
      firstLoop g inputArgsAndFlags (i + 1) rest
        { info := info
          indexesToRemove := markIndexes g i arg st.indexesToRemove
          globalOptionsFlagIndex := globalOptionsIndex g i arg st.globalOptionsFlagIndex }

/-- The second loop `for i, arg := range inputArgsAndFlags`, from index `i` on; it
builds `additionalArgsAndFlags` and `globalOptions`. -/
def secondLoop (g : Globals) (indexesToRemove : List Nat) (globalOptionsFlagIndex : Nat) :
    Nat → List String → List String × List String → Except Abort (List String × List String)
  | _, [], acc => Except.ok acc
  | i, arg :: rest, (additionalArgsAndFlags, globalOptions) =>
    let additionalArgsAndFlags :=
      if SliceContainsInt indexesToRemove i then additionalArgsAndFlags
      else additionalArgsAndFlags ++ [arg]
    if globalOptionsFlagIndex > 0 ∧ i = globalOptionsFlagIndex then
      if strings.HasPrefix arg (g.GlobalOptionsFlag ++ "=") then
        match (strings.SplitN arg '=' 2)[1]? with
        | some value =>
          secondLoop g indexesToRemove globalOptionsFlagIndex (i + 1) rest
            (additionalArgsAndFlags, strings.Split value ' ')
        | none => Except.error Abort.indexOutOfRange
      else
        secondLoop g indexesToRemove globalOptionsFlagIndex (i + 1) rest
          (additionalArgsAndFlags, strings.Split arg ' ')
    else
      secondLoop g indexesToRemove globalOptionsFlagIndex (i + 1) rest
        (additionalArgsAndFlags, globalOptions)

/-- The `else` branch of the last step: subcommand, component, further arguments. -/
def plainSubCommand (info : ArgsAndFlagsInfo) (additionalArgsAndFlags : List String) :
    Except Abort ArgsAndFlagsInfo :=
  match additionalArgsAndFlags[0]? with
  | none => Except.error Abort.indexOutOfRange
  | some subCommand =>
    match additionalArgsAndFlags[1]? with
    | none => Except.error Abort.indexOutOfRange
    | some component =>
      Except.ok { info with
        SubCommand := subCommand
        ComponentFromArg := component
        AdditionalArgsAndFlags := additionalArgsAndFlags.drop 2 }

/-- The last step of `processArgsAndFlags`, with the legacy command
`terraform write varfile`; `&&` reads index 1 only when index 0 is `write`. -/
def assignSubCommand (info : ArgsAndFlagsInfo) (additionalArgsAndFlags : List String) :
    Except Abort ArgsAndFlagsInfo :=
  match additionalArgsAndFlags[0]? with
  | none => Except.error Abort.indexOutOfRange
  | some first =>
    if first = "write" then
      match additionalArgsAndFlags[1]? with
      | none => Except.error Abort.indexOutOfRange
      | some second =>
        if second = "varfile" then
          match additionalArgsAndFlags[2]? with
          | none => Except.error Abort.indexOutOfRange
          | some component =>
            Except.ok { info with
              SubCommand := "write varfile"
              ComponentFromArg := component
              AdditionalArgsAndFlags := additionalArgsAndFlags.drop 3 }
        else plainSubCommand info additionalArgsAndFlags
    else plainSubCommand info additionalArgsAndFlags

/-- The function `processArgsAndFlags`: removes common args and flags from the
provided list of arguments and flags. -/
def processArgsAndFlags (g : Globals) (inputArgsAndFlags : List String) :
    Except Abort ArgsAndFlagsInfo :=
  (firstLoop g inputArgsAndFlags 0 inputArgsAndFlags
    { info := ArgsAndFlagsInfo.zero, indexesToRemove := [], globalOptionsFlagIndex := 0 }).bind
  fun st =>
  (secondLoop g st.indexesToRemove st.globalOptionsFlagIndex 0 inputArgsAndFlags ([], [])).bind
  fun (additionalArgsAndFlags, globalOptions) =>
  (assignSubCommand st.info additionalArgsAndFlags).bind fun info =>
  Except.ok { info with GlobalOptions := globalOptions }

/-! ## Specification-side functions of the argument partitioner -/

/-- A token is equal to a common flag. -/
def isCommonFlag (g : Globals) (arg : String) : Bool :=
  (commonFlags g).contains arg

/-- A token starts with `<common flag>=`. -/
def startsWithCommonFlag (g : Globals) (arg : String) : Bool :=
  (commonFlags g).any fun f => strings.HasPrefix arg (f ++ "=")

/-- The residual sequence as the specification words it: the input without
every token equal to a common flag, without the token immediately after such a
token, and without every token that starts with `<common flag>=`; the other
tokens keep their order. `afterFlag` says that the token before the list was a
common flag. -/
def residual (g : Globals) : Bool → List String → List String
  | _, [] => []
  | afterFlag, arg :: rest =>
    if afterFlag || isCommonFlag g arg || startsWithCommonFlag g arg then
      residual g (isCommonFlag g arg) rest
    else arg :: residual g (isCommonFlag g arg) rest

/-- The block `flagValue` in terms of the token that follows `arg`, if any. -/
def flagValueNext (arg : String) (next : Option String) (flag current : String)
    (info : ArgsAndFlagsInfo) : Except Abort String :=
  if arg = flag then
    match next with
    | none => Except.error (Abort.invalidFlag info (errInvalidFlag arg))
    | some value => Except.ok value
  else if strings.HasPrefix (arg ++ "=") flag then
    if (strings.Split arg '=').length ≠ 2 then
      Except.error (Abort.invalidFlag info (errInvalidFlag arg))
    else
      match (strings.Split arg '=')[1]? with
      | some value => Except.ok value
      | none => Except.error Abort.indexOutOfRange
  else Except.ok current

/-- The five blocks `extractFlags` in terms of the token that follows `arg`. -/
def extractFlagsNext (g : Globals) (arg : String) (next : Option String)
    (info : ArgsAndFlagsInfo) : Except Abort ArgsAndFlagsInfo :=
  (flagValueNext arg next g.TerraformDirFlag info.TerraformDir info).bind fun v =>
  let info := { info with TerraformDir := v }
  (flagValueNext arg next g.HelmfileDirFlag info.HelmfileDir info).bind fun v =>
  let info := { info with HelmfileDir := v }
  (flagValueNext arg next g.ConfigDirFlag info.StacksDir info).bind fun v =>
  let info := { info with StacksDir := v }
  (flagValueNext arg next g.StackDirFlag info.ConfigDir info).bind fun v =>
  let info := { info with ConfigDir := v }
  (flagValueNext arg next g.DeployRunInitFlag info.DeployRunInit info).bind fun v =>
  Except.ok { info with DeployRunInit := v }

/-- The flag values that the first loop reads from a list of tokens, token by
token, each with the token that follows it. -/
def extractAll (g : Globals) : List String → ArgsAndFlagsInfo → Except Abort ArgsAndFlagsInfo
  | [], info => Except.ok info
  | arg :: rest, info =>
    (extractFlagsNext g arg rest.head? info).bind fun info => extractAll g rest info

/-- The indexes that the first loop marks for the tokens `rest` from index `i` on. -/
def markAll (g : Globals) : Nat → List String → List Nat → List Nat
  | _, [], indexesToRemove => indexesToRemove
  | i, arg :: rest, indexesToRemove =>
    markAll g (i + 1) rest (markIndexes g i arg indexesToRemove)

/-- The `globalOptionsFlagIndex` that the first loop computes for the tokens
`rest` from index `i` on. -/
def globalIndexAll (g : Globals) : Nat → List String → Nat → Nat
  | _, [], current => current
  | i, arg :: rest, current => globalIndexAll g (i + 1) rest (globalOptionsIndex g i arg current)

/-- The tokens that the second loop keeps: those whose index is not marked. -/
def keptTokens (indexesToRemove : List Nat) : Nat → List String → List String
  | _, [] => []
  | i, arg :: rest =>
    if SliceContainsInt indexesToRemove i then keptTokens indexesToRemove (i + 1) rest
    else arg :: keptTokens indexesToRemove (i + 1) rest

/-- The global options that the second loop reads from the token at
`globalOptionsFlagIndex`, if there is one. -/
def globalOptionsOf (g : Globals) (arg : Option String) (current : List String) :
    Except Abort (List String) :=
  match arg with
  | none => Except.ok current
  | some arg =>
    if strings.HasPrefix arg (g.GlobalOptionsFlag ++ "=") then
      match (strings.SplitN arg '=' 2)[1]? with
      | some value => Except.ok (strings.Split value ' ')
      | none => Except.error Abort.indexOutOfRange
    else Except.ok (strings.Split arg ' ')

/-- The token that the second loop reads the global options from. -/
def globalOptionsToken (g : Globals) (inputArgsAndFlags : List String) : Option String :=
  if globalIndexAll g 0 inputArgsAndFlags 0 > 0 then
    inputArgsAndFlags[globalIndexAll g 0 inputArgsAndFlags 0]?
  else none

/-- The five flags whose values the first loop reads into `info`. -/
def extractedFlags (g : Globals) : List String :=
  [g.TerraformDirFlag, g.HelmfileDirFlag, g.ConfigDirFlag, g.StackDirFlag, g.DeployRunInitFlag]

/-- The common flags that take a value: all but the toggle `--dry-run`. -/
def valueFlags (g : Globals) : List String :=
  ["--stack", "-s", "--kubeconfig-path", g.TerraformDirFlag, g.HelmfileDirFlag,
   g.ConfigDirFlag, g.StackDirFlag, g.GlobalOptionsFlag, g.DeployRunInitFlag]

/-- A token is malformed for a flag: it is the flag and no token follows, or it
starts with the flag, is not the flag, and does not split on `=` into exactly
two parts. -/
def malformedFor (arg : String) (next : Option String) (flag : String) : Bool :=
  if arg = flag then next.isNone
  else strings.HasPrefix (arg ++ "=") flag && decide ((strings.Split arg '=').length ≠ 2)

/-- A token is malformed for one of the five extracted flags. -/
def malformed (g : Globals) (arg : String) (next : Option String) : Bool :=
  (extractedFlags g).any (malformedFor arg next)

/-- The first malformed token of an argument list, if any. -/
def firstMalformed (g : Globals) : List String → Option String
  | [] => none
  | arg :: rest => if malformed g arg rest.head? then some arg else firstMalformed g rest

/-- Go `strings.ReplaceAll(s, old, new)` for strings of one character: the text
with every `old` replaced by `new`. -/
def strings.ReplaceAll (s : String) (old new : Char) : String :=
  String.mk (s.data.map fun c => if c = old then new else c)

/-- The six flags whose values `processArgsAndFlags` reads: the global-options
flag and the five extracted flags. -/
def readFlags (g : Globals) : List String :=
  g.GlobalOptionsFlag :: extractedFlags g

/-- The flag names are independent of each other: none holds `=`, and none
followed by `=` starts with another one. -/
def Globals.independent (g : Globals) : Prop :=
  (∀ F ∈ readFlags g, '=' ∉ F.data) ∧
  (readFlags g).Pairwise fun F G =>
    strings.HasPrefix (F ++ "=") G = false ∧ strings.HasPrefix (G ++ "=") F = false

/-! ## Example data -/

/-- A small configuration tree: stack `s1` defines the terraform component `vpc`. -/
def exampleTree : MapSI :=
  [("s0", Value.mapII [(Key.str "vars", Value.mapII [])]),
   ("s1", Value.mapII
      [(Key.str "vars", Value.mapII [(Key.str "tenant", Value.str "acme")]),
       (Key.str "components", Value.mapSI
          [("terraform", Value.mapSI
              [("vpc", Value.mapSI
                  [("vars", Value.mapII
                      [(Key.str "tenant", Value.str "acme"),
                       (Key.str "stage", Value.str "prod"),
                       (Key.str "region", Value.str "us-east-1")]),
                   ("command", Value.str "tofu")])])])])]

/-- The component section of `vpc` in the example tree. -/
def exampleComponentSection : MapSI :=
  [("vars", Value.mapII
      [(Key.str "tenant", Value.str "acme"),
       (Key.str "stage", Value.str "prod"),
       (Key.str "region", Value.str "us-east-1")]),
   ("command", Value.str "tofu")]

/-- The naming pattern `{tenant}-{stage}`. -/
def examplePattern : String := "\x7btenant\x7d-\x7bstage\x7d"

/-- The invocation of component `vpc` with the candidate stack name `acme-prod`. -/
def exampleInfo : ConfigAndStacksInfo :=
  { ConfigAndStacksInfo.zero with Stack := "acme-prod", ComponentFromArg := "vpc" }

/-- The example invocation after its resolution to stack `s1`. -/
def exampleResolved : ConfigAndStacksInfo :=
  { exampleInfo with
    Stack := "s1"
    ComponentVarsSection := some
      [(Key.str "tenant", Value.str "acme"), (Key.str "stage", Value.str "prod"),
       (Key.str "region", Value.str "us-east-1")] }

/-- Flag names for the examples, in the usual long form. -/
def exampleGlobals : Globals :=
  { TerraformDirFlag := "--terraform-dir", HelmfileDirFlag := "--helmfile-dir",
    ConfigDirFlag := "--config-dir", StackDirFlag := "--stacks-dir",
    GlobalOptionsFlag := "--global-options", DeployRunInitFlag := "--deploy-run-init" }

/-! ## Lemmas on values and lookups -/

theorem asMapII_eq_some {v : Value} {m : MapII} : v.asMapII = some m ↔ v = Value.mapII m := by
  cases v <;> simp [Value.asMapII]
theorem asMapII_eq_none {v : Value} : v.asMapII = none ↔ ∀ m, v ≠ Value.mapII m := by
  cases v <;> simp [Value.asMapII]
theorem asMapSI_eq_some {v : Value} {m : MapSI} : v.asMapSI = some m ↔ v = Value.mapSI m := by
  cases v <;> simp [Value.asMapSI]
theorem asMapSI_eq_none {v : Value} : v.asMapSI = none ↔ ∀ m, v ≠ Value.mapSI m := by
  cases v <;> simp [Value.asMapSI]
theorem asString_eq_some {v : Value} {s : String} : v.asString = some s ↔ v = Value.str s := by
  cases v <;> simp [Value.asString]
theorem asString_eq_none {v : Value} : v.asString = none ↔ ∀ s, v ≠ Value.str s := by
  cases v <;> simp [Value.asString]
theorem lookupSI_absent {m : MapSI} {k : String} (h : k ∉ m.map Prod.fst) :
    lookupSI m k = Value.nil := by
  induction m with
  | nil => rfl
  | cons p rest ih =>
    obtain ⟨k', v⟩ := p
    simp only [List.map_cons, List.mem_cons, not_or] at h
    simp only [lookupSI]
    rw [if_neg (fun e => h.1 e.symm)]
    exact ih h.2

theorem checkStackConfig_of_chain {stacksMap : MapSI} {stack componentType component : String}
    {cs : MapSI} {vars : MapII} (h : LookupChain stacksMap stack componentType component cs vars) :
    checkStackConfig stack stacksMap componentType component =
      { componentSection := some cs, componentVarsSection := some vars,
        componentBackendSection := (lookupSI cs "backend").asMapII,
        baseComponentPath := ((lookupSI cs "component").asString).getD "",
        command := ((lookupSI cs "command").asString).getD "", err := none } := by
  obtain ⟨ss, cps, ts, h1, h2, h3, h4, h5⟩ := h
  simp [checkStackConfig, h1, h2, h3, h4, h5, Value.asMapII, Value.asMapSI]

theorem chain_of_checkStackConfig {stacksMap : MapSI} {stack componentType component : String}
    (h : (checkStackConfig stack stacksMap componentType component).err = none) :
    ∃ cs vars, LookupChain stacksMap stack componentType component cs vars := by
  unfold checkStackConfig at h
  split at h
  · simp [StackConfigResult.fail] at h
  · rename_i ss h1
    split at h
    · simp [StackConfigResult.fail] at h
    · rename_i cps h2
      split at h
      · simp [StackConfigResult.fail] at h
      · rename_i ts h3
        split at h
        · simp [StackConfigResult.fail] at h
        · rename_i cs h4
          split at h
          · simp [StackConfigResult.fail] at h
          · rename_i vars h5
            exact ⟨cs, vars, ss, cps, ts, asMapII_eq_some.1 h1, asMapSI_eq_some.1 h2,
              asMapSI_eq_some.1 h3, asMapSI_eq_some.1 h4, asMapII_eq_some.1 h5⟩

/-- Claim C1: `checkStackConfig` returns no error exactly when the chain of
lookups holds (stack entry a mapping, `components` mapping, mapping under the
component type, mapping under the component name, `vars` mapping). In that case
it returns that component section and that `vars` mapping, the `backend`
mapping (nil when absent or not a mapping), and the `component` and `command`
strings (empty when absent or not a string); a missing or mistyped
backend, component or command causes no error. -/
theorem checkStackConfig_succeeds_iff_chain (stack : String) (stacksMap : MapSI)
    (componentType component : String) :
    ((checkStackConfig stack stacksMap componentType component).err = none ↔
      ∃ cs vars, LookupChain stacksMap stack componentType component cs vars) ∧
    ∀ cs vars, LookupChain stacksMap stack componentType component cs vars →
      (checkStackConfig stack stacksMap componentType component).err = none ∧
      (checkStackConfig stack stacksMap componentType component).componentSection = some cs ∧
      (checkStackConfig stack stacksMap componentType component).componentVarsSection
        = some vars ∧
      (∀ b, lookupSI cs "backend" = Value.mapII b →
        (checkStackConfig stack stacksMap componentType component).componentBackendSection
          = some b) ∧
      (("backend" ∉ cs.map Prod.fst ∨ ∀ b, lookupSI cs "backend" ≠ Value.mapII b) →
        (checkStackConfig stack stacksMap componentType component).componentBackendSection
          = none) ∧
      (∀ s, lookupSI cs "component" = Value.str s →
        (checkStackConfig stack stacksMap componentType component).baseComponentPath = s) ∧
      (("component" ∉ cs.map Prod.fst ∨ ∀ s, lookupSI cs "component" ≠ Value.str s) →
        (checkStackConfig stack stacksMap componentType component).baseComponentPath = "") ∧
      (∀ s, lookupSI cs "command" = Value.str s →
        (checkStackConfig stack stacksMap componentType component).command = s) ∧
      (("command" ∉ cs.map Prod.fst ∨ ∀ s, lookupSI cs "command" ≠ Value.str s) →
        (checkStackConfig stack stacksMap componentType component).command = "") := by
  refine ⟨⟨chain_of_checkStackConfig, ?_⟩, ?_⟩
  · rintro ⟨cs, vars, h⟩
    rw [checkStackConfig_of_chain h]
  · intro cs vars h
    rw [checkStackConfig_of_chain h]
    refine ⟨rfl, rfl, rfl, ?_, ?_, ?_, ?_, ?_, ?_⟩
    · intro b hb
      simp [hb, Value.asMapII]
    · rintro (hab | hno)
      · simp [lookupSI_absent hab, Value.asMapII]
      · exact asMapII_eq_none.2 hno
    · intro s hs
      simp [hs, Value.asString]
    · rintro (hab | hno)
      · simp [lookupSI_absent hab, Value.asString]
      · simp [asString_eq_none.2 hno]
    · intro s hs
      simp [hs, Value.asString]
    · rintro (hab | hno)
      · simp [lookupSI_absent hab, Value.asString]
      · simp [asString_eq_none.2 hno]

/-- The lookup chain holds for `vpc` in stack `s1` of the example tree. -/
theorem exampleTree_chain :
    LookupChain exampleTree "s1" "terraform" "vpc" exampleComponentSection
      [(Key.str "tenant", Value.str "acme"), (Key.str "stage", Value.str "prod"),
       (Key.str "region", Value.str "us-east-1")] :=
  ⟨_, _, _, rfl, rfl, rfl, rfl, rfl⟩

/-- Witness of claim C1 on the example tree. -/
theorem checkStackConfig_succeeds_iff_chain_witness :
    (checkStackConfig "s1" exampleTree "terraform" "vpc").err = none ∧
    (checkStackConfig "s1" exampleTree "terraform" "vpc").componentSection
      = some exampleComponentSection ∧
    (checkStackConfig "s1" exampleTree "terraform" "vpc").componentBackendSection = none ∧
    (checkStackConfig "s1" exampleTree "terraform" "vpc").baseComponentPath = "" ∧
    (checkStackConfig "s1" exampleTree "terraform" "vpc").command = "tofu" :=
  have h := (checkStackConfig_succeeds_iff_chain "s1" exampleTree "terraform" "vpc").2 _ _
    exampleTree_chain
  ⟨h.1, h.2.1, h.2.2.2.2.1 (Or.inl (by decide)), h.2.2.2.2.2.2.1 (Or.inl (by decide)),
    h.2.2.2.2.2.2.2.1 "tofu" rfl⟩

/-- The five error messages are pairwise distinct, whatever the names are. -/
theorem checkStackConfig_messages_distinct (s₁ s₂ s₃ s₄ s₅ t₃ c₄ c₅ : String) :
    errStackMissing s₁ ≠ errComponentsMissing s₂ ∧
    errStackMissing s₁ ≠ errComponentTypeMissing t₃ s₃ ∧
    errStackMissing s₁ ≠ errComponentMissing c₄ s₄ ∧
    errStackMissing s₁ ≠ errVarsMissing c₅ s₅ ∧
    errComponentsMissing s₂ ≠ errComponentTypeMissing t₃ s₃ ∧
    errComponentsMissing s₂ ≠ errComponentMissing c₄ s₄ ∧
    errComponentsMissing s₂ ≠ errVarsMissing c₅ s₅ ∧
    errComponentTypeMissing t₃ s₃ ≠ errComponentMissing c₄ s₄ ∧
    errComponentTypeMissing t₃ s₃ ≠ errVarsMissing c₅ s₅ ∧
    errComponentMissing c₄ s₄ ≠ errVarsMissing c₅ s₅ := by
  refine ⟨?_, ?_, ?_, ?_, ?_, ?_, ?_, ?_, ?_, ?_⟩ <;>
  · intro h
    have := congrArg String.data h
    simp [errStackMissing, errComponentsMissing, errComponentTypeMissing, errComponentMissing,
      errVarsMissing, String.data_append] at this

/-- Claim C2: whenever `checkStackConfig` fails, the error message is the one
of the first level that is missing or mistyped, in the order stack,
`components` section, `components/<type>` section, component, `vars` section,
with the text of the source, e.g. `Stack '<stack>' does not exist`, naming
exactly the keys that were looked up; every other returned value is nil or the
empty string; the five messages are pairwise distinct for all stack, type and
component names; and the five messages have the texts given here. -/
theorem checkStackConfig_error_first_level (stack : String) (stacksMap : MapSI)
    (componentType component e : String)
    (h : (checkStackConfig stack stacksMap componentType component).err = some e) :
    (((∀ m, lookupSI stacksMap stack ≠ Value.mapII m) ∧
        e = "Stack '" ++ stack ++ "' does not exist") ∨
     (∃ ss, lookupSI stacksMap stack = Value.mapII ss ∧
        (((∀ m, lookupII ss (Key.str "components") ≠ Value.mapSI m) ∧
            e = "'components' section is missing in the stack '" ++ stack ++ "'") ∨
         (∃ cps, lookupII ss (Key.str "components") = Value.mapSI cps ∧
            (((∀ m, lookupSI cps componentType ≠ Value.mapSI m) ∧
                e = "'components/" ++ componentType ++
                  "' section is missing in the stack '" ++ stack ++ "'") ∨
             (∃ ts, lookupSI cps componentType = Value.mapSI ts ∧
                (((∀ m, lookupSI ts component ≠ Value.mapSI m) ∧
                    e = "Invalid or missing configuration for the component '" ++
                      component ++ "' in the stack '" ++ stack ++ "'") ∨
                 (∃ cs, lookupSI ts component = Value.mapSI cs ∧
                    (∀ m, lookupSI cs "vars" ≠ Value.mapII m) ∧
                    e = "Missing 'vars' section for the component '" ++ component ++
                      "' in the stack '" ++ stack ++ "'")))))))) ∧
    (checkStackConfig stack stacksMap componentType component).componentSection = none ∧
    (checkStackConfig stack stacksMap componentType component).componentVarsSection = none ∧
    (checkStackConfig stack stacksMap componentType component).componentBackendSection = none ∧
    (checkStackConfig stack stacksMap componentType component).baseComponentPath = "" ∧
    (checkStackConfig stack stacksMap componentType component).command = "" ∧
    (∀ s₁ s₂ s₃ s₄ s₅ t₃ c₄ c₅ : String,
      errStackMissing s₁ ≠ errComponentsMissing s₂ ∧
      errStackMissing s₁ ≠ errComponentTypeMissing t₃ s₃ ∧
      errStackMissing s₁ ≠ errComponentMissing c₄ s₄ ∧
      errStackMissing s₁ ≠ errVarsMissing c₅ s₅ ∧
      errComponentsMissing s₂ ≠ errComponentTypeMissing t₃ s₃ ∧
      errComponentsMissing s₂ ≠ errComponentMissing c₄ s₄ ∧
      errComponentsMissing s₂ ≠ errVarsMissing c₅ s₅ ∧
      errComponentTypeMissing t₃ s₃ ≠ errComponentMissing c₄ s₄ ∧
      errComponentTypeMissing t₃ s₃ ≠ errVarsMissing c₅ s₅ ∧
      errComponentMissing c₄ s₄ ≠ errVarsMissing c₅ s₅) ∧
    (∀ s t c : String,
      errStackMissing s = "Stack '" ++ s ++ "' does not exist" ∧
      errComponentsMissing s = "'components' section is missing in the stack '" ++ s ++ "'" ∧
      errComponentTypeMissing t s =
        "'components/" ++ t ++ "' section is missing in the stack '" ++ s ++ "'" ∧
      errComponentMissing c s =
        "Invalid or missing configuration for the component '" ++ c ++
          "' in the stack '" ++ s ++ "'" ∧
      errVarsMissing c s =
        "Missing 'vars' section for the component '" ++ c ++ "' in the stack '" ++ s ++ "'") := by
  refine ⟨?_, ?_⟩
  · unfold checkStackConfig at h
    split at h
    · rename_i h1
      simp only [StackConfigResult.fail, Option.some.injEq] at h
      exact Or.inl ⟨asMapII_eq_none.1 h1, h.symm⟩
    · rename_i ss h1
      refine Or.inr ⟨ss, asMapII_eq_some.1 h1, ?_⟩
      split at h
      · rename_i h2
        simp only [StackConfigResult.fail, Option.some.injEq] at h
        exact Or.inl ⟨asMapSI_eq_none.1 h2, h.symm⟩
      · rename_i cps h2
        refine Or.inr ⟨cps, asMapSI_eq_some.1 h2, ?_⟩
        split at h
        · rename_i h3
          simp only [StackConfigResult.fail, Option.some.injEq] at h
          exact Or.inl ⟨asMapSI_eq_none.1 h3, h.symm⟩
        · rename_i ts h3
          refine Or.inr ⟨ts, asMapSI_eq_some.1 h3, ?_⟩
          split at h
          · rename_i h4
            simp only [StackConfigResult.fail, Option.some.injEq] at h
            exact Or.inl ⟨asMapSI_eq_none.1 h4, h.symm⟩
          · rename_i cs h4
            refine Or.inr ⟨cs, asMapSI_eq_some.1 h4, ?_⟩
            split at h
            · rename_i h5
              simp only [StackConfigResult.fail, Option.some.injEq] at h
              exact ⟨asMapII_eq_none.1 h5, h.symm⟩
            · simp at h
  · have hfail : ∃ msg, checkStackConfig stack stacksMap componentType component
        = StackConfigResult.fail msg := by
      unfold checkStackConfig at h ⊢
      split
      · exact ⟨_, rfl⟩
      · split
        · exact ⟨_, rfl⟩
        · split
          · exact ⟨_, rfl⟩
          · split
            · exact ⟨_, rfl⟩
            · split
              · exact ⟨_, rfl⟩
              · simp_all
    obtain ⟨msg, hmsg⟩ := hfail
    rw [hmsg]
    exact ⟨rfl, rfl, rfl, rfl, rfl, checkStackConfig_messages_distinct,
      fun _ _ _ => ⟨rfl, rfl, rfl, rfl, rfl⟩⟩

/-- Witness of claim C2: stack `s0` of the example tree has no `components`;
and the text of the message at each of the five levels: an absent stack, a
stack without `components`, an absent component type, an absent component, a
component without `vars`. -/
theorem checkStackConfig_error_first_level_witness :
    (checkStackConfig "s0" exampleTree "terraform" "vpc").err
      = some "'components' section is missing in the stack 's0'" ∧
    (checkStackConfig "s0" exampleTree "terraform" "vpc").componentVarsSection = none ∧
    (checkStackConfig "s0" exampleTree "terraform" "vpc").command = "" ∧
    (checkStackConfig "s9" exampleTree "terraform" "vpc").err
      = some "Stack 's9' does not exist" ∧
    (checkStackConfig "s9" exampleTree "terraform" "vpc").componentSection = none ∧
    (checkStackConfig "s1" exampleTree "helmfile" "vpc").err
      = some "'components/helmfile' section is missing in the stack 's1'" ∧
    (checkStackConfig "s1" exampleTree "terraform" "eks").err
      = some "Invalid or missing configuration for the component 'eks' in the stack 's1'" ∧
    (checkStackConfig "s1"
        [("s1", Value.mapII [(Key.str "components", Value.mapSI
          [("terraform", Value.mapSI [("eks", Value.mapSI [])])])])] "terraform" "eks").err
      = some "Missing 'vars' section for the component 'eks' in the stack 's1'" :=
  have h := checkStackConfig_error_first_level "s0" exampleTree "terraform" "vpc"
    "'components' section is missing in the stack 's0'" (by decide)
  have h9 := checkStackConfig_error_first_level "s9" exampleTree "terraform" "vpc"
    "Stack 's9' does not exist" (by decide)
  ⟨by decide, h.2.2.1, h.2.2.2.2.2.1, by decide, h9.2.1, by decide, by decide, by decide⟩

/-! ## The loop of the pattern search -/

theorem length_eq_zero_iff (s : String) : s.length = 0 ↔ s = "" := by
  constructor
  · intro h
    have : s.data = [] := List.length_eq_zero.1 h
    exact String.ext this
  · rintro rfl; rfl

theorem length_pos_iff (s : String) : s.length > 0 ↔ s ≠ "" := by
  rw [← not_iff_not, not_not, ← length_eq_zero_iff]; omega

theorem tokenFound_iff (token : String) (vars : Option MapII) (key : String) :
    tokenFound token vars key = true ↔
      (token ≠ "" → lookupVars vars key = Value.str token) := by
  unfold tokenFound
  by_cases h : token.length > 0
  · have hne := (length_pos_iff token).1 h
    rw [if_pos h]
    cases hv : lookupVars vars key <;> simp [Value.asString, hne]
  · have he : token = "" := by
      by_contra hne; exact h ((length_pos_iff token).2 hne)
    simp [he]

theorem split_first_hit {α : Type} (p : α → Bool) (l : List α) :
    (∀ x ∈ l, p x = false) ∨
    ∃ pre k post, l = pre ++ k :: post ∧ (∀ x ∈ pre, p x = false) ∧ p k = true := by
  induction l with
  | nil => left; simp
  | cons a rest ih =>
    cases ha : p a
    · rcases ih with h | ⟨pre, k, post, e, hpre, hk⟩
      · left
        intro x hx
        rcases List.mem_cons.1 hx with rfl | hx
        · exact ha
        · exact h x hx
      · right
        refine ⟨a :: pre, k, post, by simp [e], ?_, hk⟩
        intro x hx
        rcases List.mem_cons.1 hx with rfl | hx
        · exact ha
        · exact hpre x hx
    · right
      exact ⟨[], a, rest, rfl, by simp, ha⟩

theorem searchLoop_miss (stacksMap : MapSI) (componentType : String) (tok : Tokens)
    (keys : List String) :
    ∀ st : SearchState,
      (∀ k ∈ keys, stackQualifies stacksMap componentType st.info.ComponentFromArg tok k = false) →
      (st.tenantFound = false ∨ st.environmentFound = false ∨ st.stageFound = false) →
      ((searchLoop stacksMap componentType tok keys st).tenantFound = false ∨
        (searchLoop stacksMap componentType tok keys st).environmentFound = false ∨
        (searchLoop stacksMap componentType tok keys st).stageFound = false) ∧
      (searchLoop stacksMap componentType tok keys st).info.Stack = st.info.Stack ∧
      (searchLoop stacksMap componentType tok keys st).info.ComponentFromArg
        = st.info.ComponentFromArg := by
  induction keys with
  | nil => intro st _ hf; exact ⟨hf, rfl, rfl⟩
  | cons k rest ih =>
    intro st hall hf
    have hk := hall k (List.mem_cons_self _ _)
    have hrest : ∀ x ∈ rest,
        stackQualifies stacksMap componentType st.info.ComponentFromArg tok x = false :=
      fun x hx => hall x (List.mem_cons_of_mem _ hx)
    simp only [searchLoop]
    cases herr : (checkStackConfig k stacksMap componentType st.info.ComponentFromArg).err with
    | some e =>
      simp only []
      exact ih _ hrest hf
    | none =>
      simp only []
      split
      · rename_i hall3
        simp [stackQualifies, herr, hall3.1, hall3.2.1, hall3.2.2] at hk
      · rename_i hnot
        refine ih _ hrest ?_
        simp only []
        by_contra hcon
        simp only [not_or, Bool.not_eq_false] at hcon
        exact hnot hcon

theorem searchLoop_hit (stacksMap : MapSI) (componentType : String) (tok : Tokens)
    (k : String) (post : List String) (pre : List String) :
    ∀ st : SearchState,
      (∀ x ∈ pre, stackQualifies stacksMap componentType st.info.ComponentFromArg tok x = false) →
      stackQualifies stacksMap componentType st.info.ComponentFromArg tok k = true →
      searchLoop stacksMap componentType tok (pre ++ k :: post) st =
        { info := { st.info with
            ComponentVarsSection :=
              (checkStackConfig k stacksMap componentType
                st.info.ComponentFromArg).componentVarsSection
            BaseComponentPath :=
              (checkStackConfig k stacksMap componentType
                st.info.ComponentFromArg).baseComponentPath
            Command :=
              (checkStackConfig k stacksMap componentType st.info.ComponentFromArg).command
            Stack := k }
          tenantFound := true, environmentFound := true, stageFound := true } := by
  induction pre with
  | nil =>
    intro st _ hk
    simp only [stackQualifies, Bool.and_eq_true, Option.isNone_iff_eq_none] at hk
    obtain ⟨⟨⟨herr, ht⟩, he⟩, hs⟩ := hk
    simp only [List.nil_append, searchLoop, herr]
    rw [if_pos ⟨ht, he, hs⟩, ht, he, hs]
  | cons a pre ih =>
    intro st hall hk
    have ha := hall a (List.mem_cons_self _ _)
    have hrest : ∀ x ∈ pre,
        stackQualifies stacksMap componentType st.info.ComponentFromArg tok x = false :=
      fun x hx => hall x (List.mem_cons_of_mem _ hx)
    show searchLoop stacksMap componentType tok (a :: (pre ++ k :: post)) st = _
    simp only [searchLoop]
    cases herr : (checkStackConfig a stacksMap componentType st.info.ComponentFromArg).err with
    | some e =>
      simp only []
      exact ih _ hrest hk
    | none =>
      simp only []
      split
      · rename_i hall3
        simp [stackQualifies, herr, hall3.1, hall3.2.1, hall3.2.2] at ha
      · exact ih _ hrest hk

theorem lookupChain_unique {stacksMap : MapSI} {stack componentType component : String}
    {cs cs' : MapSI} {vars vars' : MapII}
    (h : LookupChain stacksMap stack componentType component cs vars)
    (h' : LookupChain stacksMap stack componentType component cs' vars') :
    cs = cs' ∧ vars = vars' := by
  obtain ⟨ss, cps, ts, h1, h2, h3, h4, h5⟩ := h
  obtain ⟨ss', cps', ts', h1', h2', h3', h4', h5'⟩ := h'
  rw [h1] at h1'
  cases h1'
  rw [h2] at h2'
  cases h2'
  rw [h3] at h3'
  cases h3'
  rw [h4] at h4'
  cases h4'
  rw [h5] at h5'
  cases h5'
  exact ⟨rfl, rfl⟩

theorem stackQualifies_iff (stacksMap : MapSI) (componentType component : String) (tok : Tokens)
    (k : String) :
    stackQualifies stacksMap componentType component tok k = true ↔
      Qualifies stacksMap componentType component tok k := by
  constructor
  · intro h
    simp only [stackQualifies, Bool.and_eq_true, Option.isNone_iff_eq_none] at h
    obtain ⟨⟨⟨herr, ht⟩, he⟩, hs⟩ := h
    obtain ⟨cs, vars, hc⟩ := chain_of_checkStackConfig herr
    rw [checkStackConfig_of_chain hc] at ht he hs
    exact ⟨cs, vars, hc, (tokenFound_iff _ _ _).1 ht, (tokenFound_iff _ _ _).1 he,
      (tokenFound_iff _ _ _).1 hs⟩
  · rintro ⟨cs, vars, hc, ht, he, hs⟩
    simp only [stackQualifies, Bool.and_eq_true, Option.isNone_iff_eq_none]
    rw [checkStackConfig_of_chain hc]
    exact ⟨⟨⟨rfl, (tokenFound_iff _ _ _).2 ht⟩, (tokenFound_iff _ _ _).2 he⟩,
      (tokenFound_iff _ _ _).2 hs⟩

theorem stackQualifies_false_iff (stacksMap : MapSI) (componentType component : String)
    (tok : Tokens) (k : String) :
    stackQualifies stacksMap componentType component tok k = false ↔
      ¬ Qualifies stacksMap componentType component tok k := by
  rw [← stackQualifies_iff, Bool.not_eq_true]

theorem patternSearch_mismatch (namePattern : String) (stacksMap : MapSI)
    (componentType : String) (info : ConfigAndStacksInfo)
    (h : (strings.Split info.Stack '-').length ≠ (strings.Split namePattern '-').length) :
    patternSearch namePattern stacksMap componentType info =
      (info, some (errPatternMismatch info.Stack namePattern)) := by
  simp only [patternSearch]
  rw [if_pos h]

theorem patternSearch_none (namePattern : String) (stacksMap : MapSI)
    (componentType : String) (info : ConfigAndStacksInfo)
    (h : (strings.Split info.Stack '-').length = (strings.Split namePattern '-').length)
    (hno : ∀ k ∈ stackNames stacksMap, ¬ Qualifies stacksMap componentType info.ComponentFromArg
      (requestedTokens namePattern info.Stack) k) :
    (patternSearch namePattern stacksMap componentType info).2 =
      some (errConfigNotFound info.ComponentFromArg info.Stack namePattern) := by
  have hmiss := searchLoop_miss stacksMap componentType (requestedTokens namePattern info.Stack)
    (stackNames stacksMap)
    { info := info, tenantFound := false, environmentFound := false, stageFound := false }
    (fun k hk => (stackQualifies_false_iff _ _ _ _ _).2 (hno k hk)) (Or.inl rfl)
  obtain ⟨hf, hs, hc⟩ := hmiss
  simp only [patternSearch]
  rw [if_neg (not_not.2 h)]
  simp only [requestedTokens] at hf hs hc
  rw [if_pos hf, hs, hc]

theorem patternSearch_hit (namePattern : String) (stacksMap : MapSI)
    (componentType : String) (info : ConfigAndStacksInfo) (pre post : List String) (k : String)
    (h : (strings.Split info.Stack '-').length = (strings.Split namePattern '-').length)
    (hk : stackNames stacksMap = pre ++ k :: post)
    (hpre : ∀ x ∈ pre, ¬ Qualifies stacksMap componentType info.ComponentFromArg
      (requestedTokens namePattern info.Stack) x)
    (hq : Qualifies stacksMap componentType info.ComponentFromArg
      (requestedTokens namePattern info.Stack) k) :
    patternSearch namePattern stacksMap componentType info =
      (selectedInfo stacksMap componentType info k, none) := by
  have hhit := searchLoop_hit stacksMap componentType (requestedTokens namePattern info.Stack)
    k post pre
    { info := info, tenantFound := false, environmentFound := false, stageFound := false }
    (fun x hx => (stackQualifies_false_iff _ _ _ _ _).2 (hpre x hx))
    ((stackQualifies_iff _ _ _ _ _).2 hq)
  simp only [patternSearch]
  rw [if_neg (not_not.2 h)]
  simp only [requestedTokens] at hhit
  rw [hk, hhit]
  simp [selectedInfo]

/-- The three possible outcomes of the pattern search. -/
theorem patternSearch_cases (namePattern : String) (stacksMap : MapSI)
    (componentType : String) (info : ConfigAndStacksInfo) :
    ((strings.Split info.Stack '-').length ≠ (strings.Split namePattern '-').length ∧
      patternSearch namePattern stacksMap componentType info =
        (info, some (errPatternMismatch info.Stack namePattern))) ∨
    ((strings.Split info.Stack '-').length = (strings.Split namePattern '-').length ∧
      (∀ k ∈ stackNames stacksMap, ¬ Qualifies stacksMap componentType info.ComponentFromArg
        (requestedTokens namePattern info.Stack) k) ∧
      (patternSearch namePattern stacksMap componentType info).2 =
        some (errConfigNotFound info.ComponentFromArg info.Stack namePattern)) ∨
    ((strings.Split info.Stack '-').length = (strings.Split namePattern '-').length ∧
      ∃ pre k post, stackNames stacksMap = pre ++ k :: post ∧
        (∀ x ∈ pre, ¬ Qualifies stacksMap componentType info.ComponentFromArg
          (requestedTokens namePattern info.Stack) x) ∧
        Qualifies stacksMap componentType info.ComponentFromArg
          (requestedTokens namePattern info.Stack) k ∧
        patternSearch namePattern stacksMap componentType info =
          (selectedInfo stacksMap componentType info k, none)) := by
  by_cases h : (strings.Split info.Stack '-').length = (strings.Split namePattern '-').length
  · right
    rcases split_first_hit
      (stackQualifies stacksMap componentType info.ComponentFromArg
        (requestedTokens namePattern info.Stack)) (stackNames stacksMap) with hall | hex
    · left
      have hno : ∀ k ∈ stackNames stacksMap, ¬ Qualifies stacksMap componentType
          info.ComponentFromArg (requestedTokens namePattern info.Stack) k :=
        fun k hk => (stackQualifies_false_iff _ _ _ _ _).1 (hall k hk)
      exact ⟨h, hno, patternSearch_none _ _ _ _ h hno⟩
    · right
      obtain ⟨pre, k, post, e, hpre, hk⟩ := hex
      have hpre' : ∀ x ∈ pre, ¬ Qualifies stacksMap componentType info.ComponentFromArg
          (requestedTokens namePattern info.Stack) x :=
        fun x hx => (stackQualifies_false_iff _ _ _ _ _).1 (hpre x hx)
      have hq := (stackQualifies_iff _ _ _ _ _).1 hk
      exact ⟨h, pre, k, post, e, hpre', hq, patternSearch_hit _ _ _ _ _ _ _ h e hpre' hq⟩
  · left
    exact ⟨h, patternSearch_mismatch _ _ _ _ h⟩

/-! ## Frame lemmas of the later steps -/

/-- The decomposition of the component leaves the resolved stack data alone. -/
theorem decomposeComponent_fields (info : ConfigAndStacksInfo) :
    (decomposeComponent info).Stack = info.Stack ∧
    (decomposeComponent info).ComponentVarsSection = info.ComponentVarsSection ∧
    (decomposeComponent info).BaseComponentPath = info.BaseComponentPath ∧
    (decomposeComponent info).Command = info.Command ∧
    (decomposeComponent info).ComponentFromArg = info.ComponentFromArg := by
  unfold decomposeComponent
  simp only []
  split_ifs <;> exact ⟨rfl, rfl, rfl, rfl, rfl⟩

/-- The result of the step "process context" in terms of the prefix loop. -/
theorem processContext_fields (namePattern : String) (info : ConfigAndStacksInfo) :
    (processContext namePattern info).1.Stack = info.Stack ∧
    (processContext namePattern info).1.ComponentVarsSection = info.ComponentVarsSection ∧
    (processContext namePattern info).1.BaseComponentPath = info.BaseComponentPath ∧
    (processContext namePattern info).1.Command = info.Command ∧
    (processContext namePattern info).1.ComponentFromArg = info.ComponentFromArg ∧
    (processContext namePattern info).1.Context
      = getContextFromVars info.ComponentVarsSection := by
  unfold processContext
  simp only []
  split <;> exact ⟨rfl, rfl, rfl, rfl, rfl, rfl⟩

/-- After a successful search the function prints the vars and processes the context. -/
theorem processConfigAndStacks_of_search (namePattern stackType : String) (stacksMap : MapSI)
    (printAsYAML : Option MapII → Option String) (componentType : String)
    (info info' : ConfigAndStacksInfo)
    (hp : ¬ namePattern.length < 1) (hst : stackType ≠ "Directory")
    (h : patternSearch namePattern stacksMap componentType info = (info', none)) :
    processConfigAndStacks namePattern stackType stacksMap printAsYAML componentType info =
      match printAsYAML info'.ComponentVarsSection with
      | some e => (defaultCommand componentType info', some e)
      | none =>
        processContext namePattern (decomposeComponent (defaultCommand componentType info')) := by
  simp only [processConfigAndStacks, resolveStack, if_neg hp, if_neg hst, h]
  have hv : (defaultCommand componentType info').ComponentVarsSection
      = info'.ComponentVarsSection := by
    unfold defaultCommand; split_ifs <;> rfl
  rw [hv]

/-! ## The pattern search -/

/-- A successful search stopped at the first qualifying stack. -/
theorem patternSearch_success (namePattern : String) (stacksMap : MapSI)
    (componentType : String) (info info' : ConfigAndStacksInfo)
    (h : patternSearch namePattern stacksMap componentType info = (info', none)) :
    (strings.Split info.Stack '-').length = (strings.Split namePattern '-').length ∧
    ∃ pre k post, stackNames stacksMap = pre ++ k :: post ∧
      (∀ x ∈ pre, ¬ Qualifies stacksMap componentType info.ComponentFromArg
        (requestedTokens namePattern info.Stack) x) ∧
      Qualifies stacksMap componentType info.ComponentFromArg
        (requestedTokens namePattern info.Stack) k ∧
      info' = selectedInfo stacksMap componentType info k := by
  rcases patternSearch_cases namePattern stacksMap componentType info with
    ⟨_, e⟩ | ⟨_, _, e⟩ | ⟨hl, pre, k, post, hn, hpre, hq, e⟩
  · rw [h] at e
    simp at e
  · rw [h] at e
    simp at e
  · rw [h] at e
    exact ⟨hl, pre, k, post, hn, hpre, hq, (Prod.mk.inj e).1⟩

/-- Claim C3: in pattern-search mode, whenever resolution succeeds the resolved
stack name is the first key, in the iteration order of the stacks map, for
which `checkStackConfig` succeeds for the component and every non-empty
requested token (tenant, environment, stage) equals, as a string, the
same-named key of that component's vars; the returned vars, base component path
and command are those of that stack; a stack whose vars miss one requested
token is never selected. The last part carries the result to the value that
`processConfigAndStacks` returns, where an empty command is replaced by the
component type. -/
theorem patternSearch_selects_first_qualifying (namePattern : String) (stacksMap : MapSI)
    (componentType : String) (info info' : ConfigAndStacksInfo)
    (h : patternSearch namePattern stacksMap componentType info = (info', none)) :
    (∃ pre post, stackNames stacksMap = pre ++ info'.Stack :: post ∧
      ∀ x ∈ pre, ¬ Qualifies stacksMap componentType info.ComponentFromArg
        (requestedTokens namePattern info.Stack) x) ∧
    Qualifies stacksMap componentType info.ComponentFromArg
      (requestedTokens namePattern info.Stack) info'.Stack ∧
    info'.ComponentVarsSection =
      (checkStackConfig info'.Stack stacksMap componentType
        info.ComponentFromArg).componentVarsSection ∧
    info'.BaseComponentPath =
      (checkStackConfig info'.Stack stacksMap componentType
        info.ComponentFromArg).baseComponentPath ∧
    info'.Command =
      (checkStackConfig info'.Stack stacksMap componentType info.ComponentFromArg).command ∧
    (∀ k cs vars, LookupChain stacksMap k componentType info.ComponentFromArg cs vars →
      (((requestedTokens namePattern info.Stack).tenant ≠ "" ∧
          lookupII vars (Key.str "tenant")
            ≠ Value.str (requestedTokens namePattern info.Stack).tenant) ∨
        ((requestedTokens namePattern info.Stack).environment ≠ "" ∧
          lookupII vars (Key.str "environment")
            ≠ Value.str (requestedTokens namePattern info.Stack).environment) ∨
        ((requestedTokens namePattern info.Stack).stage ≠ "" ∧
          lookupII vars (Key.str "stage")
            ≠ Value.str (requestedTokens namePattern info.Stack).stage)) →
      info'.Stack ≠ k) ∧
    (∀ (stackType : String) (printAsYAML : Option MapII → Option String),
      stackType ≠ "Directory" → namePattern ≠ "" →
      (processConfigAndStacks namePattern stackType stacksMap printAsYAML componentType
        info).1.Stack = info'.Stack ∧
      (processConfigAndStacks namePattern stackType stacksMap printAsYAML componentType
        info).1.ComponentVarsSection = info'.ComponentVarsSection ∧
      (processConfigAndStacks namePattern stackType stacksMap printAsYAML componentType
        info).1.BaseComponentPath = info'.BaseComponentPath ∧
      (processConfigAndStacks namePattern stackType stacksMap printAsYAML componentType
        info).1.Command = (if info'.Command = "" then componentType else info'.Command)) := by
  obtain ⟨_, pre, k, post, hn, hpre, hq, e⟩ := patternSearch_success _ _ _ _ _ h
  have hs : info'.Stack = k := by rw [e]; rfl
  refine ⟨⟨pre, post, by rw [hs]; exact hn, hpre⟩, by rw [hs]; exact hq, by rw [hs, e]; rfl,
    by rw [hs, e]; rfl, by rw [hs, e]; rfl, ?_, ?_⟩
  · intro k' cs vars hc hbad hk'
    rw [hs] at hk'
    subst hk'
    obtain ⟨cs', vars', hc', ht, he, hst⟩ := hq
    obtain ⟨_, hv⟩ := lookupChain_unique hc hc'
    subst hv
    rcases hbad with ⟨h1, h2⟩ | ⟨h1, h2⟩ | ⟨h1, h2⟩
    · exact h2 (ht h1)
    · exact h2 (he h1)
    · exact h2 (hst h1)
  · intro stackType printAsYAML hst hp
    have hp' : ¬ namePattern.length < 1 := by
      have := (length_pos_iff namePattern).2 hp
      omega
    have hd : ∀ i : ConfigAndStacksInfo,
        (defaultCommand componentType i).Stack = i.Stack ∧
        (defaultCommand componentType i).ComponentVarsSection = i.ComponentVarsSection ∧
        (defaultCommand componentType i).BaseComponentPath = i.BaseComponentPath ∧
        (defaultCommand componentType i).Command
          = (if i.Command = "" then componentType else i.Command) := by
      intro i
      unfold defaultCommand
      by_cases hc : i.Command.length = 0
      · rw [if_pos hc, if_pos ((length_eq_zero_iff _).1 hc)]
        exact ⟨rfl, rfl, rfl, rfl⟩
      · rw [if_neg hc, if_neg (fun e => hc ((length_eq_zero_iff _).2 e))]
        exact ⟨rfl, rfl, rfl, rfl⟩
    rw [processConfigAndStacks_of_search _ _ _ _ _ _ _ hp' hst h]
    cases printAsYAML info'.ComponentVarsSection with
    | some e => exact hd info'
    | none =>
      simp only []
      obtain ⟨c1, c2, c3, c4, _, _⟩ := processContext_fields namePattern
        (decomposeComponent (defaultCommand componentType info'))
      obtain ⟨d1, d2, d3, d4, _⟩ := decomposeComponent_fields (defaultCommand componentType info')
      obtain ⟨e1, e2, e3, e4⟩ := hd info'
      exact ⟨by rw [c1, d1, e1], by rw [c2, d2, e2], by rw [c3, d3, e3], by rw [c4, d4, e4]⟩

/-- Witness of claim C3: candidate `acme-prod` resolves to stack `s1`. -/
theorem patternSearch_selects_first_qualifying_witness :
    (patternSearch examplePattern exampleTree "terraform" exampleInfo).2 = none ∧
    (patternSearch examplePattern exampleTree "terraform" exampleInfo).1.Stack = "s1" ∧
    Qualifies exampleTree "terraform" "vpc" { tenant := "acme", environment := "", stage := "prod" }
      "s1" :=
  have h := patternSearch_selects_first_qualifying examplePattern exampleTree "terraform"
    exampleInfo (patternSearch examplePattern exampleTree "terraform" exampleInfo).1
    (Prod.ext rfl (by decide))
  ⟨by decide, by decide, h.2.1⟩

/-- The not-found message differs from the mismatch message. -/
theorem errConfigNotFound_ne_mismatch (c s p s' p' : String) :
    errConfigNotFound c s p ≠ errPatternMismatch s' p' := by
  intro h
  have := congrArg String.data h
  simp [errConfigNotFound, errPatternMismatch, String.data_append] at this

/-- Claim C4: in pattern-search mode, for a candidate whose part count matches
the pattern, resolution fails with the error "Could not find config for the
component ... in the stack ..." (with the text of the source, which names the
component, the candidate and the pattern) if and only if no stack of the tree
qualifies. Stacks for which
the component lookup fails are skipped: a qualifying stack is found wherever it
sits in the iteration order behind stacks that do not qualify, and an empty
tree yields this error. -/
theorem patternSearch_not_found_iff (namePattern : String) (stacksMap : MapSI)
    (componentType : String) (info : ConfigAndStacksInfo)
    (hlen : (strings.Split info.Stack '-').length = (strings.Split namePattern '-').length) :
    ((patternSearch namePattern stacksMap componentType info).2
        = some ("\nCould not find config for the component '" ++ info.ComponentFromArg ++
          "' in the stack '" ++ info.Stack ++ "'.\n" ++
          "Check that all attributes in the stack name pattern '" ++ namePattern ++
          "' are defined in the stack config files.\n" ++
          "Are the component and stack names correct? Did you forget an import?") ↔
      ∀ k ∈ stackNames stacksMap, ¬ Qualifies stacksMap componentType info.ComponentFromArg
        (requestedTokens namePattern info.Stack) k) ∧
    ((patternSearch namePattern stacksMap componentType info).2 = none ↔
      ∃ k ∈ stackNames stacksMap, Qualifies stacksMap componentType info.ComponentFromArg
        (requestedTokens namePattern info.Stack) k) ∧
    (∀ pre k post, stackNames stacksMap = pre ++ k :: post →
      (∀ x ∈ pre, ¬ Qualifies stacksMap componentType info.ComponentFromArg
        (requestedTokens namePattern info.Stack) x) →
      Qualifies stacksMap componentType info.ComponentFromArg
        (requestedTokens namePattern info.Stack) k →
      patternSearch namePattern stacksMap componentType info =
        (selectedInfo stacksMap componentType info k, none)) ∧
    (patternSearch namePattern [] componentType info).2
      = some ("\nCould not find config for the component '" ++ info.ComponentFromArg ++
          "' in the stack '" ++ info.Stack ++ "'.\n" ++
          "Check that all attributes in the stack name pattern '" ++ namePattern ++
          "' are defined in the stack config files.\n" ++
          "Are the component and stack names correct? Did you forget an import?") := by
  refine ⟨?_, ?_, ?_, ?_⟩
  · constructor
    · intro he k hk hq
      rcases patternSearch_cases namePattern stacksMap componentType info with
        ⟨hne, _⟩ | ⟨_, _, _⟩ | ⟨_, pre, k', post, _, _, _, e⟩
      · exact hne hlen
      · rename_i hno _
        exact hno k hk hq
      · rw [e] at he
        simp at he
    · exact fun hno => patternSearch_none _ _ _ _ hlen hno
  · constructor
    · intro he
      rcases patternSearch_cases namePattern stacksMap componentType info with
        ⟨hne, _⟩ | ⟨_, _, e⟩ | ⟨_, pre, k', post, hn, _, hq, _⟩
      · exact absurd hlen hne
      · rw [e] at he
        simp at he
      · exact ⟨k', by rw [hn]; simp, hq⟩
    · rintro ⟨k, hk, hq⟩
      rcases patternSearch_cases namePattern stacksMap componentType info with
        ⟨hne, _⟩ | ⟨_, hno, _⟩ | ⟨_, pre, k', post, _, _, _, e⟩
      · exact absurd hlen hne
      · exact absurd hq (hno k hk)
      · rw [e]
  · intro pre k post hn hpre hq
    exact patternSearch_hit _ _ _ _ _ _ _ hlen hn hpre hq
  · exact patternSearch_none _ _ _ _ hlen (by simp [stackNames])

set_option maxRecDepth 20000 in
/-- Witness of claim C4: no stack has stage `dev`; the empty tree; and a hit.
The messages are written out. -/
theorem patternSearch_not_found_iff_witness :
    (patternSearch examplePattern exampleTree "terraform"
        { exampleInfo with Stack := "acme-dev" }).2
      = some ("\nCould not find config for the component 'vpc' in the stack 'acme-dev'.\n" ++
          "Check that all attributes in the stack name pattern '\x7btenant\x7d-\x7bstage\x7d' " ++
          "are defined in the stack config files.\n" ++
          "Are the component and stack names correct? Did you forget an import?") ∧
    (patternSearch examplePattern [] "terraform" exampleInfo).2
      = some ("\nCould not find config for the component 'vpc' in the stack 'acme-prod'.\n" ++
          "Check that all attributes in the stack name pattern '\x7btenant\x7d-\x7bstage\x7d' " ++
          "are defined in the stack config files.\n" ++
          "Are the component and stack names correct? Did you forget an import?") ∧
    (patternSearch examplePattern exampleTree "terraform" exampleInfo).2 = none :=
  ⟨by decide,
   (patternSearch_not_found_iff examplePattern exampleTree "terraform" exampleInfo
      (by decide)).2.2.2,
   by decide⟩

/-- Claim C5: in pattern-search mode, if the number of `-`-separated parts of
the candidate differs from the number of `-`-separated segments of the naming
pattern, resolution fails with "Stack ... does not match the stack name
pattern ..." whatever the stacks map holds (no stack is examined); if the
counts are equal this error is not produced. -/
theorem patternSearch_mismatch_iff (namePattern : String) (componentType : String)
    (info : ConfigAndStacksInfo) :
    ((strings.Split info.Stack '-').length ≠ (strings.Split namePattern '-').length →
      (∀ stacksMap : MapSI, patternSearch namePattern stacksMap componentType info =
        (info, some (errPatternMismatch info.Stack namePattern))) ∧
      (∀ (stacksMap : MapSI) (stackType : String) (printAsYAML : Option MapII → Option String),
        stackType ≠ "Directory" → namePattern ≠ "" →
        processConfigAndStacks namePattern stackType stacksMap printAsYAML componentType info =
          (info, some (errPatternMismatch info.Stack namePattern)))) ∧
    ((strings.Split info.Stack '-').length = (strings.Split namePattern '-').length →
      ∀ stacksMap : MapSI, (patternSearch namePattern stacksMap componentType info).2 ≠
        some (errPatternMismatch info.Stack namePattern)) := by
  constructor
  · intro hne
    refine ⟨fun stacksMap => patternSearch_mismatch _ _ _ _ hne, ?_⟩
    intro stacksMap stackType printAsYAML hst hp
    have hp' : ¬ namePattern.length < 1 := by
      have := (length_pos_iff namePattern).2 hp
      omega
    simp only [processConfigAndStacks, resolveStack, if_neg hp', if_neg hst,
      patternSearch_mismatch _ stacksMap componentType _ hne]
  · intro heq stacksMap he
    rcases patternSearch_cases namePattern stacksMap componentType info with
      ⟨hne, _⟩ | ⟨_, _, e⟩ | ⟨_, pre, k', post, _, _, _, e⟩
    · exact hne heq
    · rw [e] at he
      exact errConfigNotFound_ne_mismatch _ _ _ _ _ (Option.some.inj he)
    · rw [e] at he
      simp at he

/-- Witness of claim C5: three parts against two segments, and two against two. -/
theorem patternSearch_mismatch_iff_witness :
    patternSearch examplePattern exampleTree "terraform"
        { exampleInfo with Stack := "acme-prod-x" } =
      ({ exampleInfo with Stack := "acme-prod-x" },
        some ("Stack 'acme-prod-x' does not match the stack name pattern " ++
          "'\x7btenant\x7d-\x7bstage\x7d'")) ∧
    (patternSearch examplePattern exampleTree "terraform"
        { exampleInfo with Stack := "acme-dev" }).2
      ≠ some (errPatternMismatch "acme-dev" examplePattern) :=
  have h := patternSearch_mismatch_iff examplePattern "terraform"
  ⟨((h { exampleInfo with Stack := "acme-prod-x" }).1 (by decide)).1 exampleTree,
   (h { exampleInfo with Stack := "acme-dev" }).2 (by decide) exampleTree⟩

/-! ## Part counts and literal segments -/

/-- Counterexample to claim C6 as stated: the pattern `prod-{tenant}` has one
placeholder segment, the candidate `prod-acme` splits into two parts, and the
search does not reject it. -/
theorem patternSearch_placeholder_count_counterexample :
    ¬ ∀ (namePattern : String) (stacksMap : MapSI) (componentType : String)
        (info : ConfigAndStacksInfo),
        (strings.Split info.Stack '-').length ≠ placeholderCount namePattern →
        (patternSearch namePattern stacksMap componentType info).2 ≠ none := by
  intro h
  exact h "prod-\x7btenant\x7d" exampleTree "terraform" { exampleInfo with Stack := "prod-acme" }
    (by decide) (by decide)

/-- Claim C6, amended: for every naming pattern with `n` segments separated by
`-`, literal segments counted like placeholder segments, pattern-search mode
rejects with the mismatch error every candidate stack name that splits on `-`
into a number of parts other than `n`; when every segment is a placeholder, `n`
is the number of placeholder segments. -/
theorem patternSearch_rejects_part_count (namePattern : String) (n : Nat) (stacksMap : MapSI)
    (componentType : String) (info : ConfigAndStacksInfo)
    (hn : (strings.Split namePattern '-').length = n)
    (hparts : (strings.Split info.Stack '-').length ≠ n) :
    patternSearch namePattern stacksMap componentType info =
      (info, some (errPatternMismatch info.Stack namePattern)) ∧
    ((∀ part ∈ strings.Split namePattern '-', isPlaceholder part = true) →
      placeholderCount namePattern = n) := by
  subst hn
  refine ⟨patternSearch_mismatch _ _ _ _ hparts, ?_⟩
  intro hall
  unfold placeholderCount
  rw [List.filter_eq_self.2 hall]

/-- Witness of claim C6: one part against the two segments of `prod-{tenant}`. -/
theorem patternSearch_rejects_part_count_witness :
    patternSearch "prod-\x7btenant\x7d" exampleTree "terraform"
        { exampleInfo with Stack := "acme" } =
      ({ exampleInfo with Stack := "acme" },
        some (errPatternMismatch "acme" "prod-\x7btenant\x7d")) :=
  (patternSearch_rejects_part_count "prod-\x7btenant\x7d" 2 exampleTree "terraform"
    { exampleInfo with Stack := "acme" } (by decide) (by decide)).1

/-- Candidates that agree at the placeholder positions bind the same tokens. -/
theorem bindTokens_agree (segs : List String) :
    ∀ (p₁ p₂ : List String) (t : Tokens),
      p₁.length = segs.length → p₂.length = segs.length →
      (∀ (i : Nat) (seg : String), segs[i]? = some seg → isPlaceholder seg = true →
        p₁[i]? = p₂[i]?) →
      bindTokens segs p₁ t = bindTokens segs p₂ t := by
  induction segs with
  | nil =>
    intro p₁ p₂ t h₁ h₂ _
    rw [List.length_eq_zero.1 h₁, List.length_eq_zero.1 h₂]
  | cons seg segs ih =>
    intro p₁ p₂ t h₁ h₂ hagree
    cases p₁ with
    | nil => simp at h₁
    | cons a p₁ =>
      cases p₂ with
      | nil => simp at h₂
      | cons b p₂ =>
        have hl₁ : p₁.length = segs.length := by simpa using h₁
        have hl₂ : p₂.length = segs.length := by simpa using h₂
        have htail : ∀ (i : Nat) (s : String), segs[i]? = some s → isPlaceholder s = true →
            p₁[i]? = p₂[i]? := by
          intro i s hs hp
          have := hagree (i + 1) s (by simpa using hs) hp
          simpa using this
        have hhead : isPlaceholder seg = true → a = b := by
          intro hp
          have := hagree 0 seg (by simp) hp
          simpa using this
        simp only [bindTokens]
        by_cases ht : seg = "\x7btenant\x7d"
        · rw [if_pos ht, if_pos ht, hhead (by simp [isPlaceholder, ht])]
          exact ih _ _ _ hl₁ hl₂ htail
        · rw [if_neg ht, if_neg ht]
          by_cases he : seg = "\x7benvironment\x7d"
          · rw [if_pos he, if_pos he, hhead (by simp [isPlaceholder, he])]
            exact ih _ _ _ hl₁ hl₂ htail
          · rw [if_neg he, if_neg he]
            by_cases hs : seg = "\x7bstage\x7d"
            · rw [if_pos hs, if_pos hs, hhead (by simp [isPlaceholder, hs])]
              exact ih _ _ _ hl₁ hl₂ htail
            · rw [if_neg hs, if_neg hs]
              exact ih _ _ _ hl₁ hl₂ htail

/-- Counterexample to claim C7 as stated: under the pattern `prod-{tenant}` the
candidate `dev-acme` resolves, although its first part differs from the
literal segment `prod`. -/
theorem patternSearch_literal_segment_counterexample :
    ¬ ∀ (namePattern : String) (stacksMap : MapSI) (componentType : String)
        (info info' : ConfigAndStacksInfo),
        patternSearch namePattern stacksMap componentType info = (info', none) →
        ∀ (i : Nat) (seg part : String),
          (strings.Split namePattern '-')[i]? = some seg → isPlaceholder seg = false →
          (strings.Split info.Stack '-')[i]? = some part → part = seg := by
  intro h
  have hbad := h "prod-\x7btenant\x7d" exampleTree "terraform"
    { exampleInfo with Stack := "dev-acme" }
    (patternSearch "prod-\x7btenant\x7d" exampleTree "terraform"
      { exampleInfo with Stack := "dev-acme" }).1
    (Prod.ext rfl (by decide)) 0 "prod" "dev" (by decide) (by decide) (by decide)
  exact absurd hbad (by decide)

/-- Claim C7, amended: in pattern-search mode literal segments of the naming
pattern are not compared with the candidate; only the `{tenant}`,
`{environment}` and `{stage}` positions are bound to candidate parts. Two
candidates with the pattern's number of parts that agree at every placeholder
position request the same tokens, resolve or fail together, and resolve to the
same result. -/
theorem patternSearch_depends_on_placeholder_parts (namePattern : String) (stacksMap : MapSI)
    (componentType : String) (info : ConfigAndStacksInfo) (candidate : String)
    (h₁ : (strings.Split info.Stack '-').length = (strings.Split namePattern '-').length)
    (h₂ : (strings.Split candidate '-').length = (strings.Split namePattern '-').length)
    (hagree : ∀ (i : Nat) (seg : String), (strings.Split namePattern '-')[i]? = some seg →
      isPlaceholder seg = true →
      (strings.Split info.Stack '-')[i]? = (strings.Split candidate '-')[i]?) :
    requestedTokens namePattern info.Stack = requestedTokens namePattern candidate ∧
    ((patternSearch namePattern stacksMap componentType info).2 = none ↔
      (patternSearch namePattern stacksMap componentType
        { info with Stack := candidate }).2 = none) ∧
    ((patternSearch namePattern stacksMap componentType info).2 = none →
      patternSearch namePattern stacksMap componentType { info with Stack := candidate } =
        patternSearch namePattern stacksMap componentType info) := by
  have htok : requestedTokens namePattern info.Stack = requestedTokens namePattern candidate :=
    bindTokens_agree _ _ _ _ h₁ h₂ hagree
  refine ⟨htok, ?_⟩
  rcases patternSearch_cases namePattern stacksMap componentType info with
    ⟨hne, _⟩ | ⟨_, hno, e⟩ | ⟨_, pre, k, post, hn, hpre, hq, e⟩
  · exact absurd h₁ hne
  · have e₂ := patternSearch_none namePattern stacksMap componentType
      { info with Stack := candidate } h₂ (by rw [← htok]; exact hno)
    rw [e, e₂]
    simp
  · have e₂ := patternSearch_hit namePattern stacksMap componentType
      { info with Stack := candidate } pre post k h₂ hn (by rw [← htok]; exact hpre)
      (by rw [← htok]; exact hq)
    rw [e, e₂]
    exact ⟨Iff.rfl, fun _ => rfl⟩

/-- The candidates `prod-acme` and `dev-acme` agree where `prod-{tenant}` has a
placeholder. -/
theorem example_placeholder_parts_agree (i : Nat) (seg : String)
    (hs : (strings.Split "prod-\x7btenant\x7d" '-')[i]? = some seg)
    (hp : isPlaceholder seg = true) :
    (strings.Split "prod-acme" '-')[i]? = (strings.Split "dev-acme" '-')[i]? := by
  have e₀ : strings.Split "prod-\x7btenant\x7d" '-' = ["prod", "\x7btenant\x7d"] := by decide
  have e₁ : strings.Split "prod-acme" '-' = ["prod", "acme"] := by decide
  have e₂ : strings.Split "dev-acme" '-' = ["dev", "acme"] := by decide
  rw [e₀] at hs
  rw [e₁, e₂]
  rcases i with _ | _ | i
  · simp only [List.getElem?_cons_zero, Option.some.injEq] at hs
    subst hs
    exact absurd hp (by decide)
  · rfl
  · rfl

/-- Witness of claim C7: `dev-acme` resolves like `prod-acme`. -/
theorem patternSearch_depends_on_placeholder_parts_witness :
    (patternSearch "prod-\x7btenant\x7d" exampleTree "terraform"
        { exampleInfo with Stack := "prod-acme" }).2 = none ∧
    patternSearch "prod-\x7btenant\x7d" exampleTree "terraform"
        { exampleInfo with Stack := "dev-acme" } =
      patternSearch "prod-\x7btenant\x7d" exampleTree "terraform"
        { exampleInfo with Stack := "prod-acme" } :=
  ⟨by decide,
   (patternSearch_depends_on_placeholder_parts "prod-\x7btenant\x7d" exampleTree "terraform"
      { exampleInfo with Stack := "prod-acme" } "dev-acme" (by decide) (by decide)
      example_placeholder_parts_agree).2.2 (by decide)⟩

/-! ## The context prefix -/

theorem contextPrefixLoop_literal (namePattern : String) (info : ConfigAndStacksInfo)
    (part : String) (rest : List String) (acc : String)
    (h : placeholderValue info.Context part = none) :
    contextPrefixLoop namePattern info (part :: rest) acc =
      contextPrefixLoop namePattern info rest acc := by
  unfold placeholderValue at h
  by_cases ht : part = "\x7btenant\x7d"
  · simp [ht] at h
  · by_cases he : part = "\x7benvironment\x7d"
    · simp [he] at h
    · by_cases hs : part = "\x7bstage\x7d"
      · simp [hs] at h
      · simp only [contextPrefixLoop, if_neg ht, if_neg he, if_neg hs]

theorem contextPrefixLoop_value (namePattern : String) (info : ConfigAndStacksInfo)
    (part : String) (rest : List String) (acc v : String)
    (h : placeholderValue info.Context part = some v) (hv : v ≠ "") :
    contextPrefixLoop namePattern info (part :: rest) acc =
      contextPrefixLoop namePattern info rest (appendPrefix acc v) := by
  have hlen : ¬ v.length = 0 := fun e => hv ((length_eq_zero_iff v).1 e)
  unfold placeholderValue at h
  by_cases ht : part = "\x7btenant\x7d"
  · rw [if_pos ht] at h
    cases h
    simp only [contextPrefixLoop, if_pos ht, if_neg hlen]
  · rw [if_neg ht] at h
    by_cases he : part = "\x7benvironment\x7d"
    · rw [if_pos he] at h
      cases h
      simp only [contextPrefixLoop, if_neg ht, if_pos he, if_neg hlen]
    · rw [if_neg he] at h
      by_cases hs : part = "\x7bstage\x7d"
      · rw [if_pos hs] at h
        cases h
        simp only [contextPrefixLoop, if_neg ht, if_neg he, if_pos hs, if_neg hlen]
      · rw [if_neg hs] at h
        cases h

theorem contextPrefixLoop_empty (namePattern : String) (info : ConfigAndStacksInfo)
    (part : String) (rest : List String) (acc : String)
    (h : placeholderValue info.Context part = some "") :
    contextPrefixLoop namePattern info (part :: rest) acc =
      Except.error (placeholderError namePattern info.Stack part) := by
  unfold placeholderValue at h
  unfold placeholderError
  by_cases ht : part = "\x7btenant\x7d"
  · rw [if_pos ht] at h
    have hz : info.Context.Tenant.length = 0 := (length_eq_zero_iff _).2 (Option.some.inj h)
    simp only [contextPrefixLoop, if_pos ht, if_pos hz]
  · rw [if_neg ht] at h
    by_cases he : part = "\x7benvironment\x7d"
    · rw [if_pos he] at h
      have hz : info.Context.Environment.length = 0 :=
        (length_eq_zero_iff _).2 (Option.some.inj h)
      simp only [contextPrefixLoop, if_neg ht, if_pos he, if_pos hz]
    · rw [if_neg he] at h
      by_cases hs : part = "\x7bstage\x7d"
      · rw [if_pos hs] at h
        have hz : info.Context.Stage.length = 0 := (length_eq_zero_iff _).2 (Option.some.inj h)
        simp only [contextPrefixLoop, if_neg ht, if_neg he, if_pos hs, if_pos hz]
      · rw [if_neg hs] at h
        cases h

theorem contextPrefixLoop_first_empty (namePattern : String) (info : ConfigAndStacksInfo)
    (part : String) (post : List String) (pre : List String) :
    ∀ acc : String, (∀ p ∈ pre, placeholderValue info.Context p ≠ some "") →
      placeholderValue info.Context part = some "" →
      contextPrefixLoop namePattern info (pre ++ part :: post) acc =
        Except.error (placeholderError namePattern info.Stack part) := by
  induction pre with
  | nil => intro acc _ h; exact contextPrefixLoop_empty _ _ _ _ _ h
  | cons a pre ih =>
    intro acc hpre h
    have ha := hpre a (List.mem_cons_self _ _)
    have hrest : ∀ p ∈ pre, placeholderValue info.Context p ≠ some "" :=
      fun p hp => hpre p (List.mem_cons_of_mem _ hp)
    show contextPrefixLoop namePattern info (a :: (pre ++ part :: post)) acc = _
    cases hv : placeholderValue info.Context a with
    | none =>
      rw [contextPrefixLoop_literal _ _ _ _ _ hv]
      exact ih _ hrest h
    | some v =>
      have hne : v ≠ "" := by
        rintro rfl
        exact ha hv
      rw [contextPrefixLoop_value _ _ _ _ _ _ hv hne]
      exact ih _ hrest h

theorem append_ne_empty_left (a b : String) (h : a ≠ "") : a ++ b ≠ "" := by
  intro e
  have := congrArg String.data e
  simp only [String.data_append] at this
  have hd : a.data = [] := (List.append_eq_nil.1 this).1
  exact h (String.ext hd)

theorem join_cons_append (acc v : String) (vs : List String) :
    strings.Join ((acc ++ "-" ++ v) :: vs) "-" = strings.Join (acc :: v :: vs) "-" := by
  cases vs with
  | nil => simp [strings.Join]
  | cons w ws => simp [strings.Join, String.append_assoc]

theorem contextPrefixLoop_ok_acc (namePattern : String) (info : ConfigAndStacksInfo)
    (parts : List String) :
    ∀ acc : String, acc ≠ "" → (∀ p ∈ parts, placeholderValue info.Context p ≠ some "") →
      contextPrefixLoop namePattern info parts acc =
        Except.ok (strings.Join (acc :: parts.filterMap (placeholderValue info.Context)) "-") := by
  induction parts with
  | nil => intro acc _ _; simp [contextPrefixLoop, strings.Join]
  | cons a parts ih =>
    intro acc hacc hall
    have ha := hall a (List.mem_cons_self _ _)
    have hrest : ∀ p ∈ parts, placeholderValue info.Context p ≠ some "" :=
      fun p hp => hall p (List.mem_cons_of_mem _ hp)
    cases hv : placeholderValue info.Context a with
    | none =>
      rw [contextPrefixLoop_literal _ _ _ _ _ hv, ih acc hacc hrest, List.filterMap_cons_none hv]
    | some v =>
      have hne : v ≠ "" := by
        rintro rfl
        exact ha hv
      have hlen : ¬ acc.length = 0 := fun e => hacc ((length_eq_zero_iff acc).1 e)
      rw [contextPrefixLoop_value _ _ _ _ _ _ hv hne, List.filterMap_cons_some hv]
      unfold appendPrefix
      rw [if_neg hlen, ih _ (append_ne_empty_left _ _ (append_ne_empty_left _ _ hacc)) hrest,
        join_cons_append]

theorem contextPrefixLoop_ok (namePattern : String) (info : ConfigAndStacksInfo)
    (parts : List String) (hall : ∀ p ∈ parts, placeholderValue info.Context p ≠ some "") :
    contextPrefixLoop namePattern info parts "" =
      Except.ok (strings.Join (parts.filterMap (placeholderValue info.Context)) "-") := by
  induction parts with
  | nil => simp [contextPrefixLoop, strings.Join]
  | cons a parts ih =>
    have ha := hall a (List.mem_cons_self _ _)
    have hrest : ∀ p ∈ parts, placeholderValue info.Context p ≠ some "" :=
      fun p hp => hall p (List.mem_cons_of_mem _ hp)
    cases hv : placeholderValue info.Context a with
    | none =>
      rw [contextPrefixLoop_literal _ _ _ _ _ hv, ih hrest, List.filterMap_cons_none hv]
    | some v =>
      have hne : v ≠ "" := by
        rintro rfl
        exact ha hv
      rw [contextPrefixLoop_value _ _ _ _ _ _ hv hne, List.filterMap_cons_some hv]
      have : appendPrefix "" v = v := by simp [appendPrefix]
      rw [this, contextPrefixLoop_ok_acc _ _ _ _ hne hrest]

/-- The prefix derivation fails with the error of the first unbacked placeholder. -/
theorem processContext_error (namePattern : String) (info : ConfigAndStacksInfo)
    (pre post : List String) (part : String)
    (hs : strings.Split namePattern '-' = pre ++ part :: post)
    (hpre : ∀ p ∈ pre,
      placeholderValue (getContextFromVars info.ComponentVarsSection) p ≠ some "")
    (hpart : placeholderValue (getContextFromVars info.ComponentVarsSection) part = some "") :
    (processContext namePattern info).2 =
      some (placeholderError namePattern info.Stack part) := by
  unfold processContext
  simp only []
  rw [hs, contextPrefixLoop_first_empty namePattern _ part post pre "" hpre hpart]

/-- The prefix derivation joins the values of the placeholder segments. -/
theorem processContext_ok (namePattern : String) (info : ConfigAndStacksInfo)
    (hall : ∀ p ∈ strings.Split namePattern '-',
      placeholderValue (getContextFromVars info.ComponentVarsSection) p ≠ some "") :
    (processContext namePattern info).2 = none ∧
    (processContext namePattern info).1.ContextPrefix =
      strings.Join ((strings.Split namePattern '-').filterMap
        (placeholderValue (getContextFromVars info.ComponentVarsSection))) "-" := by
  unfold processContext
  simp only []
  rw [contextPrefixLoop_ok namePattern _ _ hall]
  exact ⟨rfl, rfl⟩

/-- Claim C8: the context-prefix derivation fails if and only if some segment of
the pattern is `{tenant}`, `{environment}` or `{stage}` and the corresponding
Context field is empty, with the error of the first such segment in pattern
order; otherwise `ContextPrefix` is the Context values of the placeholder
segments, in pattern order and with repetitions, joined by `-`; literal
segments contribute nothing, and a pattern without placeholder yields the
empty prefix. -/
theorem contextPrefix_derivation (namePattern : String) (info : ConfigAndStacksInfo) :
    ((processContext namePattern info).2 ≠ none ↔
      ∃ part ∈ strings.Split namePattern '-',
        placeholderValue (getContextFromVars info.ComponentVarsSection) part = some "") ∧
    (∀ (pre post : List String) (part : String),
      strings.Split namePattern '-' = pre ++ part :: post →
      (∀ p ∈ pre,
        placeholderValue (getContextFromVars info.ComponentVarsSection) p ≠ some "") →
      placeholderValue (getContextFromVars info.ComponentVarsSection) part = some "" →
      (processContext namePattern info).2 =
        some (placeholderError namePattern info.Stack part)) ∧
    ((∀ part ∈ strings.Split namePattern '-',
        placeholderValue (getContextFromVars info.ComponentVarsSection) part ≠ some "") →
      (processContext namePattern info).2 = none ∧
      (processContext namePattern info).1.ContextPrefix =
        strings.Join ((strings.Split namePattern '-').filterMap
          (placeholderValue (getContextFromVars info.ComponentVarsSection))) "-") ∧
    ((∀ part ∈ strings.Split namePattern '-', isPlaceholder part = false) →
      (processContext namePattern info).2 = none ∧
      (processContext namePattern info).1.ContextPrefix = "") := by
  have hfirst := split_first_hit
    (fun p => decide (placeholderValue (getContextFromVars info.ComponentVarsSection) p
      = some "")) (strings.Split namePattern '-')
  refine ⟨?_, fun pre post part => processContext_error namePattern info pre post part,
    processContext_ok namePattern info, ?_⟩
  · constructor
    · intro hne
      by_contra hno
      have hall : ∀ p ∈ strings.Split namePattern '-',
          placeholderValue (getContextFromVars info.ComponentVarsSection) p ≠ some "" :=
        fun p hp e => hno ⟨p, hp, e⟩
      exact hne (processContext_ok namePattern info hall).1
    · rintro ⟨part, hp, hv⟩
      rcases hfirst with hall | ⟨pre, k, post, e, hpre, hk⟩
      · have := hall part hp
        simp [hv] at this
      · rw [processContext_error namePattern info pre post k e
          (fun p hp => by simpa using hpre p hp) (by simpa using hk)]
        simp
  · intro hlit
    have hnone : ∀ p ∈ strings.Split namePattern '-',
        placeholderValue (getContextFromVars info.ComponentVarsSection) p = none := by
      intro p hp
      have h := hlit p hp
      simp only [isPlaceholder, Bool.or_eq_false_iff, decide_eq_false_iff_not] at h
      simp [placeholderValue, h.1.1, h.1.2, h.2]
    have hall : ∀ p ∈ strings.Split namePattern '-',
        placeholderValue (getContextFromVars info.ComponentVarsSection) p ≠ some "" := by
      intro p hp e
      rw [hnone p hp] at e
      cases e
    obtain ⟨h1, h2⟩ := processContext_ok namePattern info hall
    refine ⟨h1, ?_⟩
    rw [h2, List.filterMap_eq_nil_iff.2 hnone]
    rfl

/-- Witness of claim C8: a repeated placeholder and a literal segment, and a
pattern that asks for an environment the stack does not define. -/
theorem contextPrefix_derivation_witness :
    (processContext "\x7bstage\x7d-x-\x7btenant\x7d-\x7bstage\x7d" exampleResolved).2 = none ∧
    (processContext "\x7bstage\x7d-x-\x7btenant\x7d-\x7bstage\x7d"
      exampleResolved).1.ContextPrefix = "prod-acme-prod" ∧
    (processContext "\x7btenant\x7d-\x7benvironment\x7d" exampleResolved).2 =
      some (errEnvironmentUndefined "\x7btenant\x7d-\x7benvironment\x7d" "s1") :=
  ⟨by decide, by decide,
   (contextPrefix_derivation "\x7btenant\x7d-\x7benvironment\x7d" exampleResolved).2.1
     ["\x7btenant\x7d"] [] "\x7benvironment\x7d" (by decide) (by decide) (by decide)⟩

/-! ## Context fields and the round trip of split and join -/

/-- The fields of the context are the string values of the same-named vars. -/
theorem getContextFromVars_fields (vars : Option MapII) :
    (getContextFromVars vars).Namespace = ((lookupVars vars "namespace").asString).getD "" ∧
    (getContextFromVars vars).Tenant = ((lookupVars vars "tenant").asString).getD "" ∧
    (getContextFromVars vars).Environment
      = ((lookupVars vars "environment").asString).getD "" ∧
    (getContextFromVars vars).Stage = ((lookupVars vars "stage").asString).getD "" ∧
    (getContextFromVars vars).Region = ((lookupVars vars "region").asString).getD "" := by
  unfold getContextFromVars
  cases (lookupVars vars "namespace").asString <;>
    cases (lookupVars vars "tenant").asString <;>
    cases (lookupVars vars "environment").asString <;>
    cases (lookupVars vars "stage").asString <;>
    cases (lookupVars vars "region").asString <;>
    exact ⟨rfl, rfl, rfl, rfl, rfl⟩

/-- A split has at least one piece. -/
theorem splitChars_ne_nil (sep : Char) (cs : List Char) : strings.splitChars sep cs ≠ [] := by
  cases cs with
  | nil => simp [strings.splitChars]
  | cons c cs =>
    simp only [strings.splitChars]
    split_ifs
    · simp
    · split <;> simp

theorem mk_cons_append (c : Char) (p : List Char) (x : String) :
    String.mk (c :: p) ++ x = String.mk (c :: (String.mk p ++ x).data) := by
  apply String.ext
  simp [String.data_append]

theorem join_splitChars (cs : List Char) :
    strings.Join ((strings.splitChars '-' cs).map String.mk) "-" = String.mk cs := by
  induction cs with
  | nil => rfl
  | cons c cs ih =>
    simp only [strings.splitChars]
    by_cases hc : c = '-'
    · rw [if_pos hc]
      cases hs : strings.splitChars '-' cs with
      | nil => exact absurd hs (splitChars_ne_nil _ _)
      | cons p ps =>
        rw [hs] at ih
        simp only [List.map_cons, strings.Join] at ih ⊢
        rw [ih, hc]
        apply String.ext
        simp [String.data_append]
    · rw [if_neg hc]
      cases hs : strings.splitChars '-' cs with
      | nil => exact absurd hs (splitChars_ne_nil _ _)
      | cons p ps =>
        rw [hs] at ih
        simp only []
        cases ps with
        | nil =>
          simp only [List.map_cons, List.map_nil, strings.Join] at ih ⊢
          rw [show p = cs from congrArg String.data ih]
        | cons q qs =>
          simp only [List.map_cons, strings.Join] at ih ⊢
          rw [String.append_assoc, mk_cons_append, ← String.append_assoc, ih]

/-- Joining the parts of a split gives the string back. -/
theorem join_split (s : String) : strings.Join (strings.Split s '-') "-" = s := by
  unfold strings.Split
  rw [join_splitChars]

theorem filterMap_eq_of_pointwise (f : String → Option String) (segs : List String) :
    ∀ parts : List String, parts.length = segs.length →
      (∀ (j : Nat) (seg part : String), segs[j]? = some seg → parts[j]? = some part →
        f seg = some part) →
      segs.filterMap f = parts := by
  induction segs with
  | nil =>
    intro parts hl _
    rw [List.length_eq_zero.1 hl]
    rfl
  | cons a segs ih =>
    intro parts hl h
    cases parts with
    | nil => simp at hl
    | cons b parts =>
      have h0 : f a = some b := h 0 a b (by simp) (by simp)
      rw [List.filterMap_cons_some h0]
      congr 1
      refine ih parts (by simpa using hl) ?_
      intro j seg part hs hp
      exact h (j + 1) seg part (by simpa using hs) (by simpa using hp)

/-- A key that is absent from a map reads as the nil interface. -/
theorem lookupII_absent {m : MapII} {k : Key} (h : k ∉ m.map Prod.fst) :
    lookupII m k = Value.nil := by
  induction m with
  | nil => rfl
  | cons p rest ih =>
    obtain ⟨k', v⟩ := p
    simp only [List.map_cons, List.mem_cons, not_or] at h
    simp only [lookupII]
    rw [if_neg (fun e => h.1 e.symm)]
    exact ih h.2

theorem getD_asString_of_eq {v : Value} {s : String} (h : v = Value.str s) :
    (v.asString).getD "" = s := by
  rw [h]; rfl

theorem getD_asString_of_ne {v : Value} (h : ∀ s, v ≠ Value.str s) :
    (v.asString).getD "" = "" := by
  rw [asString_eq_none.2 h]; rfl

/-- Claim C10: for every vars mapping, nil included, `getContextFromVars` is
total and returns a Context in which each of Namespace, Tenant, Environment,
Stage and Region equals the value stored under the same-named key when that
value is a string, and is empty when the key is absent (it then reads as nil)
or its value is not a string; no other key of vars influences the result. -/
theorem getContextFromVars_copies_strings (vars : Option MapII) :
    ((∀ s, lookupVars vars "namespace" = Value.str s → (getContextFromVars vars).Namespace = s) ∧
      ((∀ s, lookupVars vars "namespace" ≠ Value.str s) →
        (getContextFromVars vars).Namespace = "")) ∧
    ((∀ s, lookupVars vars "tenant" = Value.str s → (getContextFromVars vars).Tenant = s) ∧
      ((∀ s, lookupVars vars "tenant" ≠ Value.str s) → (getContextFromVars vars).Tenant = "")) ∧
    ((∀ s, lookupVars vars "environment" = Value.str s →
        (getContextFromVars vars).Environment = s) ∧
      ((∀ s, lookupVars vars "environment" ≠ Value.str s) →
        (getContextFromVars vars).Environment = "")) ∧
    ((∀ s, lookupVars vars "stage" = Value.str s → (getContextFromVars vars).Stage = s) ∧
      ((∀ s, lookupVars vars "stage" ≠ Value.str s) → (getContextFromVars vars).Stage = "")) ∧
    ((∀ s, lookupVars vars "region" = Value.str s → (getContextFromVars vars).Region = s) ∧
      ((∀ s, lookupVars vars "region" ≠ Value.str s) → (getContextFromVars vars).Region = "")) ∧
    (∀ (m : MapII) (key : String), Key.str key ∉ m.map Prod.fst →
      lookupVars (some m) key = Value.nil) ∧
    (∀ key : String, lookupVars none key = Value.nil) ∧
    getContextFromVars none =
      { Namespace := "", Tenant := "", Environment := "", Stage := "", Region := "" } ∧
    (∀ vars' : Option MapII,
      (∀ key ∈ ["namespace", "tenant", "environment", "stage", "region"],
        lookupVars vars' key = lookupVars vars key) →
      getContextFromVars vars' = getContextFromVars vars) := by
  obtain ⟨h1, h2, h3, h4, h5⟩ := getContextFromVars_fields vars
  refine ⟨⟨?_, ?_⟩, ⟨?_, ?_⟩, ⟨?_, ?_⟩, ⟨?_, ?_⟩, ⟨?_, ?_⟩, ?_, ?_, rfl, ?_⟩
  · intro s h; rw [h1, getD_asString_of_eq h]
  · intro h; rw [h1, getD_asString_of_ne h]
  · intro s h; rw [h2, getD_asString_of_eq h]
  · intro h; rw [h2, getD_asString_of_ne h]
  · intro s h; rw [h3, getD_asString_of_eq h]
  · intro h; rw [h3, getD_asString_of_ne h]
  · intro s h; rw [h4, getD_asString_of_eq h]
  · intro h; rw [h4, getD_asString_of_ne h]
  · intro s h; rw [h5, getD_asString_of_eq h]
  · intro h; rw [h5, getD_asString_of_ne h]
  · intro m key h; exact lookupII_absent h
  · intro key; rfl
  · intro vars' h
    obtain ⟨g1, g2, g3, g4, g5⟩ := getContextFromVars_fields vars'
    have e1 := h "namespace" (by simp)
    have e2 := h "tenant" (by simp)
    have e3 := h "environment" (by simp)
    have e4 := h "stage" (by simp)
    have e5 := h "region" (by simp)
    rw [e1] at g1
    rw [e2] at g2
    rw [e3] at g3
    rw [e4] at g4
    rw [e5] at g5
    cases hc : getContextFromVars vars
    cases hc' : getContextFromVars vars'
    rw [hc] at h1 h2 h3 h4 h5
    rw [hc'] at g1 g2 g3 g4 g5
    simp only at h1 h2 h3 h4 h5 g1 g2 g3 g4 g5
    rw [h1, h2, h3, h4, h5, g1, g2, g3, g4, g5]

/-- Witness of claim C10: a non-string stage and a foreign key are ignored. -/
theorem getContextFromVars_copies_strings_witness :
    getContextFromVars (some
        [(Key.str "tenant", Value.str "acme"), (Key.str "stage", Value.int 3),
         (Key.str "region", Value.str "us-east-1"), (Key.str "owner", Value.str "ops")]) =
      { Namespace := "", Tenant := "acme", Environment := "", Stage := "",
        Region := "us-east-1" } ∧
    (getContextFromVars (some
        [(Key.str "tenant", Value.str "acme"), (Key.str "stage", Value.int 3),
         (Key.str "region", Value.str "us-east-1"),
         (Key.str "owner", Value.str "ops")])).Tenant = "acme" :=
  ⟨by decide,
   (getContextFromVars_copies_strings (some
        [(Key.str "tenant", Value.str "acme"), (Key.str "stage", Value.int 3),
         (Key.str "region", Value.str "us-east-1"),
         (Key.str "owner", Value.str "ops")])).2.1.1 "acme" rfl⟩

/-! ## Token binding under pairwise distinct placeholders -/

/-- A pattern without `{tenant}` leaves the tenant token alone. -/
theorem bindTokens_tenant_of_not_mem (segs : List String) :
    ∀ (parts : List String) (t : Tokens), "\x7btenant\x7d" ∉ segs →
      (bindTokens segs parts t).tenant = t.tenant := by
  induction segs with
  | nil => intro parts t _; cases parts <;> rfl
  | cons a segs ih =>
    intro parts t hn
    simp only [List.mem_cons, not_or] at hn
    have hne : a ≠ "\x7btenant\x7d" := fun e => hn.1 e.symm
    cases parts with
    | nil => rfl
    | cons b parts =>
      simp only [bindTokens, if_neg hne]
      split_ifs <;> rw [ih _ _ hn.2]

/-- A pattern without `{environment}` leaves the environment token alone. -/
theorem bindTokens_environment_of_not_mem (segs : List String) :
    ∀ (parts : List String) (t : Tokens), "\x7benvironment\x7d" ∉ segs →
      (bindTokens segs parts t).environment = t.environment := by
  induction segs with
  | nil => intro parts t _; cases parts <;> rfl
  | cons a segs ih =>
    intro parts t hn
    simp only [List.mem_cons, not_or] at hn
    have hne : a ≠ "\x7benvironment\x7d" := fun e => hn.1 e.symm
    cases parts with
    | nil => rfl
    | cons b parts =>
      simp only [bindTokens, if_neg hne]
      split_ifs <;> rw [ih _ _ hn.2]

/-- A pattern without `{stage}` leaves the stage token alone. -/
theorem bindTokens_stage_of_not_mem (segs : List String) :
    ∀ (parts : List String) (t : Tokens), "\x7bstage\x7d" ∉ segs →
      (bindTokens segs parts t).stage = t.stage := by
  induction segs with
  | nil => intro parts t _; cases parts <;> rfl
  | cons a segs ih =>
    intro parts t hn
    simp only [List.mem_cons, not_or] at hn
    have hne : a ≠ "\x7bstage\x7d" := fun e => hn.1 e.symm
    cases parts with
    | nil => rfl
    | cons b parts =>
      simp only [bindTokens, if_neg hne]
      split_ifs <;> rw [ih _ _ hn.2]

/-- Under distinct segments the tenant token is the part at the position of
`{tenant}`. -/
theorem bindTokens_tenant_at (segs : List String) :
    ∀ (parts : List String) (t : Tokens) (j : Nat) (part : String), segs.Nodup →
      segs[j]? = some "\x7btenant\x7d" → parts[j]? = some part →
      (bindTokens segs parts t).tenant = part := by
  induction segs with
  | nil => intro parts t j part _ hs _; simp at hs
  | cons a segs ih =>
    intro parts t j part hnd hs hp
    obtain ⟨hna, hnd'⟩ := List.nodup_cons.1 hnd
    cases parts with
    | nil => simp at hp
    | cons b parts =>
      cases j with
      | zero =>
        simp only [List.getElem?_cons_zero, Option.some.injEq] at hs hp
        subst hs
        subst hp
        simp [bindTokens, bindTokens_tenant_of_not_mem _ _ _ hna]
      | succ j =>
        simp only [List.getElem?_cons_succ] at hs hp
        have hmem : "\x7btenant\x7d" ∈ segs := List.getElem?_mem hs
        have hne : a ≠ "\x7btenant\x7d" := fun e => hna (e ▸ hmem)
        simp only [bindTokens, if_neg hne]
        split_ifs <;> exact ih _ _ j part hnd' hs hp

/-- Under distinct segments the environment token is the part at the position of
`{environment}`. -/
theorem bindTokens_environment_at (segs : List String) :
    ∀ (parts : List String) (t : Tokens) (j : Nat) (part : String), segs.Nodup →
      segs[j]? = some "\x7benvironment\x7d" → parts[j]? = some part →
      (bindTokens segs parts t).environment = part := by
  induction segs with
  | nil => intro parts t j part _ hs _; simp at hs
  | cons a segs ih =>
    intro parts t j part hnd hs hp
    obtain ⟨hna, hnd'⟩ := List.nodup_cons.1 hnd
    cases parts with
    | nil => simp at hp
    | cons b parts =>
      cases j with
      | zero =>
        simp only [List.getElem?_cons_zero, Option.some.injEq] at hs hp
        subst hs
        subst hp
        simp [bindTokens, bindTokens_environment_of_not_mem _ _ _ hna]
      | succ j =>
        simp only [List.getElem?_cons_succ] at hs hp
        have hmem : "\x7benvironment\x7d" ∈ segs := List.getElem?_mem hs
        have hne : a ≠ "\x7benvironment\x7d" := fun e => hna (e ▸ hmem)
        simp only [bindTokens, if_neg hne]
        split_ifs <;> exact ih _ _ j part hnd' hs hp

/-- Under distinct segments the stage token is the part at the position of
`{stage}`. -/
theorem bindTokens_stage_at (segs : List String) :
    ∀ (parts : List String) (t : Tokens) (j : Nat) (part : String), segs.Nodup →
      segs[j]? = some "\x7bstage\x7d" → parts[j]? = some part →
      (bindTokens segs parts t).stage = part := by
  induction segs with
  | nil => intro parts t j part _ hs _; simp at hs
  | cons a segs ih =>
    intro parts t j part hnd hs hp
    obtain ⟨hna, hnd'⟩ := List.nodup_cons.1 hnd
    cases parts with
    | nil => simp at hp
    | cons b parts =>
      cases j with
      | zero =>
        simp only [List.getElem?_cons_zero, Option.some.injEq] at hs hp
        subst hs
        subst hp
        simp [bindTokens, bindTokens_stage_of_not_mem _ _ _ hna]
      | succ j =>
        simp only [List.getElem?_cons_succ] at hs hp
        have hmem : "\x7bstage\x7d" ∈ segs := List.getElem?_mem hs
        have hne : a ≠ "\x7bstage\x7d" := fun e => hna (e ▸ hmem)
        simp only [bindTokens, if_neg hne]
        split_ifs <;> exact ih _ _ j part hnd' hs hp

/-! ## Round trip between candidate and prefix -/

/-- After a successful search under a pattern of distinct placeholders, each
placeholder is backed by the candidate part at its position. -/
theorem placeholderValue_of_search (namePattern : String) (stacksMap : MapSI)
    (componentType : String) (info info' : ConfigAndStacksInfo)
    (hall : ∀ part ∈ strings.Split namePattern '-', isPlaceholder part = true)
    (hnd : (strings.Split namePattern '-').Nodup)
    (hne : ∀ part ∈ strings.Split info.Stack '-', part ≠ "")
    (hsearch : patternSearch namePattern stacksMap componentType info = (info', none)) :
    ∀ (j : Nat) (seg part : String), (strings.Split namePattern '-')[j]? = some seg →
      (strings.Split info.Stack '-')[j]? = some part →
      placeholderValue (getContextFromVars info'.ComponentVarsSection) seg = some part := by
  obtain ⟨_, pre, k, post, _, _, hq, e⟩ := patternSearch_success _ _ _ _ _ hsearch
  obtain ⟨cs, vars, hc, ht, he, hs⟩ := hq
  have hvars : info'.ComponentVarsSection = some vars := by
    rw [e]
    simp only [selectedInfo]
    rw [checkStackConfig_of_chain hc]
  obtain ⟨_, f2, f3, f4, _⟩ := getContextFromVars_fields (some vars)
  intro j seg part hseg hpart
  have hpne : part ≠ "" := hne part (List.getElem?_mem hpart)
  have hph := hall seg (List.getElem?_mem hseg)
  simp only [isPlaceholder, Bool.or_eq_true, decide_eq_true_eq] at hph
  rw [hvars]
  rcases hph with (rfl | rfl) | rfl
  · have htok : (requestedTokens namePattern info.Stack).tenant = part :=
      bindTokens_tenant_at _ _ _ j part hnd hseg hpart
    rw [htok] at ht
    have hl : lookupVars (some vars) "tenant" = Value.str part := ht hpne
    rw [hl] at f2
    simp [placeholderValue, f2, Value.asString]
  · have htok : (requestedTokens namePattern info.Stack).environment = part :=
      bindTokens_environment_at _ _ _ j part hnd hseg hpart
    rw [htok] at he
    have hl : lookupVars (some vars) "environment" = Value.str part := he hpne
    rw [hl] at f3
    simp [placeholderValue, f3, Value.asString]
  · have htok : (requestedTokens namePattern info.Stack).stage = part :=
      bindTokens_stage_at _ _ _ j part hnd hseg hpart
    rw [htok] at hs
    have hl : lookupVars (some vars) "stage" = Value.str part := hs hpne
    rw [hl] at f4
    simp [placeholderValue, f4, Value.asString]

/-- The prefix derivation on the vars of the resolved stack gives the candidate. -/
theorem processContext_round_trip (namePattern : String) (stacksMap : MapSI)
    (componentType : String) (info info' i : ConfigAndStacksInfo)
    (hall : ∀ part ∈ strings.Split namePattern '-', isPlaceholder part = true)
    (hnd : (strings.Split namePattern '-').Nodup)
    (hne : ∀ part ∈ strings.Split info.Stack '-', part ≠ "")
    (hsearch : patternSearch namePattern stacksMap componentType info = (info', none))
    (hi : i.ComponentVarsSection = info'.ComponentVarsSection) :
    (processContext namePattern i).2 = none ∧
    (processContext namePattern i).1.ContextPrefix = info.Stack := by
  have hpt := placeholderValue_of_search _ _ _ _ _ hall hnd hne hsearch
  have hl := (patternSearch_success _ _ _ _ _ hsearch).1
  rw [← hi] at hpt
  have hgood : ∀ p ∈ strings.Split namePattern '-',
      placeholderValue (getContextFromVars i.ComponentVarsSection) p ≠ some "" := by
    intro p hp hv
    obtain ⟨j, hj⟩ := List.mem_iff_getElem?.1 hp
    have hlt : j < (strings.Split info.Stack '-').length := by
      rw [hl]
      by_contra hge
      rw [List.getElem?_eq_none (by omega)] at hj
      cases hj
    have hpj : (strings.Split info.Stack '-')[j]? = some ((strings.Split info.Stack '-')[j]) :=
      List.getElem?_eq_getElem hlt
    have := hpt j p _ hj hpj
    rw [hv] at this
    exact hne _ (List.getElem?_mem hpj) (Option.some.inj this).symm
  obtain ⟨h1, h2⟩ := processContext_ok namePattern i hgood
  refine ⟨h1, ?_⟩
  rw [h2, filterMap_eq_of_pointwise _ _ _ hl hpt, join_split]

/-- Claim C9: round trip between candidate and prefix. In pattern-search mode,
when every segment of the naming pattern is a placeholder, the placeholders are
pairwise distinct and every `-`-separated part of the candidate is non-empty,
every successful search is followed by a context-prefix derivation that does
not fail, the resulting `ContextPrefix` equals the candidate stack name, and
the tenant, environment and stage fields of the Context equal the candidate
parts bound to them. The last part states it for the value returned by
`processConfigAndStacks` when printing the vars succeeds. -/
theorem search_prefix_round_trip (namePattern : String) (stacksMap : MapSI)
    (componentType : String) (info info' : ConfigAndStacksInfo)
    (hall : ∀ part ∈ strings.Split namePattern '-', isPlaceholder part = true)
    (hnd : (strings.Split namePattern '-').Nodup)
    (hne : ∀ part ∈ strings.Split info.Stack '-', part ≠ "")
    (hsearch : patternSearch namePattern stacksMap componentType info = (info', none)) :
    (processContext namePattern
      (decomposeComponent (defaultCommand componentType info'))).2 = none ∧
    (processContext namePattern
      (decomposeComponent (defaultCommand componentType info'))).1.ContextPrefix = info.Stack ∧
    (∀ (j : Nat) (part : String), (strings.Split info.Stack '-')[j]? = some part →
      ((strings.Split namePattern '-')[j]? = some "\x7btenant\x7d" →
        (getContextFromVars info'.ComponentVarsSection).Tenant = part) ∧
      ((strings.Split namePattern '-')[j]? = some "\x7benvironment\x7d" →
        (getContextFromVars info'.ComponentVarsSection).Environment = part) ∧
      ((strings.Split namePattern '-')[j]? = some "\x7bstage\x7d" →
        (getContextFromVars info'.ComponentVarsSection).Stage = part)) ∧
    (∀ (stackType : String) (printAsYAML : Option MapII → Option String),
      stackType ≠ "Directory" → printAsYAML info'.ComponentVarsSection = none →
      (processConfigAndStacks namePattern stackType stacksMap printAsYAML componentType
        info).2 = none ∧
      (processConfigAndStacks namePattern stackType stacksMap printAsYAML componentType
        info).1.ContextPrefix = info.Stack ∧
      (processConfigAndStacks namePattern stackType stacksMap printAsYAML componentType
        info).1.Context = getContextFromVars info'.ComponentVarsSection ∧
      (processConfigAndStacks namePattern stackType stacksMap printAsYAML componentType
        info).1.Stack = info'.Stack) := by
  have hd : (decomposeComponent (defaultCommand componentType info')).ComponentVarsSection
      = info'.ComponentVarsSection := by
    rw [(decomposeComponent_fields _).2.1]
    unfold defaultCommand
    split_ifs <;> rfl
  have hds : (decomposeComponent (defaultCommand componentType info')).Stack = info'.Stack := by
    rw [(decomposeComponent_fields _).1]
    unfold defaultCommand
    split_ifs <;> rfl
  obtain ⟨h1, h2⟩ := processContext_round_trip namePattern stacksMap componentType info info'
    (decomposeComponent (defaultCommand componentType info')) hall hnd hne hsearch hd
  have hpt := placeholderValue_of_search _ _ _ _ _ hall hnd hne hsearch
  refine ⟨h1, h2, ?_, ?_⟩
  · intro j part hpart
    refine ⟨fun hs => ?_, fun hs => ?_, fun hs => ?_⟩
    · have := hpt j _ part hs hpart
      simpa [placeholderValue] using this
    · have := hpt j _ part hs hpart
      simpa [placeholderValue] using this
    · have := hpt j _ part hs hpart
      simpa [placeholderValue] using this
  · intro stackType printAsYAML hst hprint
    have hp : ¬ namePattern.length < 1 := by
      intro hlt
      have he : namePattern = "" := (length_eq_zero_iff _).1 (by omega)
      have := hall "" (by rw [he]; decide)
      exact absurd this (by decide)
    rw [processConfigAndStacks_of_search _ _ _ _ _ _ _ hp hst hsearch, hprint]
    simp only []
    refine ⟨h1, h2, ?_, ?_⟩
    · rw [(processContext_fields _ _).2.2.2.2.2, hd]
    · rw [(processContext_fields _ _).1, hds]

/-- Witness of claim C9: pattern `{tenant}-{stage}`, candidate `acme-prod`, stack
`s1`, prefix `acme-prod`. -/
theorem search_prefix_round_trip_witness :
    (processConfigAndStacks examplePattern "Pattern" exampleTree (fun _ => none) "terraform"
      exampleInfo).2 = none ∧
    (processConfigAndStacks examplePattern "Pattern" exampleTree (fun _ => none) "terraform"
      exampleInfo).1.ContextPrefix = "acme-prod" ∧
    (processConfigAndStacks examplePattern "Pattern" exampleTree (fun _ => none) "terraform"
      exampleInfo).1.Context =
        { Namespace := "", Tenant := "acme", Environment := "", Stage := "prod",
          Region := "us-east-1" } ∧
    (processConfigAndStacks examplePattern "Pattern" exampleTree (fun _ => none) "terraform"
      exampleInfo).1.Stack = "s1" :=
  have h := (search_prefix_round_trip examplePattern exampleTree "terraform" exampleInfo
    (patternSearch examplePattern exampleTree "terraform" exampleInfo).1
    (by decide) (by decide) (by decide) (Prod.ext rfl (by decide))).2.2.2
    "Pattern" (fun _ => none) (by decide) rfl
  ⟨h.1, h.2.1, by decide, by decide⟩

/-! ## The two stack locators and the addressed stack -/

/-- The stack locator reads the stacks map only under the addressed key. -/
theorem checkStackConfig_congr (m₁ m₂ : MapSI) (k componentType component : String)
    (e : lookupSI m₁ k = lookupSI m₂ k) :
    checkStackConfig k m₁ componentType component =
      checkStackConfig k m₂ componentType component := by
  unfold checkStackConfig
  rw [e]

/-- Claim C11: directory-mode lookup depends only on the addressed stack. For
every two stacks maps that hold the same entry under a stack key `k`, and every
component type and name, `checkStackConfig` on `k` returns identical results
(section, vars, backend, base path, command, error) on both maps, and so does
the directory branch of the resolution; adding a stack under another key
changes nothing. -/
theorem checkStackConfig_depends_on_addressed_stack (stacksMap₁ stacksMap₂ : MapSI)
    (k componentType component : String)
    (h : lookupSI stacksMap₁ k = lookupSI stacksMap₂ k) :
    checkStackConfig k stacksMap₁ componentType component =
      checkStackConfig k stacksMap₂ componentType component ∧
    (∀ (namePattern : String) (info : ConfigAndStacksInfo), info.Stack = k →
      resolveStack namePattern "Directory" stacksMap₁ componentType info =
        resolveStack namePattern "Directory" stacksMap₂ componentType info) ∧
    (∀ (k' : String) (v : Value), k' ≠ k →
      checkStackConfig k ((k', v) :: stacksMap₁) componentType component =
        checkStackConfig k stacksMap₁ componentType component) := by
  refine ⟨checkStackConfig_congr _ _ _ _ _ h, ?_, ?_⟩
  · intro namePattern info hk
    simp only [resolveStack, if_true, hk,
      checkStackConfig_congr _ _ k componentType info.ComponentFromArg h]
  · intro k' v hne
    apply checkStackConfig_congr
    simp only [lookupSI, if_neg hne]

/-- Witness of claim C11: a further stack `s7` does not change the lookup of `s1`. -/
theorem checkStackConfig_depends_on_addressed_stack_witness :
    checkStackConfig "s1" (("s7", Value.str "other") :: exampleTree) "terraform" "vpc" =
      checkStackConfig "s1" exampleTree "terraform" "vpc" :=
  (checkStackConfig_depends_on_addressed_stack (("s7", Value.str "other") :: exampleTree)
    exampleTree "s1" "terraform" "vpc" rfl).1

/-- Claim C12: the two stack locators agree. For every stacks map, stack name,
component type and component name, `findComponentConfig` fails exactly when
`checkStackConfig` fails and then with the same error message, and they return
the same component section, the same vars mapping and the same backend
mapping. -/
theorem findComponentConfig_agrees_with_checkStackConfig (stack : String) (stacksMap : MapSI)
    (componentType component : String) :
    (findComponentConfig stack stacksMap componentType component).err =
      (checkStackConfig stack stacksMap componentType component).err ∧
    (findComponentConfig stack stacksMap componentType component).componentSection =
      (checkStackConfig stack stacksMap componentType component).componentSection ∧
    (findComponentConfig stack stacksMap componentType component).componentVarsSection =
      (checkStackConfig stack stacksMap componentType component).componentVarsSection ∧
    (findComponentConfig stack stacksMap componentType component).componentBackendSection =
      (checkStackConfig stack stacksMap componentType component).componentBackendSection ∧
    ((findComponentConfig stack stacksMap componentType component).err = none ↔
      (checkStackConfig stack stacksMap componentType component).err = none) := by
  have h : (findComponentConfig stack stacksMap componentType component).err =
      (checkStackConfig stack stacksMap componentType component).err ∧
    (findComponentConfig stack stacksMap componentType component).componentSection =
      (checkStackConfig stack stacksMap componentType component).componentSection ∧
    (findComponentConfig stack stacksMap componentType component).componentVarsSection =
      (checkStackConfig stack stacksMap componentType component).componentVarsSection ∧
    (findComponentConfig stack stacksMap componentType component).componentBackendSection =
      (checkStackConfig stack stacksMap componentType component).componentBackendSection := by
    unfold findComponentConfig checkStackConfig
    cases (lookupSI stacksMap stack).asMapII with
    | none => exact ⟨rfl, rfl, rfl, rfl⟩
    | some ss =>
      simp only []
      cases (lookupII ss (Key.str "components")).asMapSI with
      | none => exact ⟨rfl, rfl, rfl, rfl⟩
      | some cps =>
        simp only []
        cases (lookupSI cps componentType).asMapSI with
        | none => exact ⟨rfl, rfl, rfl, rfl⟩
        | some ts =>
          simp only []
          cases (lookupSI ts component).asMapSI with
          | none => exact ⟨rfl, rfl, rfl, rfl⟩
          | some cs =>
            simp only []
            cases (lookupSI cs "vars").asMapII with
            | none => exact ⟨rfl, rfl, rfl, rfl⟩
            | some vars => exact ⟨rfl, rfl, rfl, rfl⟩
  exact ⟨h.1, h.2.1, h.2.2.1, h.2.2.2, by rw [h.1]⟩

/-! ## Iteration order of the pattern search -/

/-- Reordering a map with distinct keys does not change its lookups. -/
theorem lookupSI_perm {m₁ m₂ : MapSI} (hperm : m₁.Perm m₂) :
    (stackNames m₁).Nodup → ∀ k : String, lookupSI m₁ k = lookupSI m₂ k := by
  induction hperm with
  | nil => intro _ k; rfl
  | cons x _ ih =>
    intro hnd k
    obtain ⟨kx, vx⟩ := x
    simp only [stackNames, List.map_cons, List.nodup_cons] at hnd
    simp only [lookupSI]
    rw [ih hnd.2 k]
  | swap x y l =>
    intro hnd k
    obtain ⟨kx, vx⟩ := x
    obtain ⟨ky, vy⟩ := y
    simp only [stackNames, List.map_cons, List.nodup_cons, List.mem_cons, not_or] at hnd
    simp only [lookupSI]
    by_cases h1 : ky = k
    · by_cases h2 : kx = k
      · exact absurd (h1.trans h2.symm) hnd.1.1
      · rw [if_pos h1, if_neg h2, if_pos h1]
    · rw [if_neg h1, if_neg h1]
  | trans h₁ _ ih₁ ih₂ =>
    intro hnd k
    have hnd' := (List.Perm.nodup_iff (List.Perm.map Prod.fst h₁)).1 hnd
    rw [ih₁ hnd k, ih₂ hnd' k]

/-- Qualification reads the stacks map only through its lookups. -/
theorem qualifies_congr {m₁ m₂ : MapSI} (h : ∀ k : String, lookupSI m₁ k = lookupSI m₂ k)
    (componentType component : String) (tok : Tokens) (k : String) :
    Qualifies m₁ componentType component tok k ↔ Qualifies m₂ componentType component tok k := by
  unfold Qualifies LookupChain
  rw [h k]

/-- Claim C13: the iteration order does not affect the correctness of the
pattern search. For every tree with distinct keys, pattern, candidate and
component, and every two orders in which the stack keys are iterated, the
search succeeds under one order iff it succeeds under the other, with the same
error otherwise; and when at most one stack qualifies, the resolved stack name,
vars, base component path and command are identical under both orders, so the
order can change the outcome only when several stacks qualify. -/
theorem patternSearch_order_independent (namePattern : String) (stacksMap₁ stacksMap₂ : MapSI)
    (componentType : String) (info : ConfigAndStacksInfo)
    (hperm : stacksMap₁.Perm stacksMap₂) (hnd : (stackNames stacksMap₁).Nodup) :
    (patternSearch namePattern stacksMap₁ componentType info).2 =
      (patternSearch namePattern stacksMap₂ componentType info).2 ∧
    ((∀ k₁ k₂ : String,
        Qualifies stacksMap₁ componentType info.ComponentFromArg
          (requestedTokens namePattern info.Stack) k₁ →
        Qualifies stacksMap₁ componentType info.ComponentFromArg
          (requestedTokens namePattern info.Stack) k₂ → k₁ = k₂) →
      (patternSearch namePattern stacksMap₁ componentType info).2 = none →
      patternSearch namePattern stacksMap₁ componentType info =
        patternSearch namePattern stacksMap₂ componentType info) := by
  have hl := lookupSI_perm hperm hnd
  have hq := fun k => qualifies_congr hl componentType info.ComponentFromArg
    (requestedTokens namePattern info.Stack) k
  have hmem : ∀ k, k ∈ stackNames stacksMap₂ ↔ k ∈ stackNames stacksMap₁ :=
    fun k => (List.Perm.mem_iff (List.Perm.map Prod.fst hperm)).symm
  rcases patternSearch_cases namePattern stacksMap₁ componentType info with
    ⟨hne, e⟩ | ⟨hlen, hno, e⟩ | ⟨hlen, pre, k, post, hn, hpre, hk, e⟩
  · rw [e, patternSearch_mismatch _ stacksMap₂ _ _ hne]
    exact ⟨rfl, fun _ _ => rfl⟩
  · have hno₂ : ∀ k ∈ stackNames stacksMap₂, ¬ Qualifies stacksMap₂ componentType
        info.ComponentFromArg (requestedTokens namePattern info.Stack) k :=
      fun k hk hqk => hno k ((hmem k).1 hk) ((hq k).2 hqk)
    rw [e, patternSearch_none _ stacksMap₂ _ _ hlen hno₂]
    exact ⟨rfl, fun _ h => by cases h⟩
  · have hk₂ : k ∈ stackNames stacksMap₂ := (hmem k).2 (by rw [hn]; simp)
    rcases patternSearch_cases namePattern stacksMap₂ componentType info with
      ⟨hne, _⟩ | ⟨_, hno, _⟩ | ⟨_, pre', k', post', _, _, hk', e'⟩
    · exact absurd hlen hne
    · exact absurd ((hq k).1 hk) (hno k hk₂)
    · rw [e, e']
      refine ⟨rfl, fun huniq _ => ?_⟩
      have hkk : k' = k := huniq k' k ((hq k').2 hk') hk
      rw [hkk]
      simp only [selectedInfo, checkStackConfig_congr _ _ k componentType _ (hl k)]

/-- Only stack `s1` of the example tree defines the component `vpc`. -/
theorem exampleTree_qualifies_only_s1 (tok : Tokens) (k : String)
    (h : Qualifies exampleTree "terraform" "vpc" tok k) : k = "s1" := by
  obtain ⟨cs, vars, ⟨ss, cps, ts, h1, h2, _, _, _⟩, _⟩ := h
  by_cases h0 : "s0" = k
  · subst h0
    have e : lookupSI exampleTree "s0" = Value.mapII [(Key.str "vars", Value.mapII [])] := rfl
    rw [e] at h1
    cases h1
    have e2 : lookupII [(Key.str "vars", Value.mapII [])] (Key.str "components") = Value.nil :=
      rfl
    rw [e2] at h2
    cases h2
  · by_cases hs1 : "s1" = k
    · exact hs1.symm
    · simp [exampleTree, lookupSI, h0, hs1] at h1

/-- Witness of claim C13: the example tree and its reversal resolve alike. -/
theorem patternSearch_order_independent_witness :
    patternSearch examplePattern exampleTree "terraform" exampleInfo =
      patternSearch examplePattern exampleTree.reverse "terraform" exampleInfo :=
  (patternSearch_order_independent examplePattern exampleTree exampleTree.reverse "terraform"
    exampleInfo (List.reverse_perm exampleTree).symm (by decide)).2
    (fun k₁ k₂ h₁ h₂ =>
      (exampleTree_qualifies_only_s1 _ k₁ h₁).trans (exampleTree_qualifies_only_s1 _ k₂ h₂).symm)
    (by decide)

/-! ## The two loops of the argument partitioner -/

/-- The index test of a flag block says whether a token follows. -/
theorem flagValue_eq_next (input : List String) (i : Nat) (arg flag current : String)
    (info : ArgsAndFlagsInfo) :
    flagValue input i arg flag current info =
      flagValueNext arg input[i + 1]? flag current info := by
  unfold flagValue flagValueNext
  by_cases h : arg = flag
  · rw [if_pos h, if_pos h]
    by_cases hl : input.length ≤ i + 1
    · rw [if_pos hl, List.getElem?_eq_none hl]
    · rw [if_neg hl]
      have hlt : i + 1 < input.length := by omega
      rw [List.getElem?_eq_getElem hlt]
  · rw [if_neg h, if_neg h]

/-- The five blocks in terms of the following token. -/
theorem extractFlags_eq_next (g : Globals) (input : List String) (i : Nat) (arg : String)
    (info : ArgsAndFlagsInfo) :
    extractFlags g input i arg info = extractFlagsNext g arg input[i + 1]? info := by
  unfold extractFlags extractFlagsNext
  simp only [flagValue_eq_next]

/-- The token after index `i` is the head of what follows. -/
theorem getElem?_succ_of_drop {input : List String} {i : Nat} {arg : String}
    {rest : List String} (h : input.drop i = arg :: rest) :
    input[i + 1]? = rest.head? ∧ input.drop (i + 1) = rest := by
  have hd : input.drop (i + 1) = rest := by
    have := congrArg List.tail h
    simpa [List.tail_drop] using this
  refine ⟨?_, hd⟩
  have : input[i + 1]? = (input.drop (i + 1))[0]? := by
    rw [List.getElem?_drop]
  rw [this, hd, List.head?_eq_getElem?]

/-- The first loop computes the flag values, the marked indexes and the index
of the global options independently of each other. -/
theorem firstLoop_eq (g : Globals) (input : List String) (rest : List String) :
    ∀ (i : Nat) (st : ArgsState), input.drop i = rest →
      firstLoop g input i rest st =
        (extractAll g rest st.info).bind fun info =>
          Except.ok
            { info := info
              indexesToRemove := markAll g i rest st.indexesToRemove
              globalOptionsFlagIndex := globalIndexAll g i rest st.globalOptionsFlagIndex } := by
  induction rest with
  | nil => intro i st _; rfl
  | cons arg rest ih =>
    intro i st h
    obtain ⟨hnext, hdrop⟩ := getElem?_succ_of_drop h
    simp only [firstLoop, extractAll, markAll, globalIndexAll]
    rw [extractFlags_eq_next, hnext]
    cases extractFlagsNext g arg rest.head? st.info with
    | error a => rfl
    | ok info => exact ih (i + 1) _ hdrop

/-- The second loop computes the kept tokens and the global options
independently of each other. -/
theorem secondLoop_eq (g : Globals) (idx : List Nat) (gi : Nat) (rest : List String) :
    ∀ (i : Nat) (add go : List String), gi = 0 ∨ i ≤ gi →
      secondLoop g idx gi i rest (add, go) =
        (globalOptionsOf g (if gi > 0 then rest[gi - i]? else none) go).bind fun go' =>
          Except.ok (add ++ keptTokens idx i rest, go') := by
  induction rest with
  | nil =>
    intro i add go _
    simp [secondLoop, keptTokens, globalOptionsOf, Except.bind]
  | cons arg rest ih =>
    intro i add go hgi
    simp only [secondLoop, keptTokens]
    by_cases hc : gi > 0 ∧ i = gi
    · obtain ⟨hpos, hi⟩ := hc
      subst hi
      rw [if_pos ⟨hpos, rfl⟩, if_pos hpos]
      simp only [Nat.sub_self, List.getElem?_cons_zero, globalOptionsOf]
      have hskip : ∀ (a' g' : List String),
          secondLoop g idx i (i + 1) rest (a', g') =
            Except.ok (a' ++ keptTokens idx (i + 1) rest, g') := by
        intro a' g'
        have hgen : ∀ (rest : List String) (j : Nat) (a' g' : List String), i < j →
            secondLoop g idx i j rest (a', g') =
              Except.ok (a' ++ keptTokens idx j rest, g') := by
          intro rest
          induction rest with
          | nil => intro j a' g' _; simp [secondLoop, keptTokens]
          | cons b rest ih' =>
            intro j a' g' hj
            simp only [secondLoop, keptTokens]
            rw [if_neg (by omega)]
            rw [ih' (j + 1) _ _ (by omega)]
            split_ifs <;> simp
        exact hgen rest (i + 1) a' g' (by omega)
      by_cases hp : strings.HasPrefix arg (g.GlobalOptionsFlag ++ "=") = true
      · rw [if_pos hp, if_pos hp]
        cases (strings.SplitN arg '=' 2)[1]? with
        | none => rfl
        | some value =>
          simp only [Except.bind]
          rw [hskip]
          split_ifs <;> simp
      · rw [if_neg hp, if_neg hp]
        simp only [Except.bind]
        rw [hskip]
        split_ifs <;> simp
    · rw [if_neg hc]
      have hgi' : gi = 0 ∨ i + 1 ≤ gi := by
        rcases hgi with h0 | hle
        · exact Or.inl h0
        · by_cases hz : gi = 0
          · exact Or.inl hz
          · right
            have : i ≠ gi := fun e => hc ⟨by omega, e⟩
            omega
      rw [ih (i + 1) _ go hgi']
      by_cases hpos : gi > 0
      · have hne : i ≠ gi := fun e => hc ⟨hpos, e⟩
        have hlt : i < gi := by
          rcases hgi with h0 | hle
          · omega
          · omega
        have hidx : gi - i = (gi - (i + 1)) + 1 := by omega
        rw [if_pos hpos, if_pos hpos, hidx, List.getElem?_cons_succ]
        cases globalOptionsOf g rest[gi - (i + 1)]? go with
        | error a => rfl
        | ok go' =>
          simp only [Except.bind]
          split_ifs <;> simp
      · rw [if_neg hpos, if_neg hpos]
        simp only [globalOptionsOf, Except.bind]
        split_ifs <;> simp

/-- Membership in the indexes marked for one token, over any list of flags. -/
theorem mem_markFold (i : Nat) (arg : String) (j : Nat) (flags : List String) :
    ∀ idx : List Nat,
      j ∈ flags.foldl
          (fun acc f =>
            if arg = f then acc ++ [i, i + 1]
            else if strings.HasPrefix arg (f ++ "=") then acc ++ [i]
            else acc) idx ↔
        j ∈ idx ∨
        (j = i ∧ (flags.contains arg = true ∨
          (flags.any fun f => strings.HasPrefix arg (f ++ "=")) = true)) ∨
        (j = i + 1 ∧ flags.contains arg = true) := by
  induction flags with
  | nil => intro idx; simp
  | cons f flags ih =>
    intro idx
    simp only [List.foldl_cons]
    rw [ih]
    have hc : (f :: flags).contains arg = true ↔ arg = f ∨ flags.contains arg = true := by
      simp [List.contains_cons]
    have ha : ((f :: flags).any fun f => strings.HasPrefix arg (f ++ "=")) = true ↔
        strings.HasPrefix arg (f ++ "=") = true ∨
          (flags.any fun f => strings.HasPrefix arg (f ++ "=")) = true := by
      simp [List.any_cons]
    rw [hc, ha]
    by_cases h : arg = f
    · rw [if_pos h]
      simp only [List.mem_append, List.mem_cons, List.mem_singleton, List.not_mem_nil, or_false,
        eq_true h, true_or, and_true]
      constructor
      · rintro ((h1 | h1 | h1) | ⟨h1, _⟩ | ⟨h1, _⟩)
        · exact Or.inl h1
        · exact Or.inr (Or.inl h1)
        · exact Or.inr (Or.inr h1)
        · exact Or.inr (Or.inl h1)
        · exact Or.inr (Or.inr h1)
      · rintro (h1 | h1 | h1)
        · exact Or.inl (Or.inl h1)
        · exact Or.inl (Or.inr (Or.inl h1))
        · exact Or.inl (Or.inr (Or.inr h1))
    · rw [if_neg h]
      by_cases hp : strings.HasPrefix arg (f ++ "=") = true
      · rw [if_pos hp]
        simp only [List.mem_append, List.mem_singleton, eq_false h, false_or, eq_true hp,
          true_or, or_true, and_true]
        constructor
        · rintro ((h1 | h1) | ⟨h1, _⟩ | ⟨h1, h2⟩)
          · exact Or.inl h1
          · exact Or.inr (Or.inl h1)
          · exact Or.inr (Or.inl h1)
          · exact Or.inr (Or.inr ⟨h1, h2⟩)
        · rintro (h1 | h1 | ⟨h1, h2⟩)
          · exact Or.inl (Or.inl h1)
          · exact Or.inl (Or.inr h1)
          · exact Or.inr (Or.inr ⟨h1, h2⟩)
      · rw [if_neg hp]
        simp only [eq_false h, false_or, eq_false hp]

/-- Membership in the indexes marked for one token. -/
theorem mem_markIndexes (g : Globals) (i : Nat) (arg : String) (idx : List Nat) (j : Nat) :
    j ∈ markIndexes g i arg idx ↔
      j ∈ idx ∨ (j = i ∧ (isCommonFlag g arg = true ∨ startsWithCommonFlag g arg = true)) ∨
        (j = i + 1 ∧ isCommonFlag g arg = true) := by
  unfold markIndexes isCommonFlag startsWithCommonFlag
  exact mem_markFold i arg j (commonFlags g) idx

/-- Later tokens mark no earlier index. -/
theorem mem_markAll_of_lt (g : Globals) (rest : List String) :
    ∀ (i : Nat) (idx : List Nat) (j : Nat), j < i → (j ∈ markAll g i rest idx ↔ j ∈ idx) := by
  induction rest with
  | nil => intro i idx j _; rfl
  | cons arg rest ih =>
    intro i idx j hj
    simp only [markAll]
    rw [ih (i + 1) _ j (by omega), mem_markIndexes]
    constructor
    · rintro (h | ⟨h, _⟩ | ⟨h, _⟩)
      · exact h
      · omega
      · omega
    · exact Or.inl

/-- The tokens kept by the index bookkeeping of the two loops are the residual
sequence of the specification. -/
theorem keptTokens_markAll (g : Globals) (rest : List String) :
    ∀ (i : Nat) (idx : List Nat) (afterFlag : Bool),
      (i ∈ idx ↔ afterFlag = true) → (∀ j, i < j → j ∉ idx) →
      ∀ final : List Nat, final = markAll g i rest idx →
      keptTokens final i rest = residual g afterFlag rest := by
  induction rest with
  | nil => intro i idx afterFlag _ _ final _; rfl
  | cons arg rest ih =>
    intro i idx afterFlag hi hgt final hfinal
    simp only [markAll] at hfinal
    have hnext : i + 1 ∈ markIndexes g i arg idx ↔ isCommonFlag g arg = true := by
      rw [mem_markIndexes]
      constructor
      · rintro (h | ⟨h, _⟩ | ⟨_, h⟩)
        · exact absurd h (hgt _ (by omega))
        · omega
        · exact h
      · exact fun h => Or.inr (Or.inr ⟨rfl, h⟩)
    have hgt' : ∀ j, i + 1 < j → j ∉ markIndexes g i arg idx := by
      intro j hj
      rw [mem_markIndexes]
      rintro (h | ⟨h, _⟩ | ⟨h, _⟩)
      · exact hgt j (by omega) h
      · omega
      · omega
    have htail := ih (i + 1) _ (isCommonFlag g arg) hnext hgt' final hfinal
    have hhere : i ∈ final ↔
        (afterFlag || isCommonFlag g arg || startsWithCommonFlag g arg) = true := by
      rw [hfinal, mem_markAll_of_lt g rest (i + 1) _ i (by omega), mem_markIndexes,
        Bool.or_eq_true, Bool.or_eq_true]
      constructor
      · rintro (h | ⟨_, h | h⟩ | ⟨h, _⟩)
        · exact Or.inl (Or.inl (hi.1 h))
        · exact Or.inl (Or.inr h)
        · exact Or.inr h
        · omega
      · rintro ((h | h) | h)
        · exact Or.inl (hi.2 h)
        · exact Or.inr (Or.inl ⟨rfl, Or.inl h⟩)
        · exact Or.inr (Or.inl ⟨rfl, Or.inr h⟩)
    have hcont : SliceContainsInt final i = true ↔ i ∈ final := by
      simp [SliceContainsInt]
    simp only [keptTokens, residual]
    by_cases hm : i ∈ final
    · rw [if_pos (hcont.2 hm), if_pos (hhere.1 hm), htail]
    · rw [if_neg (fun h => hm (hcont.1 h)), if_neg (fun h => hm (hhere.2 h)), htail]

/-- The function in terms of its three independent parts: the flag values, the
global options, and the residual sequence. -/
theorem processArgsAndFlags_eq (g : Globals) (input : List String) :
    processArgsAndFlags g input =
      (extractAll g input ArgsAndFlagsInfo.zero).bind fun info =>
      (globalOptionsOf g (globalOptionsToken g input) []).bind fun globalOptions =>
      (assignSubCommand info (residual g false input)).bind fun info =>
      Except.ok { info with GlobalOptions := globalOptions } := by
  unfold processArgsAndFlags
  rw [firstLoop_eq g input input 0 _ rfl]
  cases extractAll g input ArgsAndFlagsInfo.zero with
  | error a => rfl
  | ok info =>
    simp only [Except.bind]
    rw [secondLoop_eq g _ _ input 0 [] [] (Or.inr (Nat.zero_le _))]
    have hk : keptTokens (markAll g 0 input []) 0 input = residual g false input :=
      keptTokens_markAll g input 0 [] false (by simp) (by simp) _ rfl
    simp only [List.nil_append, hk, Nat.sub_zero, globalOptionsToken]
    cases globalOptionsOf g
      (if globalIndexAll g 0 input 0 > 0 then input[globalIndexAll g 0 input 0]? else none) [] with
    | error a => rfl
    | ok go => rfl

/-! ## The residual sequence -/

/-- A normal return splits the master equation into its three parts. -/
theorem processArgsAndFlags_ok (g : Globals) (input : List String) (info : ArgsAndFlagsInfo)
    (h : processArgsAndFlags g input = Except.ok info) :
    ∃ (extracted assigned : ArgsAndFlagsInfo) (globalOptions : List String),
      extractAll g input ArgsAndFlagsInfo.zero = Except.ok extracted ∧
      globalOptionsOf g (globalOptionsToken g input) [] = Except.ok globalOptions ∧
      assignSubCommand extracted (residual g false input) = Except.ok assigned ∧
      info = { assigned with GlobalOptions := globalOptions } := by
  rw [processArgsAndFlags_eq] at h
  cases h1 : extractAll g input ArgsAndFlagsInfo.zero with
  | error a => rw [h1] at h; cases h
  | ok extracted =>
    rw [h1] at h
    simp only [Except.bind] at h
    cases h2 : globalOptionsOf g (globalOptionsToken g input) [] with
    | error a => rw [h2] at h; cases h
    | ok go =>
      rw [h2] at h
      simp only [] at h
      cases h3 : assignSubCommand extracted (residual g false input) with
      | error a => rw [h3] at h; cases h
      | ok assigned =>
        rw [h3] at h
        simp only [Except.ok.injEq] at h
        exact ⟨extracted, assigned, go, rfl, rfl, h3, h.symm⟩

/-- What a normal return of the plain last step says. -/
theorem plainSubCommand_ok (info assigned : ArgsAndFlagsInfo) (res : List String)
    (h : plainSubCommand info res = Except.ok assigned) :
    res[0]? = some assigned.SubCommand ∧ res[1]? = some assigned.ComponentFromArg ∧
    assigned.AdditionalArgsAndFlags = res.drop 2 ∧
    assigned = { info with
      SubCommand := assigned.SubCommand
      ComponentFromArg := assigned.ComponentFromArg
      AdditionalArgsAndFlags := assigned.AdditionalArgsAndFlags } := by
  unfold plainSubCommand at h
  cases h0 : res[0]? with
  | none => rw [h0] at h; cases h
  | some a0 =>
    rw [h0] at h
    simp only [] at h
    cases h1 : res[1]? with
    | none => rw [h1] at h; cases h
    | some a1 =>
      rw [h1] at h
      simp only [Except.ok.injEq] at h
      subst h
      exact ⟨rfl, rfl, rfl, rfl⟩

/-- What a normal return of the last step says, with the legacy exception. -/
theorem assignSubCommand_ok (info assigned : ArgsAndFlagsInfo) (res : List String)
    (h : assignSubCommand info res = Except.ok assigned) :
    ((res[0]? = some "write" ∧ res[1]? = some "varfile") →
      assigned.SubCommand = "write varfile" ∧ res[2]? = some assigned.ComponentFromArg ∧
      assigned.AdditionalArgsAndFlags = res.drop 3) ∧
    (¬ (res[0]? = some "write" ∧ res[1]? = some "varfile") →
      res[0]? = some assigned.SubCommand ∧ res[1]? = some assigned.ComponentFromArg ∧
      assigned.AdditionalArgsAndFlags = res.drop 2) ∧
    assigned = { info with
      SubCommand := assigned.SubCommand
      ComponentFromArg := assigned.ComponentFromArg
      AdditionalArgsAndFlags := assigned.AdditionalArgsAndFlags } := by
  unfold assignSubCommand at h
  cases h0 : res[0]? with
  | none => rw [h0] at h; cases h
  | some a0 =>
    rw [h0] at h
    simp only [] at h
    by_cases hw : a0 = "write"
    · rw [if_pos hw] at h
      cases h1 : res[1]? with
      | none => rw [h1] at h; cases h
      | some a1 =>
        rw [h1] at h
        simp only [] at h
        by_cases hv : a1 = "varfile"
        · rw [if_pos hv] at h
          cases h2 : res[2]? with
          | none => rw [h2] at h; cases h
          | some a2 =>
            rw [h2] at h
            simp only [Except.ok.injEq] at h
            subst h
            subst hw
            subst hv
            exact ⟨fun _ => ⟨rfl, rfl, rfl⟩, fun hn => absurd ⟨rfl, rfl⟩ hn, rfl⟩
        · rw [if_neg hv] at h
          obtain ⟨p0, p1, p2, p3⟩ := plainSubCommand_ok _ _ _ h
          rw [h0] at p0
          rw [h1] at p1
          refine ⟨fun hh => ?_, fun _ => ⟨p0, p1, p2⟩, p3⟩
          exact absurd (Option.some.inj hh.2) hv
    · rw [if_neg hw] at h
      obtain ⟨p0, p1, p2, p3⟩ := plainSubCommand_ok _ _ _ h
      rw [h0] at p0
      refine ⟨fun hh => ?_, fun _ => ⟨p0, p1, p2⟩, p3⟩
      exact absurd (Option.some.inj hh.1) hw

/-- Claim C14: for every argument list on which `processArgsAndFlags` returns
normally, with `residual` the input without every token equal to a common
flag, the token immediately after such a token, and every token that starts
with `<common flag>=`, the others kept in their order: `SubCommand` is
`residual[0]`, `ComponentFromArg` is `residual[1]` and `AdditionalArgsAndFlags`
is `residual[2:]`, except that when `residual` starts with `write`, `varfile`
the subcommand is `write varfile`, the component is `residual[2]` and the
further arguments are `residual[3:]`. -/
theorem processArgsAndFlags_residual (g : Globals) (input : List String)
    (info : ArgsAndFlagsInfo) (h : processArgsAndFlags g input = Except.ok info) :
    (((residual g false input)[0]? = some "write" ∧
        (residual g false input)[1]? = some "varfile") →
      info.SubCommand = "write varfile" ∧
      (residual g false input)[2]? = some info.ComponentFromArg ∧
      info.AdditionalArgsAndFlags = (residual g false input).drop 3) ∧
    (¬ ((residual g false input)[0]? = some "write" ∧
        (residual g false input)[1]? = some "varfile") →
      (residual g false input)[0]? = some info.SubCommand ∧
      (residual g false input)[1]? = some info.ComponentFromArg ∧
      info.AdditionalArgsAndFlags = (residual g false input).drop 2) := by
  obtain ⟨extracted, assigned, go, _, _, h3, rfl⟩ := processArgsAndFlags_ok g input info h
  obtain ⟨a1, a2, _⟩ := assignSubCommand_ok _ _ _ h3
  exact ⟨a1, a2⟩

/-- Witness of claim C14: `--stack acme-prod` is removed, `-target` passes. -/
theorem processArgsAndFlags_residual_witness :
    residual exampleGlobals false
        ["plan", "vpc/private", "--stack", "acme-prod", "-target", "aws_subnet.x"] =
      ["plan", "vpc/private", "-target", "aws_subnet.x"] ∧
    processArgsAndFlags exampleGlobals
        ["plan", "vpc/private", "--stack", "acme-prod", "-target", "aws_subnet.x"] =
      Except.ok { ArgsAndFlagsInfo.zero with
        SubCommand := "plan", ComponentFromArg := "vpc/private",
        AdditionalArgsAndFlags := ["-target", "aws_subnet.x"] } ∧
    ({ ArgsAndFlagsInfo.zero with
        SubCommand := "plan", ComponentFromArg := "vpc/private",
        AdditionalArgsAndFlags := ["-target", "aws_subnet.x"] } :
          ArgsAndFlagsInfo).AdditionalArgsAndFlags =
      (residual exampleGlobals false
        ["plan", "vpc/private", "--stack", "acme-prod", "-target", "aws_subnet.x"]).drop 2 :=
  ⟨by decide, rfl,
   ((processArgsAndFlags_residual exampleGlobals
      ["plan", "vpc/private", "--stack", "acme-prod", "-target", "aws_subnet.x"] _ rfl).2
      (by decide)).2.2⟩

/-! ## Malformed flags -/

/-- A split into two parts has a second part. -/
theorem split_getElem_one (arg : String) (h : (strings.Split arg '=').length = 2) :
    ∃ v, (strings.Split arg '=')[1]? = some v := by
  have hlt : 1 < (strings.Split arg '=').length := by omega
  exact ⟨_, List.getElem?_eq_getElem hlt⟩

/-- One flag block: an error exactly on a malformed token, never a fault. -/
theorem flagValueNext_cases (arg : String) (next : Option String) (flag current : String)
    (info : ArgsAndFlagsInfo) :
    (malformedFor arg next flag = true ∧
      flagValueNext arg next flag current info =
        Except.error (Abort.invalidFlag info (errInvalidFlag arg))) ∨
    (malformedFor arg next flag = false ∧
      ∃ v, flagValueNext arg next flag current info = Except.ok v) := by
  unfold flagValueNext malformedFor
  by_cases h : arg = flag
  · rw [if_pos h, if_pos h]
    cases next with
    | none => exact Or.inl ⟨rfl, rfl⟩
    | some v => exact Or.inr ⟨rfl, v, rfl⟩
  · rw [if_neg h, if_neg h]
    by_cases hp : strings.HasPrefix (arg ++ "=") flag = true
    · rw [if_pos hp, hp]
      by_cases hl : (strings.Split arg '=').length ≠ 2
      · rw [if_pos hl]
        exact Or.inl ⟨by simp [hl], rfl⟩
      · rw [if_neg hl]
        obtain ⟨v, hv⟩ := split_getElem_one arg (not_not.1 hl)
        rw [hv]
        exact Or.inr ⟨by simp [not_not.1 hl], v, rfl⟩
    · rw [if_neg hp]
      have hp' : strings.HasPrefix (arg ++ "=") flag = false := by simpa using hp
      rw [hp']
      exact Or.inr ⟨rfl, current, rfl⟩

/-- A flag block that stops reports the token as invalid. -/
theorem flagValueNext_error {arg : String} {next : Option String} {flag current : String}
    {info : ArgsAndFlagsInfo} {a : Abort}
    (h : flagValueNext arg next flag current info = Except.error a) :
    malformedFor arg next flag = true ∧ a = Abort.invalidFlag info (errInvalidFlag arg) := by
  rcases flagValueNext_cases arg next flag current info with ⟨m, e⟩ | ⟨_, v, e⟩
  · rw [e] at h
    exact ⟨m, (Except.error.inj h).symm⟩
  · rw [e] at h
    cases h

/-- A flag block that goes on met no malformed token. -/
theorem flagValueNext_ok {arg : String} {next : Option String} {flag current : String}
    {info : ArgsAndFlagsInfo} {v : String}
    (h : flagValueNext arg next flag current info = Except.ok v) :
    malformedFor arg next flag = false := by
  rcases flagValueNext_cases arg next flag current info with ⟨_, e⟩ | ⟨m, _, _⟩
  · rw [e] at h
    cases h
  · exact m

/-- The five blocks: an error that names the token exactly when it is
malformed, never a fault. -/
theorem extractFlagsNext_cases (g : Globals) (arg : String) (next : Option String)
    (info : ArgsAndFlagsInfo) :
    (malformed g arg next = true ∧
      ∃ info', extractFlagsNext g arg next info =
        Except.error (Abort.invalidFlag info' (errInvalidFlag arg))) ∨
    (malformed g arg next = false ∧
      ∃ info', extractFlagsNext g arg next info = Except.ok info') := by
  unfold extractFlagsNext malformed extractedFlags
  simp only [List.any_cons, List.any_nil, Bool.or_false, Except.bind]
  split
  · rename_i a h1
    obtain ⟨m, rfl⟩ := flagValueNext_error h1
    exact Or.inl ⟨by simp [m], _, rfl⟩
  · rename_i v1 h1
    have m1 := flagValueNext_ok h1
    split
    · rename_i a h2
      obtain ⟨m, rfl⟩ := flagValueNext_error h2
      exact Or.inl ⟨by simp [m], _, rfl⟩
    · rename_i v2 h2
      have m2 := flagValueNext_ok h2
      split
      · rename_i a h3
        obtain ⟨m, rfl⟩ := flagValueNext_error h3
        exact Or.inl ⟨by simp [m], _, rfl⟩
      · rename_i v3 h3
        have m3 := flagValueNext_ok h3
        split
        · rename_i a h4
          obtain ⟨m, rfl⟩ := flagValueNext_error h4
          exact Or.inl ⟨by simp [m], _, rfl⟩
        · rename_i v4 h4
          have m4 := flagValueNext_ok h4
          split
          · rename_i a h5
            obtain ⟨m, rfl⟩ := flagValueNext_error h5
            exact Or.inl ⟨by simp [m], _, rfl⟩
          · rename_i v5 h5
            have m5 := flagValueNext_ok h5
            exact Or.inr ⟨by simp [m1, m2, m3, m4, m5], _, rfl⟩

/-- The flag extraction stops at the first malformed token and names it. -/
theorem extractAll_cases (g : Globals) (input : List String) :
    ∀ info : ArgsAndFlagsInfo,
      (∃ t info', firstMalformed g input = some t ∧
        extractAll g input info = Except.error (Abort.invalidFlag info' (errInvalidFlag t))) ∨
      (firstMalformed g input = none ∧ ∃ info', extractAll g input info = Except.ok info') := by
  induction input with
  | nil => intro info; exact Or.inr ⟨rfl, info, rfl⟩
  | cons arg rest ih =>
    intro info
    simp only [firstMalformed, extractAll]
    rcases extractFlagsNext_cases g arg rest.head? info with ⟨m, info', e⟩ | ⟨m, info', e⟩
    · rw [e, m]
      exact Or.inl ⟨arg, info', rfl, rfl⟩
    · rw [e, m]
      simp only [Except.bind, Bool.false_eq_true, if_false]
      exact ih info'

/-- A malformed token makes the list have a first malformed token. -/
theorem firstMalformed_of_malformed (g : Globals) (arg : String) (post : List String)
    (h : malformed g arg post.head? = true) (pre : List String) :
    ∃ t, firstMalformed g (pre ++ arg :: post) = some t := by
  induction pre with
  | nil => exact ⟨arg, by simp [firstMalformed, h]⟩
  | cons a pre ih =>
    simp only [List.cons_append, firstMalformed]
    split_ifs
    · exact ⟨a, rfl⟩
    · exact ih

/-- The function reports the first malformed token. -/
theorem processArgsAndFlags_of_firstMalformed (g : Globals) (input : List String) (t : String)
    (h : firstMalformed g input = some t) :
    ∃ info, processArgsAndFlags g input =
      Except.error (Abort.invalidFlag info (errInvalidFlag t)) := by
  rcases extractAll_cases g input ArgsAndFlagsInfo.zero with ⟨t', info', ht, e⟩ | ⟨hn, _⟩
  · rw [h] at ht
    cases ht
    exact ⟨info', by rw [processArgsAndFlags_eq, e]; rfl⟩
  · rw [h] at hn
    cases hn

/-- Reading the global options raises no invalid-flag error. -/
theorem globalOptionsOf_not_invalid (g : Globals) (arg : Option String) (cur : List String)
    (info : ArgsAndFlagsInfo) (msg : String) :
    globalOptionsOf g arg cur ≠ Except.error (Abort.invalidFlag info msg) := by
  unfold globalOptionsOf
  intro h
  split at h
  · cases h
  · split at h
    · split at h
      · cases h
      · cases h
    · cases h

/-- The plain last step raises no invalid-flag error. -/
theorem plainSubCommand_not_invalid (i : ArgsAndFlagsInfo) (res : List String)
    (info : ArgsAndFlagsInfo) (msg : String) :
    plainSubCommand i res ≠ Except.error (Abort.invalidFlag info msg) := by
  unfold plainSubCommand
  intro h
  split at h
  · cases h
  · split at h
    · cases h
    · cases h

/-- The last step raises no invalid-flag error. -/
theorem assignSubCommand_not_invalid (i : ArgsAndFlagsInfo) (res : List String)
    (info : ArgsAndFlagsInfo) (msg : String) :
    assignSubCommand i res ≠ Except.error (Abort.invalidFlag info msg) := by
  unfold assignSubCommand
  intro h
  split at h
  · cases h
  · split at h
    · split at h
      · cases h
      · split at h
        · split at h
          · cases h
          · cases h
        · exact plainSubCommand_not_invalid _ _ _ _ h
    · exact plainSubCommand_not_invalid _ _ _ _ h

/-- Without a malformed token the function raises no invalid-flag error. -/
theorem processArgsAndFlags_no_invalid (g : Globals) (input : List String)
    (h : firstMalformed g input = none) (info : ArgsAndFlagsInfo) (msg : String) :
    processArgsAndFlags g input ≠ Except.error (Abort.invalidFlag info msg) := by
  rcases extractAll_cases g input ArgsAndFlagsInfo.zero with ⟨t', _, ht, _⟩ | ⟨_, info', e⟩
  · rw [h] at ht
    cases ht
  · rw [processArgsAndFlags_eq, e]
    simp only [Except.bind]
    intro hc
    split at hc
    · rename_i a h2
      rw [Except.error.inj hc] at h2
      exact globalOptionsOf_not_invalid _ _ _ _ _ h2
    · split at hc
      · rename_i a h3
        rw [Except.error.inj hc] at h3
        exact assignSubCommand_not_invalid _ _ _ _ h3
      · cases hc

/-- Counterexample to claim C16 as stated: `--stack` is a value-bearing common
flag, yet the list `plan vpc --stack`, where it is the last token, is accepted. -/
theorem processArgsAndFlags_value_flag_counterexample :
    ¬ ∀ (g : Globals) (pre : List String) (flag : String), flag ∈ valueFlags g →
        ∃ info, processArgsAndFlags g (pre ++ [flag]) =
          Except.error (Abort.invalidFlag info (errInvalidFlag flag)) := by
  intro h
  obtain ⟨info, e⟩ := h exampleGlobals ["plan", "vpc"] "--stack" (by decide)
  have e' : processArgsAndFlags exampleGlobals (["plan", "vpc"] ++ ["--stack"]) =
      Except.ok { ArgsAndFlagsInfo.zero with SubCommand := "plan", ComponentFromArg := "vpc" } :=
    rfl
  rw [e'] at e
  cases e

/-- Claim C16, amended: `processArgsAndFlags` returns the malformed-flag error
`invalid flag: <token>`, naming the first malformed token, exactly when the
list has a token that is malformed for one of the five flags whose values it
reads (terraform-dir, helmfile-dir, config-dir, stacks-dir, deploy-run-init):
such a flag as the last token with no following value, or a token that starts
with such a flag, is not the flag, and does not split on `=` into exactly two
parts. The other common flags raise no such error. -/
theorem processArgsAndFlags_malformed_flag (g : Globals) (input : List String) :
    (∀ t, firstMalformed g input = some t →
      ∃ info, processArgsAndFlags g input =
        Except.error (Abort.invalidFlag info (errInvalidFlag t))) ∧
    (firstMalformed g input = none →
      ∀ info msg, processArgsAndFlags g input ≠ Except.error (Abort.invalidFlag info msg)) ∧
    (∀ (pre : List String) (flag : String), flag ∈ extractedFlags g → input = pre ++ [flag] →
      ∃ t info, processArgsAndFlags g input =
        Except.error (Abort.invalidFlag info (errInvalidFlag t))) ∧
    (∀ (pre post : List String) (arg flag : String), flag ∈ extractedFlags g →
      input = pre ++ arg :: post → arg ≠ flag → strings.HasPrefix (arg ++ "=") flag = true →
      (strings.Split arg '=').length ≠ 2 →
      ∃ t info, processArgsAndFlags g input =
        Except.error (Abort.invalidFlag info (errInvalidFlag t))) := by
  refine ⟨fun t h => processArgsAndFlags_of_firstMalformed g input t h,
    fun h info msg => processArgsAndFlags_no_invalid g input h info msg, ?_, ?_⟩
  · intro pre flag hf hin
    have hm : malformed g flag ([] : List String).head? = true := by
      unfold malformed
      rw [List.any_eq_true]
      exact ⟨flag, hf, by simp [malformedFor]⟩
    obtain ⟨t, ht⟩ := firstMalformed_of_malformed g flag [] hm pre
    rw [← hin] at ht
    obtain ⟨info, e⟩ := processArgsAndFlags_of_firstMalformed g input t ht
    exact ⟨t, info, e⟩
  · intro pre post arg flag hf hin hne hp hl
    have hm : malformed g arg post.head? = true := by
      unfold malformed
      rw [List.any_eq_true]
      exact ⟨flag, hf, by simp [malformedFor, hne, hp, hl]⟩
    obtain ⟨t, ht⟩ := firstMalformed_of_malformed g arg post hm pre
    rw [← hin] at ht
    obtain ⟨info, e⟩ := processArgsAndFlags_of_firstMalformed g input t ht
    exact ⟨t, info, e⟩

/-- Witness of claim C16: a directory flag without value, and a value with `=`. -/
theorem processArgsAndFlags_malformed_flag_witness :
    processArgsAndFlags exampleGlobals ["plan", "vpc", "--terraform-dir"] =
      Except.error (Abort.invalidFlag ArgsAndFlagsInfo.zero "invalid flag: --terraform-dir") ∧
    (∃ info, processArgsAndFlags exampleGlobals ["plan", "vpc", "--helmfile-dir=a=b", "x"] =
      Except.error (Abort.invalidFlag info (errInvalidFlag "--helmfile-dir=a=b"))) :=
  ⟨rfl,
   (processArgsAndFlags_malformed_flag exampleGlobals
      ["plan", "vpc", "--helmfile-dir=a=b", "x"]).1 "--helmfile-dir=a=b" (by decide)⟩

/-! ## Dedicated fields and global options -/

/-- Claim C17, evaluated on the code: the value of the config-directory flag is
returned in `StacksDir` and leaves `ConfigDir` empty, the value of the
stack-directory flag is returned in `ConfigDir` and leaves `StacksDir` empty,
while the value of the terraform-dir flag is returned in `TerraformDir`. -/
theorem processArgsAndFlags_config_dir_swapped :
    processArgsAndFlags exampleGlobals ["plan", "vpc", "--config-dir", "/cfg"] =
      Except.ok { ArgsAndFlagsInfo.zero with
        SubCommand := "plan", ComponentFromArg := "vpc", StacksDir := "/cfg", ConfigDir := "" } ∧
    processArgsAndFlags exampleGlobals ["plan", "vpc", "--stacks-dir=/st"] =
      Except.ok { ArgsAndFlagsInfo.zero with
        SubCommand := "plan", ComponentFromArg := "vpc", StacksDir := "", ConfigDir := "/st" } ∧
    processArgsAndFlags exampleGlobals ["plan", "vpc", "--terraform-dir", "/tf"] =
      Except.ok { ArgsAndFlagsInfo.zero with
        SubCommand := "plan", ComponentFromArg := "vpc", TerraformDir := "/tf" } :=
  ⟨rfl, rfl, rfl⟩

/-- Claim C18, evaluated on the code: the token `--global-options=V` as the first
token leaves `GlobalOptions` empty, although the same token at the second
position, and the two-token form at the first position, give `V` split on
spaces; and a token that merely starts with `--global-options` is taken for the
global options although it is the flag in neither form. -/
theorem processArgsAndFlags_global_options_missed :
    processArgsAndFlags exampleGlobals ["--global-options=--log-level debug", "diff", "vpc"] =
      Except.ok { ArgsAndFlagsInfo.zero with
        SubCommand := "diff", ComponentFromArg := "vpc", GlobalOptions := [] } ∧
    processArgsAndFlags exampleGlobals ["diff", "--global-options=--log-level debug", "vpc"] =
      Except.ok { ArgsAndFlagsInfo.zero with
        SubCommand := "diff", ComponentFromArg := "vpc",
        GlobalOptions := ["--log-level", "debug"] } ∧
    processArgsAndFlags exampleGlobals ["--global-options", "--log-level debug", "diff", "vpc"] =
      Except.ok { ArgsAndFlagsInfo.zero with
        SubCommand := "diff", ComponentFromArg := "vpc",
        GlobalOptions := ["--log-level", "debug"] } ∧
    processArgsAndFlags exampleGlobals ["diff", "vpc", "--global-options-extra"] =
      Except.ok { ArgsAndFlagsInfo.zero with
        SubCommand := "diff", ComponentFromArg := "vpc",
        AdditionalArgsAndFlags := ["--global-options-extra"],
        GlobalOptions := ["--global-options-extra"] } :=
  ⟨rfl, rfl, rfl, rfl⟩

/-- A token of the residual sequence is a token of the input that is neither a
common flag nor starts with one and `=`. -/
theorem residual_mem (g : Globals) (input : List String) :
    ∀ (afterFlag : Bool) (t : String), t ∈ residual g afterFlag input →
      t ∈ input ∧ isCommonFlag g t = false ∧ startsWithCommonFlag g t = false := by
  induction input with
  | nil => intro _ t h; simp [residual] at h
  | cons a rest ih =>
    intro afterFlag t h
    simp only [residual] at h
    by_cases hc : (afterFlag || isCommonFlag g a || startsWithCommonFlag g a) = true
    · rw [if_pos hc] at h
      obtain ⟨h1, h2⟩ := ih _ t h
      exact ⟨List.mem_cons_of_mem _ h1, h2⟩
    · rw [if_neg hc] at h
      rcases List.mem_cons.1 h with rfl | h
      · simp only [Bool.or_eq_true, not_or, Bool.not_eq_true] at hc
        exact ⟨List.mem_cons_self _ _, hc.1.2, hc.2⟩
      · obtain ⟨h1, h2⟩ := ih _ t h
        exact ⟨List.mem_cons_of_mem _ h1, h2⟩

/-- A common flag and the token after it leave no trace in the residual sequence. -/
theorem residual_skips_flag_and_value (g : Globals) (flag value : String) (post : List String)
    (hf : isCommonFlag g flag = true) (pre : List String) :
    ∀ afterFlag : Bool,
      residual g afterFlag (pre ++ flag :: value :: post) =
        residual g afterFlag pre ++ residual g (isCommonFlag g value) post := by
  induction pre with
  | nil =>
    intro afterFlag
    simp [residual, hf]
  | cons a pre ih =>
    intro afterFlag
    simp only [List.cons_append, residual]
    split_ifs
    · exact ih _
    · exact congrArg (List.cons a) (ih _)

/-- A token `<common flag>=...` leaves no trace in the residual sequence. -/
theorem residual_skips_flag_with_value (g : Globals) (arg : String) (post : List String)
    (hf : startsWithCommonFlag g arg = true) (pre : List String) :
    ∀ afterFlag : Bool,
      residual g afterFlag (pre ++ arg :: post) =
        residual g afterFlag pre ++ residual g (isCommonFlag g arg) post := by
  induction pre with
  | nil =>
    intro afterFlag
    simp [residual, hf]
  | cons a pre ih =>
    intro afterFlag
    simp only [List.cons_append, residual]
    split_ifs
    · exact ih _
    · exact congrArg (List.cons a) (ih _)

/-- The global-options flag is one of the common flags. -/
theorem globalOptionsFlag_isCommonFlag (g : Globals) :
    isCommonFlag g g.GlobalOptionsFlag = true := by
  simp [isCommonFlag, commonFlags]

/-- A token `<global-options flag>=...` starts with a common flag and `=`. -/
theorem startsWithCommonFlag_of_globalOptions (g : Globals) (t : String)
    (h : strings.HasPrefix t (g.GlobalOptionsFlag ++ "=") = true) :
    startsWithCommonFlag g t = true := by
  unfold startsWithCommonFlag
  rw [List.any_eq_true]
  exact ⟨g.GlobalOptionsFlag, by simp [commonFlags], h⟩

/-- The test `strings.HasPrefix` as the prefix relation on characters. -/
theorem hasPrefix_iff (s p : String) : strings.HasPrefix s p = true ↔ p.data <+: s.data := by
  unfold strings.HasPrefix
  exact List.isPrefixOf_iff_prefix

/-- A string is a prefix of what is appended to it. -/
theorem hasPrefix_append (a b : String) : strings.HasPrefix (a ++ b) a = true := by
  rw [hasPrefix_iff, String.data_append]
  exact List.prefix_append _ _

/-- Counterexample to claim C20 as stated: in the accepted list
`diff vpc --global-options=--no-color x` the token `--global-options=--no-color`
stands after the subcommand and the component, and it is not among the
returned `AdditionalArgsAndFlags`. -/
theorem processArgsAndFlags_global_options_counterexample :
    ¬ ∀ (g : Globals) (input : List String) (info : ArgsAndFlagsInfo) (V : String),
        processArgsAndFlags g input = Except.ok info →
        (g.GlobalOptionsFlag ++ "=" ++ V) ∈ input.drop 2 →
        (g.GlobalOptionsFlag ++ "=" ++ V) ∈ info.AdditionalArgsAndFlags := by
  intro h
  have hbad := h exampleGlobals ["diff", "vpc", "--global-options=--no-color", "x"]
    { ArgsAndFlagsInfo.zero with
      SubCommand := "diff", ComponentFromArg := "vpc", AdditionalArgsAndFlags := ["x"],
      GlobalOptions := ["--no-color"] }
    "--no-color" rfl (by decide)
  exact absurd hbad (by decide)

/-- Claim C20, amended: the global-options flag is one of the common flags, so it
is located and also removed by the common-flag stripping pass. For every
accepted argument list no token equal to the flag and no token that starts
with `<flag>=` is left in the residual sequence or in `AdditionalArgsAndFlags`,
and the token that follows the flag is removed with it. -/
theorem processArgsAndFlags_removes_global_options (g : Globals) (input : List String)
    (info : ArgsAndFlagsInfo) (h : processArgsAndFlags g input = Except.ok info) :
    (∀ t ∈ info.AdditionalArgsAndFlags,
      t ≠ g.GlobalOptionsFlag ∧ strings.HasPrefix t (g.GlobalOptionsFlag ++ "=") = false) ∧
    (∀ t ∈ residual g false input,
      t ≠ g.GlobalOptionsFlag ∧ strings.HasPrefix t (g.GlobalOptionsFlag ++ "=") = false) ∧
    (∀ (pre post : List String) (V : String),
      input = pre ++ g.GlobalOptionsFlag :: V :: post →
      residual g false input = residual g false pre ++ residual g (isCommonFlag g V) post) ∧
    (∀ (pre post : List String) (V : String),
      input = pre ++ (g.GlobalOptionsFlag ++ "=" ++ V) :: post →
      residual g false input =
        residual g false pre ++
          residual g (isCommonFlag g (g.GlobalOptionsFlag ++ "=" ++ V)) post) := by
  have hres : ∀ t ∈ residual g false input,
      t ≠ g.GlobalOptionsFlag ∧ strings.HasPrefix t (g.GlobalOptionsFlag ++ "=") = false := by
    intro t ht
    obtain ⟨_, hc, hs⟩ := residual_mem g input false t ht
    constructor
    · rintro rfl
      rw [globalOptionsFlag_isCommonFlag] at hc
      cases hc
    · by_contra hp
      have hp' : strings.HasPrefix t (g.GlobalOptionsFlag ++ "=") = true := by
        simpa using hp
      rw [startsWithCommonFlag_of_globalOptions g t hp'] at hs
      cases hs
  refine ⟨?_, hres, ?_, ?_⟩
  · intro t ht
    obtain ⟨extracted, assigned, go, _, _, h3, rfl⟩ := processArgsAndFlags_ok g input info h
    obtain ⟨a1, a2, _⟩ := assignSubCommand_ok _ _ _ h3
    apply hres
    by_cases hw : (residual g false input)[0]? = some "write" ∧
        (residual g false input)[1]? = some "varfile"
    · have := (a1 hw).2.2
      simp only [] at ht
      rw [this] at ht
      exact List.mem_of_mem_drop ht
    · have := (a2 hw).2.2
      simp only [] at ht
      rw [this] at ht
      exact List.mem_of_mem_drop ht
  · intro pre post V hin
    rw [hin]
    exact residual_skips_flag_and_value g _ V post (globalOptionsFlag_isCommonFlag g) pre false
  · intro pre post V hin
    rw [hin]
    refine residual_skips_flag_with_value g _ post ?_ pre false
    apply startsWithCommonFlag_of_globalOptions
    exact hasPrefix_append _ _

/-- Witness of claim C20: both forms of the flag are stripped, `x` stays. -/
theorem processArgsAndFlags_removes_global_options_witness :
    processArgsAndFlags exampleGlobals
        ["diff", "vpc", "--global-options", "--no-color", "x", "--global-options=-q"] =
      Except.ok { ArgsAndFlagsInfo.zero with
        SubCommand := "diff", ComponentFromArg := "vpc", AdditionalArgsAndFlags := ["x"],
        GlobalOptions := ["-q"] } ∧
    (∀ t ∈ ["x"], t ≠ "--global-options" ∧
      strings.HasPrefix t ("--global-options" ++ "=") = false) :=
  ⟨rfl,
   (processArgsAndFlags_removes_global_options exampleGlobals
      ["diff", "vpc", "--global-options", "--no-color", "x", "--global-options=-q"] _ rfl).1⟩

/-! ## Path decomposition -/

/-- A text without the separator is its own single piece. -/
theorem splitChars_of_not_mem (sep : Char) (cs : List Char) (h : sep ∉ cs) :
    strings.splitChars sep cs = [cs] := by
  induction cs with
  | nil => rfl
  | cons c cs ih =>
    simp only [List.mem_cons, not_or] at h
    have hc : ¬ c = sep := fun e => h.1 e.symm
    simp only [strings.splitChars]
    rw [if_neg hc, ih h.2]

/-- A text with the separator splits into several pieces. -/
theorem splitChars_length_of_mem (sep : Char) (cs : List Char) (h : sep ∈ cs) :
    1 < (strings.splitChars sep cs).length := by
  induction cs with
  | nil => simp at h
  | cons c cs ih =>
    simp only [strings.splitChars]
    by_cases hc : c = sep
    · rw [if_pos hc]
      have := splitChars_ne_nil sep cs
      cases hs : strings.splitChars sep cs with
      | nil => exact absurd hs this
      | cons p ps => simp
    · rw [if_neg hc]
      have hm : sep ∈ cs := by
        rcases List.mem_cons.1 h with e | e
        · exact absurd e.symm hc
        · exact e
      have := ih hm
      cases hs : strings.splitChars sep cs with
      | nil => rw [hs] at this; simp at this
      | cons p ps =>
        rw [hs] at this
        simpa using this

/-- No piece of a split holds the separator. -/
theorem splitChars_pieces (sep : Char) (cs : List Char) :
    ∀ p ∈ strings.splitChars sep cs, sep ∉ p := by
  induction cs with
  | nil => intro p hp; simp [strings.splitChars] at hp; subst hp; simp
  | cons c cs ih =>
    intro p hp
    simp only [strings.splitChars] at hp
    by_cases hc : c = sep
    · rw [if_pos hc] at hp
      rcases List.mem_cons.1 hp with rfl | hp
      · simp
      · exact ih p hp
    · rw [if_neg hc] at hp
      cases hs : strings.splitChars sep cs with
      | nil =>
        rw [hs] at hp
        simp only [List.mem_singleton] at hp
        subst hp
        simpa using fun e => hc e.symm
      | cons q qs =>
        rw [hs] at hp ih
        simp only [List.mem_cons] at hp
        rcases hp with rfl | hp
        · have := ih q (List.mem_cons_self _ _)
          simp only [List.mem_cons, not_or]
          exact ⟨fun e => hc e.symm, this⟩
        · exact ih p (List.mem_cons_of_mem _ hp)

/-- Joining the pieces of a split with the separator gives the text back. -/
theorem join_splitChars_sep (sep : Char) (cs : List Char) :
    strings.Join ((strings.splitChars sep cs).map String.mk) (String.mk [sep]) = String.mk cs := by
  induction cs with
  | nil => rfl
  | cons c cs ih =>
    simp only [strings.splitChars]
    by_cases hc : c = sep
    · rw [if_pos hc]
      cases hs : strings.splitChars sep cs with
      | nil => exact absurd hs (splitChars_ne_nil _ _)
      | cons p ps =>
        rw [hs] at ih
        simp only [List.map_cons, strings.Join] at ih ⊢
        rw [ih, hc]
        apply String.ext
        simp [String.data_append]
    · rw [if_neg hc]
      cases hs : strings.splitChars sep cs with
      | nil => exact absurd hs (splitChars_ne_nil _ _)
      | cons p ps =>
        rw [hs] at ih
        simp only []
        cases ps with
        | nil =>
          simp only [List.map_cons, List.map_nil, strings.Join] at ih ⊢
          rw [show p = cs from congrArg String.data ih]
        | cons q qs =>
          simp only [List.map_cons, strings.Join] at ih ⊢
          rw [String.append_assoc, mk_cons_append, ← String.append_assoc, ih]

/-- Joining the parts of a split on `/` gives the string back. -/
theorem join_split_slash (s : String) : strings.Join (strings.Split s '/') "/" = s :=
  join_splitChars_sep '/' s.data

/-- A join of several parts is the join of all but the last, the separator, and
the last part. -/
theorem join_take_last (sep : String) :
    ∀ L : List String, 1 < L.length →
      strings.Join L sep =
        strings.Join (L.take (L.length - 1)) sep ++ sep ++ L.getD (L.length - 1) ""
  | [], h => by simp at h
  | [_], h => by simp at h
  | [a, b], _ => by simp [strings.Join]
  | a :: b :: c :: rest, _ => by
    have ih := join_take_last sep (b :: c :: rest) (by simp)
    simp only [List.length_cons, Nat.add_sub_cancel, List.take_succ_cons,
      List.getD_cons_succ] at ih ⊢
    simp only [strings.Join] at ih ⊢
    rw [ih]
    simp only [String.append_assoc]

/-- Replacement distributes over concatenation. -/
theorem replaceAll_append (a b : String) (old new : Char) :
    strings.ReplaceAll (a ++ b) old new =
      strings.ReplaceAll a old new ++ strings.ReplaceAll b old new := by
  apply String.ext
  simp [strings.ReplaceAll, String.data_append]

/-- Replacement leaves a text without the character alone. -/
theorem replaceAll_of_not_mem (a : String) (old new : Char) (h : old ∉ a.data) :
    strings.ReplaceAll a old new = a := by
  apply String.ext
  simp only [strings.ReplaceAll]
  have : ∀ l : List Char, old ∉ l → l.map (fun c => if c = old then new else c) = l := by
    intro l
    induction l with
    | nil => intro _; rfl
    | cons c l ih =>
      intro hl
      simp only [List.mem_cons, not_or] at hl
      have hc : ¬ c = old := fun e => hl.1 e.symm
      simp only [List.map_cons, if_neg hc, ih hl.2]
  exact this _ h

/-- Joining parts without `/` by `-` is joining them by `/` and replacing. -/
theorem join_dash_eq_replaceAll :
    ∀ L : List String, (∀ p ∈ L, '/' ∉ p.data) →
      strings.Join L "-" = strings.ReplaceAll (strings.Join L "/") '/' '-'
  | [], _ => by rfl
  | [a], h => by
    simp only [strings.Join]
    rw [replaceAll_of_not_mem _ _ _ (h a (by simp))]
  | a :: b :: rest, h => by
    have ih := join_dash_eq_replaceAll (b :: rest) (fun p hp => h p (List.mem_cons_of_mem _ hp))
    simp only [strings.Join]
    rw [replaceAll_append, replaceAll_append, replaceAll_of_not_mem a _ _ (h a (by simp)), ← ih]
    rfl

/-- No part of a split holds the separator. -/
theorem split_pieces_no_sep (s : String) (sep : Char) :
    ∀ p ∈ strings.Split s sep, sep ∉ p.data := by
  intro p hp
  unfold strings.Split at hp
  obtain ⟨q, hq, rfl⟩ := List.mem_map.1 hp
  exact splitChars_pieces sep s.data q hq

/-- A string with the separator splits into several parts. -/
theorem split_length_of_mem (s : String) (sep : Char) (h : sep ∈ s.data) :
    1 < (strings.Split s sep).length := by
  unfold strings.Split
  rw [List.length_map]
  exact splitChars_length_of_mem sep s.data h

/-- A string without the separator is its own single part. -/
theorem split_of_not_mem (s : String) (sep : Char) (h : sep ∉ s.data) :
    strings.Split s sep = [s] := by
  unfold strings.Split
  rw [splitChars_of_not_mem sep s.data h]
  rfl

/-- The last segment of a path that holds `/`: the text splits into what stands
before its last `/` and the segment. -/
theorem last_segment (s : String) (h : 1 < (strings.Split s '/').length) :
    strings.Join ((strings.Split s '/').take ((strings.Split s '/').length - 1)) "/" ++ "/" ++
        (strings.Split s '/').getD ((strings.Split s '/').length - 1) "" = s ∧
    '/' ∉ ((strings.Split s '/').getD ((strings.Split s '/').length - 1) "").data := by
  constructor
  · rw [← join_take_last "/" _ h, join_split_slash]
  · have hlt : (strings.Split s '/').length - 1 < (strings.Split s '/').length := by omega
    rw [List.getD_eq_getElem _ _ hlt]
    exact split_pieces_no_sep s '/' _ (List.getElem_mem _)

/-- The fields that the decomposition derives from the component argument. -/
theorem decomposeComponent_component (info : ConfigAndStacksInfo) :
    (1 < (strings.Split info.ComponentFromArg '/').length →
      (decomposeComponent info).ComponentFolderPrefix =
        strings.Join ((strings.Split info.ComponentFromArg '/').take
          ((strings.Split info.ComponentFromArg '/').length - 1)) "/" ∧
      (decomposeComponent info).ComponentNamePrefix =
        strings.Join ((strings.Split info.ComponentFromArg '/').take
          ((strings.Split info.ComponentFromArg '/').length - 1)) "-" ∧
      (decomposeComponent info).Component =
        (strings.Split info.ComponentFromArg '/').getD
          ((strings.Split info.ComponentFromArg '/').length - 1) "") ∧
    (¬ 1 < (strings.Split info.ComponentFromArg '/').length →
      (decomposeComponent info).ComponentFolderPrefix = "" ∧
      (decomposeComponent info).ComponentNamePrefix = "" ∧
      (decomposeComponent info).Component = info.ComponentFromArg) := by
  unfold decomposeComponent
  simp only [gt_iff_lt]
  constructor
  · intro h
    rw [if_pos h]
    split_ifs <;> exact ⟨rfl, rfl, rfl⟩
  · intro h
    rw [if_neg h]
    split_ifs <;> exact ⟨rfl, rfl, rfl⟩

/-- The base component that the decomposition derives from the base path. -/
theorem decomposeComponent_base (info : ConfigAndStacksInfo) :
    (info.BaseComponentPath.length > 0 →
      (1 < (strings.Split info.BaseComponentPath '/').length →
        (decomposeComponent info).BaseComponent =
          (strings.Split info.BaseComponentPath '/').getD
            ((strings.Split info.BaseComponentPath '/').length - 1) "") ∧
      (¬ 1 < (strings.Split info.BaseComponentPath '/').length →
        (decomposeComponent info).BaseComponent = info.BaseComponentPath)) ∧
    (¬ info.BaseComponentPath.length > 0 →
      (decomposeComponent info).BaseComponent = info.BaseComponent) := by
  unfold decomposeComponent
  simp only [gt_iff_lt]
  constructor
  · intro h
    constructor
    · intro h2
      split_ifs <;> rfl
    · intro h2
      split_ifs <;> rfl
  · intro h
    split_ifs <;> rfl

/-- Claim C19: path decomposition in `processConfigAndStacks`. For every
component argument containing `/`, `ComponentFolderPrefix` is the text before
its last `/` and `Component` the text after it (the folder prefix, `/` and the
component give the argument back, and the component holds no `/`), and
`ComponentNamePrefix` is the folder prefix with every `/` replaced by `-`; for
an argument without `/` both prefixes are empty and `Component` is the
argument. By the same rule, for every non-empty base component path
`BaseComponent` is its final `/`-separated segment, the whole path when it has
no `/`. -/
theorem decomposeComponent_path (info : ConfigAndStacksInfo) :
    ('/' ∈ info.ComponentFromArg.data →
      (decomposeComponent info).ComponentFolderPrefix ++ "/" ++
        (decomposeComponent info).Component = info.ComponentFromArg ∧
      '/' ∉ (decomposeComponent info).Component.data ∧
      (decomposeComponent info).ComponentNamePrefix =
        strings.ReplaceAll (decomposeComponent info).ComponentFolderPrefix '/' '-') ∧
    ('/' ∉ info.ComponentFromArg.data →
      (decomposeComponent info).ComponentFolderPrefix = "" ∧
      (decomposeComponent info).ComponentNamePrefix = "" ∧
      (decomposeComponent info).Component = info.ComponentFromArg) ∧
    (info.BaseComponentPath ≠ "" →
      ('/' ∈ info.BaseComponentPath.data →
        (∃ folder : String,
          folder ++ "/" ++ (decomposeComponent info).BaseComponent = info.BaseComponentPath) ∧
        '/' ∉ (decomposeComponent info).BaseComponent.data) ∧
      ('/' ∉ info.BaseComponentPath.data →
        (decomposeComponent info).BaseComponent = info.BaseComponentPath) ∧
      (strings.Split info.BaseComponentPath '/').getLast? =
        some (decomposeComponent info).BaseComponent) := by
  refine ⟨?_, ?_, ?_⟩
  · intro h
    have hl := split_length_of_mem _ '/' h
    obtain ⟨e1, e2, e3⟩ := (decomposeComponent_component info).1 hl
    obtain ⟨l1, l2⟩ := last_segment _ hl
    rw [e1, e2, e3]
    refine ⟨l1, l2, ?_⟩
    apply join_dash_eq_replaceAll
    intro p hp
    exact split_pieces_no_sep _ '/' p (List.mem_of_mem_take hp)
  · intro h
    have hs := split_of_not_mem _ '/' h
    have hl : ¬ 1 < (strings.Split info.ComponentFromArg '/').length := by
      rw [hs]; simp
    exact (decomposeComponent_component info).2 hl
  · intro hne
    have hpos : info.BaseComponentPath.length > 0 := (length_pos_iff _).2 hne
    obtain ⟨b1, b2⟩ := (decomposeComponent_base info).1 hpos
    refine ⟨?_, ?_, ?_⟩
    · intro h
      have hl := split_length_of_mem _ '/' h
      obtain ⟨l1, l2⟩ := last_segment _ hl
      rw [b1 hl]
      exact ⟨⟨_, l1⟩, l2⟩
    · intro h
      have hs := split_of_not_mem _ '/' h
      have hl : ¬ 1 < (strings.Split info.BaseComponentPath '/').length := by
        rw [hs]; simp
      exact b2 hl
    · by_cases hl : 1 < (strings.Split info.BaseComponentPath '/').length
      · rw [b1 hl]
        have hlt : (strings.Split info.BaseComponentPath '/').length - 1 <
            (strings.Split info.BaseComponentPath '/').length := by omega
        rw [List.getD_eq_getElem _ _ hlt, List.getLast?_eq_getElem?,
          List.getElem?_eq_getElem hlt]
      · rw [b2 hl]
        by_cases hm : '/' ∈ info.BaseComponentPath.data
        · exact absurd (split_length_of_mem _ '/' hm) hl
        · rw [split_of_not_mem _ '/' hm]
          rfl

/-- Witness of claim C19: `infra/net/vpc` with base path `base/vpc-generic`. -/
theorem decomposeComponent_path_witness :
    (decomposeComponent { exampleInfo with
        ComponentFromArg := "infra/net/vpc", BaseComponentPath := "base/vpc-generic" }
      ).ComponentFolderPrefix = "infra/net" ∧
    (decomposeComponent { exampleInfo with
        ComponentFromArg := "infra/net/vpc", BaseComponentPath := "base/vpc-generic" }
      ).ComponentNamePrefix = "infra-net" ∧
    (decomposeComponent { exampleInfo with
        ComponentFromArg := "infra/net/vpc", BaseComponentPath := "base/vpc-generic" }
      ).Component = "vpc" ∧
    (decomposeComponent { exampleInfo with
        ComponentFromArg := "infra/net/vpc", BaseComponentPath := "base/vpc-generic" }
      ).BaseComponent = "vpc-generic" ∧
    (decomposeComponent { exampleInfo with
        ComponentFromArg := "infra/net/vpc", BaseComponentPath := "base/vpc-generic" }
      ).ComponentFolderPrefix ++ "/" ++
      (decomposeComponent { exampleInfo with
        ComponentFromArg := "infra/net/vpc", BaseComponentPath := "base/vpc-generic" }
      ).Component = "infra/net/vpc" :=
  ⟨by decide, by decide, by decide, by decide,
   ((decomposeComponent_path { exampleInfo with
        ComponentFromArg := "infra/net/vpc", BaseComponentPath := "base/vpc-generic" }).1
      (by decide)).1⟩

/-! ## The two forms of a flag (processArgsAndFlags) -/

/-- The example flag names are independent. -/
theorem exampleGlobals_independent : exampleGlobals.independent := by
  unfold Globals.independent
  constructor
  · decide
  · decide

/-- Splitting at a separator: a first piece without the separator is cut off. -/
theorem splitChars_append_sep (sep : Char) (a b : List Char) (h : sep ∉ a) :
    strings.splitChars sep (a ++ sep :: b) = a :: strings.splitChars sep b := by
  induction a with
  | nil => simp [strings.splitChars]
  | cons c a ih =>
    simp only [List.mem_cons, not_or] at h
    have hc : ¬ c = sep := fun e => h.1 e.symm
    show strings.splitChars sep (c :: (a ++ sep :: b)) = _
    simp only [strings.splitChars]
    rw [if_neg hc, ih h.2]

/-- Splitting in at most two pieces cuts at the first separator. -/
theorem splitNChars_two (sep : Char) (a b : List Char) (h : sep ∉ a) :
    strings.splitNChars sep 2 (a ++ sep :: b) = [a, b] := by
  induction a with
  | nil => simp [strings.splitNChars]
  | cons c a ih =>
    simp only [List.mem_cons, not_or] at h
    have hc : ¬ c = sep := fun e => h.1 e.symm
    show strings.splitNChars sep (0 + 2) (c :: (a ++ sep :: b)) = _
    simp only [strings.splitNChars]
    rw [if_neg hc]
    have ih' : strings.splitNChars sep (0 + 2) (a ++ sep :: b) = [a, b] := ih h.2
    rw [ih']

/-- The characters of a flag written with its value. -/
theorem flag_value_data (F v : String) : (F ++ "=" ++ v).data = F.data ++ '=' :: v.data := by
  simp [String.data_append]

/-- A flag and a value without the equals sign split in exactly these two pieces. -/
theorem split_flag_value (F v : String) (hF : '=' ∉ F.data) (hv : '=' ∉ v.data) :
    strings.Split (F ++ "=" ++ v) '=' = [F, v] := by
  unfold strings.Split
  rw [flag_value_data, splitChars_append_sep _ _ _ hF, splitChars_of_not_mem _ _ hv]
  rfl

/-- A flag without the equals sign: the split in two pieces gives the flag and the whole value. -/
theorem splitN_flag_value (F v : String) (hF : '=' ∉ F.data) :
    strings.SplitN (F ++ "=" ++ v) '=' 2 = [F, v] := by
  unfold strings.SplitN
  rw [flag_value_data, splitNChars_two _ _ _ hF]
  rfl

/-- A flag written with its value differs from every string without the equals sign. -/
theorem flag_value_ne (F v G : String) (hG : '=' ∉ G.data) : F ++ "=" ++ v ≠ G := by
  intro e
  apply hG
  rw [← e, flag_value_data]
  simp

/-- The negative form of the test of a beginning. -/
theorem hasPrefix_false_iff (s p : String) :
    strings.HasPrefix s p = false ↔ ¬ p.data <+: s.data := by
  rw [← hasPrefix_iff, Bool.not_eq_true]

/-- A flag without the equals sign that starts F=v= starts F=. -/
theorem hasPrefix_flag_value (F v G : String) (hG : '=' ∉ G.data)
    (h : strings.HasPrefix (F ++ "=" ++ v ++ "=") G = true) :
    strings.HasPrefix (F ++ "=") G = true := by
  rw [hasPrefix_iff] at h ⊢
  have hx : (F ++ "=" ++ v ++ "=").data = (F ++ "=").data ++ (v ++ "=").data := by
    simp [String.data_append]
  rw [hx] at h
  have h2 : (F ++ "=").data <+: (F ++ "=").data ++ (v ++ "=").data := List.prefix_append _ _
  by_cases hl : G.data.length ≤ (F ++ "=").data.length
  · exact List.prefix_of_prefix_length_le h h2 hl
  · have h3 := List.prefix_of_prefix_length_le h2 h (by omega)
    exfalso
    apply hG
    apply h3.subset
    simp [String.data_append]

/-- A flag followed by the equals sign starts with the flag. -/
theorem hasPrefix_self_eq (G : String) : strings.HasPrefix (G ++ "=") G = true :=
  hasPrefix_append G "="

/-- Beginnings compose. -/
theorem hasPrefix_trans {a b c : String} (h1 : strings.HasPrefix b a = true)
    (h2 : strings.HasPrefix c b = true) : strings.HasPrefix c a = true := by
  rw [hasPrefix_iff] at h1 h2 ⊢
  exact h1.trans h2

/-- One flag block reads the same value from the one-token form of its own flag, whatever follows, as from the two-token form. -/
theorem flagValueNext_forms (F v G current : String) (next : Option String)
    (info : ArgsAndFlagsInfo) (hG : '=' ∉ G.data)
    (hcase : (G = F ∧ '=' ∉ v.data) ∨ strings.HasPrefix (F ++ "=") G = false) :
    flagValueNext F (some v) G current info =
      flagValueNext (F ++ "=" ++ v) next G current info := by
  unfold flagValueNext
  have hne : ¬ F ++ "=" ++ v = G := flag_value_ne F v G hG
  rcases hcase with ⟨rfl, hv⟩ | hp
  · have hpre : strings.HasPrefix (G ++ "=" ++ v ++ "=") G = true := by
      rw [String.append_assoc, String.append_assoc]
      exact hasPrefix_append _ _
    rw [if_pos rfl, if_neg hne, if_pos hpre, split_flag_value G v hG hv]
    rfl
  · have hFG : ¬ F = G := by
      rintro rfl
      rw [hasPrefix_self_eq] at hp
      cases hp
    have hp2 : ¬ strings.HasPrefix (F ++ "=" ++ v ++ "=") G = true := by
      intro h
      rw [hasPrefix_flag_value F v G hG h] at hp
      cases hp
    have hp1 : ¬ strings.HasPrefix (F ++ "=") G = true := by
      rw [hp]; simp
    rw [if_neg hFG, if_neg hp1, if_neg hne, if_neg hp2]

/-- A flag block leaves a token alone that is not its flag and does not start it. -/
theorem flagValueNext_inert (t G current : String) (next : Option String)
    (info : ArgsAndFlagsInfo) (h : strings.HasPrefix (t ++ "=") G = false) :
    flagValueNext t next G current info = Except.ok current := by
  unfold flagValueNext
  have hne : ¬ t = G := by
    rintro rfl
    rw [hasPrefix_self_eq] at h
    cases h
  have hp : ¬ strings.HasPrefix (t ++ "=") G = true := by
    rw [h]; simp
  rw [if_neg hne, if_neg hp]

/-- A flag block looks at the next token only when the token is its flag. -/
theorem flagValueNext_next (t G current : String) (next next' : Option String)
    (info : ArgsAndFlagsInfo) (h : t ≠ G) :
    flagValueNext t next G current info = flagValueNext t next' G current info := by
  unfold flagValueNext
  rw [if_neg h, if_neg h]

/-- The five flag blocks leave a token alone that is none of the read flags and starts none. -/
theorem extractFlagsNext_inert (g : Globals) (t : String) (next : Option String)
    (info : ArgsAndFlagsInfo)
    (h : ∀ G ∈ extractedFlags g, strings.HasPrefix (t ++ "=") G = false) :
    extractFlagsNext g t next info = Except.ok info := by
  have h1 := h g.TerraformDirFlag (by simp [extractedFlags])
  have h2 := h g.HelmfileDirFlag (by simp [extractedFlags])
  have h3 := h g.ConfigDirFlag (by simp [extractedFlags])
  have h4 := h g.StackDirFlag (by simp [extractedFlags])
  have h5 := h g.DeployRunInitFlag (by simp [extractedFlags])
  unfold extractFlagsNext
  simp only [flagValueNext_inert _ _ _ _ _ h1, flagValueNext_inert _ _ _ _ _ h2,
    flagValueNext_inert _ _ _ _ _ h3, flagValueNext_inert _ _ _ _ _ h4,
    flagValueNext_inert _ _ _ _ _ h5, Except.bind]

/-- The five flag blocks look at the next token only when the token is a read flag. -/
theorem extractFlagsNext_next (g : Globals) (t : String) (next next' : Option String)
    (info : ArgsAndFlagsInfo) (h : ∀ G ∈ extractedFlags g, t ≠ G) :
    extractFlagsNext g t next info = extractFlagsNext g t next' info := by
  have h1 := h g.TerraformDirFlag (by simp [extractedFlags])
  have h2 := h g.HelmfileDirFlag (by simp [extractedFlags])
  have h3 := h g.ConfigDirFlag (by simp [extractedFlags])
  have h4 := h g.StackDirFlag (by simp [extractedFlags])
  have h5 := h g.DeployRunInitFlag (by simp [extractedFlags])
  unfold extractFlagsNext
  simp only [flagValueNext_next t _ _ next next' _ h1, flagValueNext_next t _ _ next next' _ h2,
    flagValueNext_next t _ _ next next' _ h3, flagValueNext_next t _ _ next next' _ h4,
    flagValueNext_next t _ _ next next' _ h5]

/-- Independent flags: two of the read flags are the same string, or neither
followed by `=` starts with the other. -/
theorem independent_cases (g : Globals) (hg : g.independent) (F G : String)
    (hF : F ∈ readFlags g) (hG : G ∈ readFlags g) :
    G = F ∨ strings.HasPrefix (F ++ "=") G = false := by
  by_cases e : G = F
  · exact Or.inl e
  · right
    have hsymm : Symmetric fun F G : String =>
        strings.HasPrefix (F ++ "=") G = false ∧ strings.HasPrefix (G ++ "=") F = false :=
      fun _ _ h => ⟨h.2, h.1⟩
    exact (hg.2.forall hsymm hF hG (fun e' => e e'.symm)).1

/-- With independent flag names the flag of the global options is none of the five extracted flags. -/
theorem globalOptionsFlag_not_extracted (g : Globals) (hg : g.independent) :
    g.GlobalOptionsFlag ∉ extractedFlags g := by
  intro hmem
  have hp := hg.2
  unfold readFlags at hp
  rw [List.pairwise_cons] at hp
  have := (hp.1 _ hmem).1
  rw [hasPrefix_self_eq] at this
  cases this

/-- The five flag blocks read the same from the two forms of a flag. -/
theorem extractFlagsNext_forms (g : Globals) (hg : g.independent) (F v : String)
    (next : Option String) (info : ArgsAndFlagsInfo) (hF : F ∈ readFlags g)
    (hv : F ≠ g.GlobalOptionsFlag → '=' ∉ v.data) :
    extractFlagsNext g F (some v) info = extractFlagsNext g (F ++ "=" ++ v) next info := by
  have key : ∀ G ∈ extractedFlags g, ∀ (cur : String) (i : ArgsAndFlagsInfo),
      flagValueNext F (some v) G cur i = flagValueNext (F ++ "=" ++ v) next G cur i := by
    intro G hG cur i
    have hGr : G ∈ readFlags g := List.mem_cons_of_mem _ hG
    apply flagValueNext_forms F v G cur next i (hg.1 G hGr)
    rcases independent_cases g hg F G hF hGr with e | e
    · left
      refine ⟨e, hv ?_⟩
      rintro rfl
      rw [e] at hG
      exact globalOptionsFlag_not_extracted g hg hG
    · exact Or.inr e
  have k1 := key g.TerraformDirFlag (by simp [extractedFlags])
  have k2 := key g.HelmfileDirFlag (by simp [extractedFlags])
  have k3 := key g.ConfigDirFlag (by simp [extractedFlags])
  have k4 := key g.StackDirFlag (by simp [extractedFlags])
  have k5 := key g.DeployRunInitFlag (by simp [extractedFlags])
  unfold extractFlagsNext
  simp only [k1, k2, k3, k4, k5]

/-- One step of the extraction over the whole list. -/
theorem extractAll_cons (g : Globals) (a : String) (rest : List String)
    (info : ArgsAndFlagsInfo) :
    extractAll g (a :: rest) info =
      (extractFlagsNext g a rest.head? info).bind fun info => extractAll g rest info := rfl

/-- The flag values read from a list do not depend on the form in which a flag
and its value are written. -/
theorem extractAll_forms (g : Globals) (hg : g.independent) (F v : String)
    (post : List String) (hF : F ∈ readFlags g)
    (hv : F ≠ g.GlobalOptionsFlag → '=' ∉ v.data)
    (hv3 : ∀ G ∈ readFlags g, strings.HasPrefix (v ++ "=") G = false) (pre : List String) :
    (∀ t, pre.getLast? = some t → t ∉ readFlags g) →
    ∀ info : ArgsAndFlagsInfo,
      extractAll g (pre ++ F :: v :: post) info =
        extractAll g (pre ++ (F ++ "=" ++ v) :: post) info := by
  have hbase : ∀ info : ArgsAndFlagsInfo,
      extractAll g (F :: v :: post) info = extractAll g ((F ++ "=" ++ v) :: post) info := by
    intro info
    simp only [extractAll, List.head?_cons]
    rw [extractFlagsNext_forms g hg F v post.head? info hF hv]
    cases extractFlagsNext g (F ++ "=" ++ v) post.head? info with
    | error a => rfl
    | ok i =>
      simp only [Except.bind]
      rw [extractFlagsNext_inert g v post.head? i
        (fun G hG => hv3 G (List.mem_cons_of_mem _ hG))]
  induction pre with
  | nil => intro _ info; exact hbase info
  | cons t pre ih =>
    intro hlast info
    cases pre with
    | nil =>
      have ht : t ∉ readFlags g := hlast t rfl
      have hte : ∀ G ∈ extractedFlags g, t ≠ G := by
        rintro G hG rfl
        exact ht (List.mem_cons_of_mem _ hG)
      simp only [List.cons_append, List.nil_append] at ih ⊢
      rw [extractAll_cons, extractAll_cons]
      simp only [List.head?_cons]
      rw [extractFlagsNext_next g t (some F) (some (F ++ "=" ++ v)) info hte]
      cases extractFlagsNext g t (some (F ++ "=" ++ v)) info with
      | error a => rfl
      | ok i =>
        simp only [Except.bind]
        exact hbase i
    | cons u pre =>
      have hlast' : ∀ t', (u :: pre).getLast? = some t' → t' ∉ readFlags g := by
        intro t' h
        apply hlast t'
        rw [List.getLast?_cons_cons]
        exact h
      simp only [List.cons_append] at ih ⊢
      rw [extractAll_cons, extractAll_cons]
      simp only [List.head?_cons]
      cases extractFlagsNext g t (some u) info with
      | error a => rfl
      | ok i =>
        simp only [Except.bind]
        exact ih hlast' i

/-- The index of the global options over an appended list. -/
theorem globalIndexAll_append (g : Globals) (a b : List String) :
    ∀ (i cur : Nat),
      globalIndexAll g i (a ++ b) cur =
        globalIndexAll g (i + a.length) b (globalIndexAll g i a cur) := by
  induction a with
  | nil => intro i cur; rfl
  | cons x a ih =>
    intro i cur
    show globalIndexAll g i (x :: (a ++ b)) cur = _
    simp only [globalIndexAll, List.length_cons]
    rw [ih]
    congr 1
    omega

/-- Where the index of the global options can point after a list of tokens. -/
theorem globalIndexAll_bound (g : Globals) (l : List String) :
    ∀ (i cur : Nat),
      globalIndexAll g i l cur = cur ∨ globalIndexAll g i l cur < i + l.length ∨
        (globalIndexAll g i l cur = i + l.length ∧ l.getLast? = some g.GlobalOptionsFlag) := by
  induction l with
  | nil => intro i cur; exact Or.inl rfl
  | cons a l ih =>
    intro i cur
    simp only [globalIndexAll, List.length_cons]
    rcases ih (i + 1) (globalOptionsIndex g i a cur) with h | h | ⟨h1, h2⟩
    · rw [h]
      unfold globalOptionsIndex
      by_cases ha : a = g.GlobalOptionsFlag
      · rw [if_pos ha]
        cases l with
        | nil => exact Or.inr (Or.inr ⟨rfl, by rw [ha]; rfl⟩)
        | cons b l => right; left; simp only [List.length_cons]; omega
      · rw [if_neg ha]
        by_cases hp : strings.HasPrefix (a ++ "=") g.GlobalOptionsFlag = true
        · rw [if_pos hp]
          right; left; omega
        · rw [if_neg hp]
          exact Or.inl rfl
    · right; left; omega
    · right; right
      refine ⟨by omega, ?_⟩
      cases l with
      | nil => simp at h2
      | cons b l => rw [List.getLast?_cons_cons]; exact h2

/-- The index of the global options moves with the tokens when they are shifted
by one position. -/
theorem globalIndexAll_shift (g : Globals) (l : List String) :
    ∀ (i cur cur' : Nat),
      (globalIndexAll g (i + 1) l cur' = cur' ∧ globalIndexAll g i l cur = cur) ∨
      (globalIndexAll g (i + 1) l cur' = globalIndexAll g i l cur + 1 ∧
        i ≤ globalIndexAll g i l cur) := by
  induction l with
  | nil => intro i cur cur'; exact Or.inl ⟨rfl, rfl⟩
  | cons a l ih =>
    intro i cur cur'
    simp only [globalIndexAll]
    have hstep : (globalOptionsIndex g (i + 1) a cur' = cur' ∧ globalOptionsIndex g i a cur = cur) ∨
        (globalOptionsIndex g (i + 1) a cur' = globalOptionsIndex g i a cur + 1 ∧
          i ≤ globalOptionsIndex g i a cur) := by
      unfold globalOptionsIndex
      by_cases ha : a = g.GlobalOptionsFlag
      · rw [if_pos ha, if_pos ha]
        right; omega
      · rw [if_neg ha, if_neg ha]
        by_cases hp : strings.HasPrefix (a ++ "=") g.GlobalOptionsFlag = true
        · rw [if_pos hp, if_pos hp]
          right; omega
        · rw [if_neg hp, if_neg hp]
          exact Or.inl ⟨rfl, rfl⟩
    rcases ih (i + 1) (globalOptionsIndex g i a cur) (globalOptionsIndex g (i + 1) a cur') with
      ⟨h1, h2⟩ | ⟨h1, h2⟩
    · rw [h1, h2]
      rcases hstep with ⟨s1, s2⟩ | ⟨s1, s2⟩
      · rw [s1, s2]
        exact Or.inl ⟨rfl, rfl⟩
      · exact Or.inr ⟨s1, s2⟩
    · right
      exact ⟨h1, by omega⟩

/-- A token that is not the flag of the global options and does not start it leaves the index alone. -/
theorem globalOptionsIndex_inert (g : Globals) (i cur : Nat) (t : String)
    (h : strings.HasPrefix (t ++ "=") g.GlobalOptionsFlag = false) :
    globalOptionsIndex g i t cur = cur := by
  unfold globalOptionsIndex
  have hne : ¬ t = g.GlobalOptionsFlag := by
    rintro rfl
    rw [hasPrefix_self_eq] at h
    cases h
  have hp : ¬ strings.HasPrefix (t ++ "=") g.GlobalOptionsFlag = true := by
    rw [h]; simp
  rw [if_neg hne, if_neg hp]

/-- Behind the flag the tokens of the two-token form are those of the one-token form, one place further. -/
theorem getElem?_two_form (pre post : List String) (F v : String) (j : Nat)
    (hj : pre.length + 1 ≤ j) (w : String) :
    (pre ++ F :: v :: post)[j + 1]? = (pre ++ w :: post)[j]? := by
  rw [List.getElem?_append_right (by omega), List.getElem?_append_right (by omega)]
  obtain ⟨k, hk⟩ : ∃ k, j = pre.length + 1 + k := ⟨j - pre.length - 1, by omega⟩
  have e1 : j + 1 - pre.length = k + 1 + 1 := by omega
  have e2 : j - pre.length = k + 1 := by omega
  rw [e1, e2, List.getElem?_cons_succ, List.getElem?_cons_succ, List.getElem?_cons_succ]

/-- The token of the global options in the two-token form, by the index reached before the flag. -/
theorem globalOptionsToken_two_form (g : Globals) (pre post : List String) (F v : String) :
    globalIndexAll g 0 (pre ++ F :: v :: post) 0 =
      globalIndexAll g (pre.length + 1 + 1) post
        (globalOptionsIndex g (pre.length + 1) v
          (globalOptionsIndex g pre.length F (globalIndexAll g 0 pre 0))) := by
  rw [globalIndexAll_append, Nat.zero_add]
  rfl

/-- The token of the global options in the one-token form, by the index reached before the flag. -/
theorem globalOptionsToken_one_form (g : Globals) (pre post : List String) (w : String) :
    globalIndexAll g 0 (pre ++ w :: post) 0 =
      globalIndexAll g (pre.length + 1) post
        (globalOptionsIndex g pre.length w (globalIndexAll g 0 pre 0)) := by
  rw [globalIndexAll_append, Nat.zero_add]
  rfl

/-- The token read for the global options does not depend on the form in which
a flag and its value are written. -/
theorem globalOptions_forms (g : Globals) (hg : g.independent) (pre post : List String)
    (F v : String) (hF : F ∈ readFlags g)
    (hv3 : ∀ G ∈ readFlags g, strings.HasPrefix (v ++ "=") G = false)
    (hlast : ∀ t, pre.getLast? = some t → t ∉ readFlags g)
    (hfirst : F = g.GlobalOptionsFlag → pre ≠ []) :
    globalOptionsOf g (globalOptionsToken g (pre ++ F :: v :: post)) [] =
      globalOptionsOf g (globalOptionsToken g (pre ++ (F ++ "=" ++ v) :: post)) [] := by
  have hGO : g.GlobalOptionsFlag ∈ readFlags g := List.mem_cons_self _ _
  have hGOeq : '=' ∉ g.GlobalOptionsFlag.data := hg.1 _ hGO
  have hvGO := hv3 _ hGO
  unfold globalOptionsToken
  rw [globalOptionsToken_two_form, globalOptionsToken_one_form,
    globalOptionsIndex_inert g _ _ v hvGO]
  have hpost : ∀ j : Nat, pre.length + 1 ≤ j →
      (if j + 1 > 0 then (pre ++ F :: v :: post)[j + 1]? else none) =
        (if j > 0 then (pre ++ (F ++ "=" ++ v) :: post)[j]? else none) := by
    intro j hj
    rw [if_pos (by omega), if_pos (by omega), getElem?_two_form pre post F v j hj]
  by_cases hFG : F = g.GlobalOptionsFlag
  · subst hFG
    have hp0 : 0 < pre.length := List.length_pos.2 (hfirst rfl)
    have e2 : globalOptionsIndex g pre.length g.GlobalOptionsFlag (globalIndexAll g 0 pre 0) =
        pre.length + 1 := by
      unfold globalOptionsIndex
      rw [if_pos rfl]
    have e1 : globalOptionsIndex g pre.length (g.GlobalOptionsFlag ++ "=" ++ v)
        (globalIndexAll g 0 pre 0) = pre.length := by
      unfold globalOptionsIndex
      have hpre : strings.HasPrefix (g.GlobalOptionsFlag ++ "=" ++ v ++ "=")
          g.GlobalOptionsFlag = true := by
        rw [String.append_assoc, String.append_assoc]
        exact hasPrefix_append _ _
      rw [if_neg (flag_value_ne _ v _ hGOeq), if_pos hpre]
    rw [e1, e2]
    rcases globalIndexAll_shift g post (pre.length + 1) pre.length (pre.length + 1) with
      ⟨h1, h2⟩ | ⟨h1, h2⟩
    · rw [h1, h2, if_pos (by omega), if_pos hp0]
      have t2 : (pre ++ g.GlobalOptionsFlag :: v :: post)[pre.length + 1]? = some v := by
        rw [List.getElem?_append_right (by omega)]
        have : pre.length + 1 - pre.length = 0 + 1 := by omega
        rw [this, List.getElem?_cons_succ, List.getElem?_cons_zero]
      have t1 : (pre ++ (g.GlobalOptionsFlag ++ "=" ++ v) :: post)[pre.length]? =
          some (g.GlobalOptionsFlag ++ "=" ++ v) := by
        rw [List.getElem?_append_right (by omega), Nat.sub_self, List.getElem?_cons_zero]
      rw [t1, t2]
      unfold globalOptionsOf
      have hnot : ¬ strings.HasPrefix v (g.GlobalOptionsFlag ++ "=") = true := by
        intro h
        have h3 : strings.HasPrefix (v ++ "=") g.GlobalOptionsFlag = true :=
          hasPrefix_trans (hasPrefix_trans (hasPrefix_append _ "=") h) (hasPrefix_append v "=")
        rw [h3] at hvGO
        cases hvGO
      have hyes : strings.HasPrefix (g.GlobalOptionsFlag ++ "=" ++ v)
          (g.GlobalOptionsFlag ++ "=") = true := hasPrefix_append _ _
      simp only []
      rw [if_neg hnot, if_pos hyes, splitN_flag_value _ v hGOeq]
      rfl
    · rw [h1, hpost _ h2]
  · have hind : strings.HasPrefix (F ++ "=") g.GlobalOptionsFlag = false := by
      rcases independent_cases g hg F g.GlobalOptionsFlag hF hGO with e | e
      · exact absurd e.symm hFG
      · exact e
    have e2 : globalOptionsIndex g pre.length F (globalIndexAll g 0 pre 0) =
        globalIndexAll g 0 pre 0 := globalOptionsIndex_inert g _ _ F hind
    have e1 : globalOptionsIndex g pre.length (F ++ "=" ++ v) (globalIndexAll g 0 pre 0) =
        globalIndexAll g 0 pre 0 := by
      apply globalOptionsIndex_inert
      by_contra h
      have h' : strings.HasPrefix (F ++ "=" ++ v ++ "=") g.GlobalOptionsFlag = true := by
        simpa using h
      rw [hasPrefix_flag_value F v _ hGOeq h'] at hind
      cases hind
    rw [e1, e2]
    rcases globalIndexAll_shift g post (pre.length + 1) (globalIndexAll g 0 pre 0)
        (globalIndexAll g 0 pre 0) with ⟨h1, h2⟩ | ⟨h1, h2⟩
    · rw [h1, h2]
      by_cases hc : globalIndexAll g 0 pre 0 > 0
      · rw [if_pos hc, if_pos hc]
        have hlt : globalIndexAll g 0 pre 0 < pre.length := by
          rcases globalIndexAll_bound g pre 0 0 with h | h | ⟨_, h⟩
          · omega
          · omega
          · exact absurd hGO (hlast _ h)
        rw [List.getElem?_append_left hlt, List.getElem?_append_left hlt]
      · rw [if_neg hc, if_neg hc]
    · rw [h1, hpost _ h2]

/-- Each read flag is a common flag. -/
theorem isCommonFlag_of_readFlags (g : Globals) (F : String) (hF : F ∈ readFlags g) :
    isCommonFlag g F = true := by
  simp only [readFlags, extractedFlags, List.mem_cons, List.mem_singleton, List.not_mem_nil,
    or_false] at hF
  simp only [isCommonFlag, commonFlags, List.contains_cons, List.contains_nil, Bool.or_false,
    Bool.or_eq_true, beq_iff_eq]
  rcases hF with h | h | h | h | h | h <;> simp [h]

/-- With independent flag names a flag written with its value is no common flag. -/
theorem flag_value_not_common (g : Globals) (hg : g.independent) (F v : String) :
    isCommonFlag g (F ++ "=" ++ v) = false := by
  have h1 := hg.1 g.GlobalOptionsFlag (by simp [readFlags])
  have h2 := hg.1 g.TerraformDirFlag (by simp [readFlags, extractedFlags])
  have h3 := hg.1 g.HelmfileDirFlag (by simp [readFlags, extractedFlags])
  have h4 := hg.1 g.ConfigDirFlag (by simp [readFlags, extractedFlags])
  have h5 := hg.1 g.StackDirFlag (by simp [readFlags, extractedFlags])
  have h6 := hg.1 g.DeployRunInitFlag (by simp [readFlags, extractedFlags])
  have n1 := flag_value_ne F v "--stack" (by decide)
  have n2 := flag_value_ne F v "-s" (by decide)
  have n3 := flag_value_ne F v "--dry-run" (by decide)
  have n4 := flag_value_ne F v "--kubeconfig-path" (by decide)
  have m1 := flag_value_ne F v _ h1
  have m2 := flag_value_ne F v _ h2
  have m3 := flag_value_ne F v _ h3
  have m4 := flag_value_ne F v _ h4
  have m5 := flag_value_ne F v _ h5
  have m6 := flag_value_ne F v _ h6
  simp only [isCommonFlag, commonFlags, List.contains_cons, List.contains_nil, Bool.or_false,
    Bool.or_eq_false_iff, beq_eq_false_iff_ne, ne_eq]
  exact ⟨n1, n2, n3, n4, m2, m3, m4, m5, m1, m6⟩

/-- A read flag written with its value starts with a common flag followed by the equals sign. -/
theorem flag_value_starts_with_common (g : Globals) (F v : String) (hF : F ∈ readFlags g) :
    startsWithCommonFlag g (F ++ "=" ++ v) = true := by
  unfold startsWithCommonFlag
  rw [List.any_eq_true]
  refine ⟨F, ?_, hasPrefix_append _ _⟩
  have := isCommonFlag_of_readFlags g F hF
  simpa [isCommonFlag] using this

/-- The residual sequence does not depend on the form in which a flag and its
value are written. -/
theorem residual_forms (g : Globals) (hg : g.independent) (pre post : List String)
    (F v : String) (hF : F ∈ readFlags g) (hv2 : isCommonFlag g v = false) :
    residual g false (pre ++ F :: v :: post) =
      residual g false (pre ++ (F ++ "=" ++ v) :: post) := by
  rw [residual_skips_flag_and_value g F v post (isCommonFlag_of_readFlags g F hF) pre false,
    residual_skips_flag_with_value g _ post (flag_value_starts_with_common g F v hF) pre false,
    hv2, flag_value_not_common g hg F v]

/-- Counterexample to claim C15 as stated: the two forms of a flag are not
interchangeable for every value and position. A value that holds the equals
sign is accepted in the two-token form and is an invalid flag in the one-token
form; a value that is itself a common flag, or a flag that follows a
value-reading flag, changes the outcome as well. -/
theorem processArgsAndFlags_forms_counterexample :
    (¬ ∀ (g : Globals) (pre post : List String) (F v : String), F ∈ readFlags g →
        processArgsAndFlags g (pre ++ F :: v :: post) =
          processArgsAndFlags g (pre ++ (F ++ "=" ++ v) :: post)) ∧
    processArgsAndFlags exampleGlobals ["plan", "vpc", "--terraform-dir", "-s", "x", "y"] ≠
      processArgsAndFlags exampleGlobals ["plan", "vpc", "--terraform-dir=-s", "x", "y"] ∧
    processArgsAndFlags exampleGlobals ["plan", "vpc", "--helmfile-dir", "--terraform-dir", "x"] ≠
      processArgsAndFlags exampleGlobals ["plan", "vpc", "--helmfile-dir", "--terraform-dir=x"] := by
  refine ⟨?_, ?_, ?_⟩
  · intro h
    have hbad := h exampleGlobals ["plan", "vpc"] [] "--terraform-dir" "a=b" (by decide)
    have e1 : processArgsAndFlags exampleGlobals
        (["plan", "vpc"] ++ "--terraform-dir" :: "a=b" :: []) =
        Except.ok { ArgsAndFlagsInfo.zero with
          SubCommand := "plan", ComponentFromArg := "vpc", TerraformDir := "a=b" } := rfl
    have e2 : processArgsAndFlags exampleGlobals
        (["plan", "vpc"] ++ ("--terraform-dir" ++ "=" ++ "a=b") :: []) =
        Except.error (Abort.invalidFlag ArgsAndFlagsInfo.zero
          "invalid flag: --terraform-dir=a=b") := rfl
    rw [e1, e2] at hbad
    cases hbad
  · have e1 : processArgsAndFlags exampleGlobals
        ["plan", "vpc", "--terraform-dir", "-s", "x", "y"] =
        Except.ok { ArgsAndFlagsInfo.zero with
          SubCommand := "plan", ComponentFromArg := "vpc", TerraformDir := "-s",
          AdditionalArgsAndFlags := ["y"] } := rfl
    have e2 : processArgsAndFlags exampleGlobals
        ["plan", "vpc", "--terraform-dir=-s", "x", "y"] =
        Except.ok { ArgsAndFlagsInfo.zero with
          SubCommand := "plan", ComponentFromArg := "vpc", TerraformDir := "-s",
          AdditionalArgsAndFlags := ["x", "y"] } := rfl
    rw [e1, e2]
    intro h
    exact absurd (Except.ok.inj h) (by decide)
  · have e1 : processArgsAndFlags exampleGlobals
        ["plan", "vpc", "--helmfile-dir", "--terraform-dir", "x"] =
        Except.ok { ArgsAndFlagsInfo.zero with
          SubCommand := "plan", ComponentFromArg := "vpc", TerraformDir := "x",
          HelmfileDir := "--terraform-dir" } := rfl
    have e2 : processArgsAndFlags exampleGlobals
        ["plan", "vpc", "--helmfile-dir", "--terraform-dir=x"] =
        Except.ok { ArgsAndFlagsInfo.zero with
          SubCommand := "plan", ComponentFromArg := "vpc", TerraformDir := "x",
          HelmfileDir := "--terraform-dir=x" } := rfl
    rw [e1, e2]
    intro h
    exact absurd (Except.ok.inj h) (by decide)

/-- Claim C15, amended: with independent flag names, a value-carrying flag F
among the six read flags, written as the two tokens F, v or as the one token
F=v in the same position, gives the same outcome of processArgsAndFlags,
provided the value holds no equals sign (the global options may hold it), is
no common flag, does not start with a read flag, the token before F is no
read flag, and the flag of the global options is not the first token. -/
theorem processArgsAndFlags_forms_agree (g : Globals) (pre post : List String) (F v : String)
    (hg : g.independent) (hF : F ∈ readFlags g)
    (hv : F ≠ g.GlobalOptionsFlag → '=' ∉ v.data)
    (hv2 : isCommonFlag g v = false)
    (hv3 : ∀ G ∈ readFlags g, strings.HasPrefix (v ++ "=") G = false)
    (hlast : ∀ t, pre.getLast? = some t → t ∉ readFlags g)
    (hfirst : F = g.GlobalOptionsFlag → pre ≠ []) :
    processArgsAndFlags g (pre ++ F :: v :: post) =
      processArgsAndFlags g (pre ++ (F ++ "=" ++ v) :: post) := by
  rw [processArgsAndFlags_eq, processArgsAndFlags_eq,
    extractAll_forms g hg F v post hF hv hv3 pre hlast,
    globalOptions_forms g hg pre post F v hF hv3 hlast hfirst,
    residual_forms g hg pre post F v hF hv2]

/-- The example value, followed by the equals sign, starts with none of the read flags. -/
theorem example_value_inert :
    ∀ G ∈ readFlags exampleGlobals, strings.HasPrefix ("/tf" ++ "=") G = false := by
  decide

/-- Witness for claim C15: the example arguments with the terraform directory
in both forms give the same result, with the value in TerraformDir. -/
theorem processArgsAndFlags_forms_agree_witness :
    processArgsAndFlags exampleGlobals ["plan", "vpc", "--terraform-dir", "/tf", "-x"] =
      processArgsAndFlags exampleGlobals ["plan", "vpc", "--terraform-dir=/tf", "-x"] ∧
    processArgsAndFlags exampleGlobals ["plan", "vpc", "--terraform-dir=/tf", "-x"] =
      Except.ok { ArgsAndFlagsInfo.zero with
        SubCommand := "plan", ComponentFromArg := "vpc", TerraformDir := "/tf",
        AdditionalArgsAndFlags := ["-x"] } :=
  ⟨processArgsAndFlags_forms_agree exampleGlobals ["plan", "vpc"] ["-x"] "--terraform-dir" "/tf"
      exampleGlobals_independent (by decide) (fun _ => by decide) (by decide)
      example_value_inert (fun t h => by cases h; decide) (fun _ => List.cons_ne_nil _ _),
   rfl⟩

/-! ## Index faults of processArgsAndFlags -/

/-- One flag block hits no index that is out of range: the access at `i + 1`
follows the length test, the second part of the split follows the test for two
parts. -/
theorem flagValue_no_fault (input : List String) (i : Nat) (arg flag current : String)
    (info : ArgsAndFlagsInfo) :
    flagValue input i arg flag current info ≠ Except.error Abort.indexOutOfRange := by
  rw [flagValue_eq_next]
  rcases flagValueNext_cases arg input[i + 1]? flag current info with ⟨_, e⟩ | ⟨_, v, e⟩
  · rw [e]; intro h; cases h
  · rw [e]; intro h; cases h

/-- The first loop hits no index that is out of range. -/
theorem firstLoop_no_fault (g : Globals) (input : List String) (rest : List String) :
    ∀ (i : Nat) (st : ArgsState),
      firstLoop g input i rest st ≠ Except.error Abort.indexOutOfRange := by
  induction rest with
  | nil => intro i st h; cases h
  | cons arg rest ih =>
    intro i st
    simp only [firstLoop]
    rw [extractFlags_eq_next]
    rcases extractFlagsNext_cases g arg input[i + 1]? st.info with ⟨_, info', e⟩ | ⟨_, info', e⟩
    · rw [e]; intro h; cases h
    · rw [e]
      exact ih _ _

/-- A list that holds the separator splits in two pieces. -/
theorem splitNChars_two_length (sep : Char) (cs : List Char) (h : sep ∈ cs) :
    (strings.splitNChars sep 2 cs).length = 2 := by
  obtain ⟨a, b, rfl, ha⟩ := List.eq_append_cons_of_mem h
  rw [splitNChars_two sep a b ha]
  rfl

/-- A token that starts with a flag and the equals sign has a second part. -/
theorem splitN_of_hasPrefix (arg flag : String)
    (h : strings.HasPrefix arg (flag ++ "=") = true) :
    ∃ v, (strings.SplitN arg '=' 2)[1]? = some v := by
  rw [hasPrefix_iff] at h
  obtain ⟨t, ht⟩ := h
  have hmem : '=' ∈ arg.data := by
    rw [← ht, String.data_append]
    simp
  have hlen : (strings.SplitN arg '=' 2).length = 2 := by
    unfold strings.SplitN
    rw [List.length_map, splitNChars_two_length _ _ hmem]
  exact ⟨_, List.getElem?_eq_getElem (by omega)⟩

/-- Reading the global options always gives a result. -/
theorem globalOptionsOf_total (g : Globals) (arg : Option String) (cur : List String) :
    ∃ go, globalOptionsOf g arg cur = Except.ok go := by
  unfold globalOptionsOf
  cases arg with
  | none => exact ⟨cur, rfl⟩
  | some a =>
    simp only []
    by_cases hp : strings.HasPrefix a (g.GlobalOptionsFlag ++ "=") = true
    · obtain ⟨v, hv⟩ := splitN_of_hasPrefix a g.GlobalOptionsFlag hp
      rw [if_pos hp, hv]
      exact ⟨_, rfl⟩
    · rw [if_neg hp]
      exact ⟨_, rfl⟩

/-- The second loop always runs to its end. -/
theorem secondLoop_total (g : Globals) (idx : List Nat) (gi : Nat) (rest : List String) :
    ∀ (i : Nat) (acc : List String × List String),
      ∃ r, secondLoop g idx gi i rest acc = Except.ok r := by
  induction rest with
  | nil => intro i acc; exact ⟨acc, rfl⟩
  | cons arg rest ih =>
    intro i acc
    obtain ⟨add, go⟩ := acc
    simp only [secondLoop]
    by_cases hc : gi > 0 ∧ i = gi
    · rw [if_pos hc]
      by_cases hp : strings.HasPrefix arg (g.GlobalOptionsFlag ++ "=") = true
      · obtain ⟨v, hv⟩ := splitN_of_hasPrefix arg g.GlobalOptionsFlag hp
        rw [if_pos hp, hv]
        exact ih _ _
      · rw [if_neg hp]
        exact ih _ _
    · rw [if_neg hc]
      exact ih _ _

/-- The last step on fewer than two tokens: the index is out of range. -/
theorem assignSubCommand_short (info : ArgsAndFlagsInfo) (res : List String)
    (h : res.length < 2) : assignSubCommand info res = Except.error Abort.indexOutOfRange := by
  match res, h with
  | [], _ => rfl
  | [a], _ =>
    simp only [assignSubCommand, plainSubCommand, List.getElem?_cons_zero, List.getElem?_cons_succ,
      List.getElem?_nil]
    split_ifs <;> rfl

/-- The last step on exactly the legacy command: the index of the component is
out of range. -/
theorem assignSubCommand_legacy_short (info : ArgsAndFlagsInfo) :
    assignSubCommand info ["write", "varfile"] = Except.error Abort.indexOutOfRange := rfl

/-- The last step on two or more tokens, without the legacy exception: a result. -/
theorem assignSubCommand_plain (info : ArgsAndFlagsInfo) (res : List String)
    (h : 2 ≤ res.length) (hn : ¬ (res[0]? = some "write" ∧ res[1]? = some "varfile")) :
    ∃ assigned, assignSubCommand info res = Except.ok assigned := by
  match res, h with
  | a :: b :: rest, _ =>
    simp only [List.getElem?_cons_zero, List.getElem?_cons_succ, Option.some.injEq] at hn
    simp only [assignSubCommand, plainSubCommand, List.getElem?_cons_zero,
      List.getElem?_cons_succ]
    by_cases ha : a = "write"
    · rw [if_pos ha]
      have hb : ¬ b = "varfile" := fun hb => hn ⟨ha, hb⟩
      rw [if_neg hb]
      exact ⟨_, rfl⟩
    · rw [if_neg ha]
      exact ⟨_, rfl⟩

/-- The last step on three or more tokens: a result. -/
theorem assignSubCommand_long (info : ArgsAndFlagsInfo) (res : List String)
    (h : 3 ≤ res.length) : ∃ assigned, assignSubCommand info res = Except.ok assigned := by
  match res, h with
  | a :: b :: c :: rest, _ =>
    simp only [assignSubCommand, plainSubCommand, List.getElem?_cons_zero,
      List.getElem?_cons_succ]
    split_ifs <;> exact ⟨_, rfl⟩

/-- The last step faults exactly on fewer than two tokens and on the bare
legacy command. -/
theorem assignSubCommand_fault_iff (info : ArgsAndFlagsInfo) (res : List String) :
    assignSubCommand info res = Except.error Abort.indexOutOfRange ↔
      res.length < 2 ∨ res = ["write", "varfile"] := by
  constructor
  · intro hf
    by_cases h2 : res.length < 2
    · exact Or.inl h2
    · right
      by_cases h3 : 3 ≤ res.length
      · obtain ⟨a, e⟩ := assignSubCommand_long info res h3
        rw [e] at hf; cases hf
      · by_cases hn : res[0]? = some "write" ∧ res[1]? = some "varfile"
        · match res, h2, h3, hn with
          | [a, b], _, _, hn =>
            simp only [List.getElem?_cons_zero, List.getElem?_cons_succ,
              Option.some.injEq] at hn
            rw [hn.1, hn.2]
          | [], h2, _, _ => simp at h2
          | [a], h2, _, _ => simp at h2
          | a :: b :: c :: r, _, h3, _ => simp at h3
        · obtain ⟨a, e⟩ := assignSubCommand_plain info res (by omega) hn
          rw [e] at hf; cases hf
  · rintro (h | h)
    · exact assignSubCommand_short info res h
    · rw [h]; rfl

/-- Without an invalid-flag error the function is the last step on the residual
sequence, with the values that the two loops have read. -/
theorem processArgsAndFlags_last_step (g : Globals) (input : List String)
    (h : ∀ info msg, processArgsAndFlags g input ≠ Except.error (Abort.invalidFlag info msg)) :
    ∃ (extracted : ArgsAndFlagsInfo) (globalOptions : List String),
      processArgsAndFlags g input =
        (assignSubCommand extracted (residual g false input)).bind fun info =>
          Except.ok { info with GlobalOptions := globalOptions } := by
  rcases extractAll_cases g input ArgsAndFlagsInfo.zero with ⟨t, info', _, e⟩ | ⟨_, info', e⟩
  · exfalso
    apply h info' (errInvalidFlag t)
    rw [processArgsAndFlags_eq, e]
    rfl
  · obtain ⟨go, hgo⟩ := globalOptionsOf_total g (globalOptionsToken g input) []
    refine ⟨info', go, ?_⟩
    rw [processArgsAndFlags_eq, e, hgo]
    rfl

/-- Claim C21: indexing in processArgsAndFlags. For every argument list that
raises no invalid-flag error: with fewer than two residual tokens the function
hits an index that is out of range; with two or more residual tokens and the
legacy exception for write varfile not taken it returns normally; with three
or more it returns normally; the fault arises exactly on fewer than two
residual tokens and on the bare residual write, varfile; and the other slice
accesses are in range: the first loop (flag value at i+1, second part of a
split token) never faults, and the second loop (second part of the
global-options token) always runs to its end. -/
theorem processArgsAndFlags_index_fault (g : Globals) (input : List String)
    (h : ∀ info msg, processArgsAndFlags g input ≠ Except.error (Abort.invalidFlag info msg)) :
    ((residual g false input).length < 2 →
      processArgsAndFlags g input = Except.error Abort.indexOutOfRange) ∧
    (2 ≤ (residual g false input).length →
      ¬ ((residual g false input)[0]? = some "write" ∧
          (residual g false input)[1]? = some "varfile") →
      ∃ info, processArgsAndFlags g input = Except.ok info) ∧
    (3 ≤ (residual g false input).length →
      ∃ info, processArgsAndFlags g input = Except.ok info) ∧
    (processArgsAndFlags g input = Except.error Abort.indexOutOfRange ↔
      (residual g false input).length < 2 ∨ residual g false input = ["write", "varfile"]) ∧
    (∀ (i : Nat) (rest : List String) (st : ArgsState),
      firstLoop g input i rest st ≠ Except.error Abort.indexOutOfRange) ∧
    (∀ (indexesToRemove : List Nat) (globalOptionsFlagIndex i : Nat) (rest : List String)
        (acc : List String × List String),
      ∃ r, secondLoop g indexesToRemove globalOptionsFlagIndex i rest acc = Except.ok r) := by
  obtain ⟨extracted, go, e⟩ := processArgsAndFlags_last_step g input h
  refine ⟨?_, ?_, ?_, ?_, fun i rest st => firstLoop_no_fault g input rest i st,
    fun idx gi i rest acc => secondLoop_total g idx gi rest i acc⟩
  · intro hlen
    rw [e, assignSubCommand_short extracted _ hlen]
    rfl
  · intro hlen hn
    obtain ⟨a, ha⟩ := assignSubCommand_plain extracted _ hlen hn
    rw [e, ha]
    exact ⟨_, rfl⟩
  · intro hlen
    obtain ⟨a, ha⟩ := assignSubCommand_long extracted _ hlen
    rw [e, ha]
    exact ⟨_, rfl⟩
  · rw [← assignSubCommand_fault_iff extracted, e]
    cases assignSubCommand extracted (residual g false input) with
    | error a =>
      constructor
      · intro hh; exact hh
      · intro hh; exact hh
    | ok a =>
      constructor
      · intro hh; cases hh
      · intro hh; cases hh

/-- Witness of claim C21: without a component the call faults, with subcommand
and component it returns, and the bare legacy command faults. -/
theorem processArgsAndFlags_index_fault_witness :
    (residual exampleGlobals false ["plan", "--stack", "dev"] = ["plan"] ∧
      processArgsAndFlags exampleGlobals ["plan", "--stack", "dev"] =
        Except.error Abort.indexOutOfRange) ∧
    (∃ info, processArgsAndFlags exampleGlobals ["plan", "vpc", "--stack", "dev"] =
        Except.ok info) ∧
    processArgsAndFlags exampleGlobals ["write", "-s", "dev", "varfile"] =
      Except.error Abort.indexOutOfRange :=
  ⟨⟨by decide,
    (processArgsAndFlags_index_fault exampleGlobals ["plan", "--stack", "dev"]
      (processArgsAndFlags_no_invalid _ _ (by decide))).1 (by decide)⟩,
   (processArgsAndFlags_index_fault exampleGlobals ["plan", "vpc", "--stack", "dev"]
      (processArgsAndFlags_no_invalid _ _ (by decide))).2.1 (by decide) (by decide),
   (processArgsAndFlags_index_fault exampleGlobals ["write", "-s", "dev", "varfile"]
      (processArgsAndFlags_no_invalid _ _ (by decide))).2.2.2.1.mpr (Or.inr (by decide))⟩

end Atmos
